import Mathlib

/-!
# DeltaNodes wire codec (`imposm/cache/imposm_internal.pb.cc`)

A shallow embedding of the generated message class `imposm::cache::internal::DeltaNodes`
(`repeated sint64 id = 1 [packed]`, `repeated sint32 lat = 2 [packed]`,
`repeated sint32 lon = 3 [packed]`) together with the pieces of the protocol-buffer
runtime that its methods call.

* The methods of `DeltaNodes` (`ByteSize`, `SerializeWithCachedSizes`,
  `SerializeWithCachedSizesToArray`, `MergePartialFromCodedStream`, `Clear`, `MergeFrom`,
  `Swap`) are translated from the source
  file, statement by statement; the labels `parse_lat`, `parse_lon` and
  `handle_uninterpreted` of the parser are functions that take the rest of the loop as
  an argument.
* The runtime (`CodedInputStream`, `CodedOutputStream`, `WireFormatLite`, `WireFormat`,
  `RepeatedField`, `UnknownFieldSet`) is not among the sources of the repository. Its
  functions are modelled after the description of the wire format; each such definition
  has a doc comment that starts with `Modelled from the spec:`.
* Bytes are natural numbers below 256, a coded stream is the list of bytes still unread
  (input) or written so far (output); the input is held in memory as a whole.
* C++ `int`, `int32`, `int64` are `Int`; `uint32`, `uint64` are `Nat`; every place where
  the C++ code converts or may wrap has an explicit `toInt32`/`toUInt32`/... call.
* A C++ function returning `bool` returns `Outcome`: `ok` for `true`, `fail` for `false`.
  Loops of the runtime are iterated with an explicit budget; `Outcome.fuel` marks an
  exhausted budget, so that it can never be mistaken for a result of the program.
  `MergePartialFromCodedStream_total` shows that the parser never returns it.
-/

namespace Imposm

/-! ## Machine integers -/

/-- Conversion to `uint32`. -/
def toUInt32 (x : Int) : Nat := (x % 2 ^ 32).toNat

/-- Conversion to `uint64`. -/
def toUInt64 (x : Int) : Nat := (x % 2 ^ 64).toNat

/-- Conversion to a two's complement `int32` (also the model of `int` arithmetic). -/
def toInt32 (x : Int) : Int := (x + 2 ^ 31) % 2 ^ 32 - 2 ^ 31

/-- Conversion to a two's complement `int64`. -/
def toInt64 (x : Int) : Int := (x + 2 ^ 63) % 2 ^ 64 - 2 ^ 63

/-- Values of a C++ `int32`. -/
def IsInt32 (x : Int) : Prop := -2 ^ 31 ≤ x ∧ x < 2 ^ 31

/-- Values of a C++ `int64`. -/
def IsInt64 (x : Int) : Prop := -2 ^ 63 ≤ x ∧ x < 2 ^ 63

instance (x : Int) : Decidable (IsInt32 x) := by unfold IsInt32; exact inferInstance

instance (x : Int) : Decidable (IsInt64 x) := by unfold IsInt64; exact inferInstance

/-! ## Outcome of a fallible runtime call -/

/-- Result of a C++ function that returns `bool` and updates state. -/
inductive Outcome (α : Type) where
  | ok (a : α)
  | fail
  | fuel
  deriving DecidableEq, Repr

/-- Sequencing in the style of the `DO_` pattern: stop at the first non-`ok`. -/
def Outcome.bind {α β : Type} (x : Outcome α) (f : α → Outcome β) : Outcome β :=
  match x with
  | .ok a => f a
  | .fail => .fail
  | .fuel => .fuel

/-! ## Varint and zig-zag primitives (`CodedOutputStream`, `CodedInputStream`,
`WireFormatLite`) -/

/-- Modelled from the spec: the body of `CodedOutputStream::WriteVarint32/64` (protobuf
runtime, not part of this repository's sources). Seven bits per byte, least significant
group first, continuation bit `0x80` on every byte but the last. The first argument
bounds the number of bytes (5 for 32 bits, 10 for 64 bits). -/
def WriteVarintLoop : Nat → Nat → List Nat
  | 0, _ => []
  | k + 1, value =>
    if value < 0x80 then [value]
    else (value % 0x80 + 0x80) :: WriteVarintLoop k (value / 0x80)

/-- Modelled from the spec: `CodedOutputStream::WriteVarint32(uint32)`. -/
def WriteVarint32 (value : Nat) : List Nat := WriteVarintLoop 5 (value % 2 ^ 32)

/-- Modelled from the spec: `CodedOutputStream::WriteVarint64(uint64)`. -/
def WriteVarint64 (value : Nat) : List Nat := WriteVarintLoop 10 (value % 2 ^ 64)

/-- Modelled from the spec: the body of `CodedInputStream::ReadVarint32/64` (protobuf
runtime). Reads groups of seven bits until a byte without continuation bit; `none` when
the input ends first or when more than the given maximum number of bytes would be
consumed. -/
def ReadVarintLoop : Nat → List Nat → Option (Nat × List Nat)
  | 0, _ => none
  | _ + 1, [] => none
  | k + 1, b :: rest =>
    if b < 0x80 then some (b, rest)
    else
      match ReadVarintLoop k rest with
      | none => none
      | some (v, rest') => some (b % 0x80 + 0x80 * v, rest')

/-- Modelled from the spec: `CodedInputStream::ReadVarint32`, at most 5 bytes, the value
kept modulo `2^32`. -/
def ReadVarint32 (input : List Nat) : Option (Nat × List Nat) :=
  match ReadVarintLoop 5 input with
  | none => none
  | some (v, rest) => some (v % 2 ^ 32, rest)

/-- Modelled from the spec: `CodedInputStream::ReadVarint64`, at most 10 bytes, the value
kept modulo `2^64`. -/
def ReadVarint64 (input : List Nat) : Option (Nat × List Nat) :=
  match ReadVarintLoop 10 input with
  | none => none
  | some (v, rest) => some (v % 2 ^ 64, rest)

/-- Modelled from the spec: `WireFormatLite::ZigZagEncode32`, `(n << 1) ^ (n >> 31)` with
an arithmetic right shift, as a `uint32`. -/
def ZigZagEncode32 (n : Int) : Nat := toUInt32 (n * 2) ^^^ toUInt32 (n >>> (31 : Nat))

/-- Modelled from the spec: `WireFormatLite::ZigZagEncode64`, `(n << 1) ^ (n >> 63)` with
an arithmetic right shift, as a `uint64`. -/
def ZigZagEncode64 (n : Int) : Nat := toUInt64 (n * 2) ^^^ toUInt64 (n >>> (63 : Nat))

/-- Modelled from the spec: `WireFormatLite::ZigZagDecode32`, `(n >> 1) ^ -(n & 1)`. -/
def ZigZagDecode32 (n : Nat) : Int :=
  toInt32 (((n >>> 1) ^^^ toUInt32 (-((n &&& 1 : Nat) : Int)) : Nat) : Int)

/-- Modelled from the spec: `WireFormatLite::ZigZagDecode64`, `(n >> 1) ^ -(n & 1)`. -/
def ZigZagDecode64 (n : Nat) : Int :=
  toInt64 (((n >>> 1) ^^^ toUInt64 (-((n &&& 1 : Nat) : Int)) : Nat) : Int)

/-- Modelled from the spec: `CodedOutputStream::VarintSize32`, the byte length of the
varint of a `uint32`. -/
def VarintSize32 (value : Nat) : Int :=
  if value < 2 ^ 7 then 1
  else if value < 2 ^ 14 then 2
  else if value < 2 ^ 21 then 3
  else if value < 2 ^ 28 then 4
  else 5

/-- Modelled from the spec: `CodedOutputStream::VarintSize64`, the byte length of the
varint of a `uint64`. -/
def VarintSize64 (value : Nat) : Int :=
  if value < 2 ^ 7 then 1
  else if value < 2 ^ 14 then 2
  else if value < 2 ^ 21 then 3
  else if value < 2 ^ 28 then 4
  else if value < 2 ^ 35 then 5
  else if value < 2 ^ 42 then 6
  else if value < 2 ^ 49 then 7
  else if value < 2 ^ 56 then 8
  else if value < 2 ^ 63 then 9
  else 10

/-- Modelled from the spec: `WireFormatLite::SInt32Size`. -/
def SInt32Size (value : Int) : Int := VarintSize32 (ZigZagEncode32 value)

/-- Modelled from the spec: `WireFormatLite::SInt64Size`. -/
def SInt64Size (value : Int) : Int := VarintSize64 (ZigZagEncode64 value)

/-- Modelled from the spec: `WireFormatLite::Int32Size`; a negative `int32` is
sign-extended and takes ten bytes. -/
def Int32Size (value : Int) : Int :=
  if value < 0 then 10 else VarintSize32 (toUInt32 value)

/-- Modelled from the spec: `WireFormatLite::WriteSInt32NoTag`. -/
def WriteSInt32NoTag (value : Int) : List Nat := WriteVarint32 (ZigZagEncode32 value)

/-- Modelled from the spec: `WireFormatLite::WriteSInt64NoTag`. -/
def WriteSInt64NoTag (value : Int) : List Nat := WriteVarint64 (ZigZagEncode64 value)

/-- Modelled from the spec: `WireFormatLite::ReadPrimitive<int32, TYPE_SINT32>`. -/
def ReadSInt32 (input : List Nat) : Option (Int × List Nat) :=
  match ReadVarint32 input with
  | none => none
  | some (v, rest) => some (ZigZagDecode32 v, rest)

/-- Modelled from the spec: `WireFormatLite::ReadPrimitive<int64, TYPE_SINT64>`. -/
def ReadSInt64 (input : List Nat) : Option (Int × List Nat) :=
  match ReadVarint64 input with
  | none => none
  | some (v, rest) => some (ZigZagDecode64 v, rest)

/-! ## Tags and stream helpers -/

/-- Wire type `WIRETYPE_VARINT`. -/
def WIRETYPE_VARINT : Nat := 0

/-- Wire type `WIRETYPE_FIXED64`. -/
def WIRETYPE_FIXED64 : Nat := 1

/-- Wire type `WIRETYPE_LENGTH_DELIMITED`. -/
def WIRETYPE_LENGTH_DELIMITED : Nat := 2

/-- Wire type `WIRETYPE_START_GROUP`. -/
def WIRETYPE_START_GROUP : Nat := 3

/-- Wire type `WIRETYPE_END_GROUP`. -/
def WIRETYPE_END_GROUP : Nat := 4

/-- Wire type `WIRETYPE_FIXED32`. -/
def WIRETYPE_FIXED32 : Nat := 5

/-- Modelled from the spec: `WireFormatLite::MakeTag`, `(field_number << 3) | type` as a
`uint32`. -/
def MakeTag (field_number type : Nat) : Nat := ((field_number <<< 3) ||| type) % 2 ^ 32

/-- Modelled from the spec: `WireFormatLite::GetTagFieldNumber`, `tag >> 3`. -/
def GetTagFieldNumber (tag : Nat) : Nat := tag >>> 3

/-- Modelled from the spec: `WireFormatLite::GetTagWireType`, `tag & 7`. -/
def GetTagWireType (tag : Nat) : Nat := tag &&& 7

/-- Modelled from the spec: `WireFormatLite::WriteTag`. -/
def WriteTag (field_number type : Nat) : List Nat := WriteVarint32 (MakeTag field_number type)

/-- Modelled from the spec: `CodedInputStream::ReadTag`. Returns 0 at the end of the input
and when no tag can be read; otherwise the tag, a `uint32` varint. -/
def ReadTag (input : List Nat) : Nat × List Nat :=
  match input with
  | [] => (0, [])
  | b :: rest =>
    if b < 0x80 then (b, rest)
    else
      match ReadVarint32 input with
      | none => (0, input)
      | some (tag, rest') => (tag, rest')

/-- Modelled from the spec: `CodedInputStream::ExpectTag` for a one-byte tag: consumes the
next byte when it is the expected tag. -/
def ExpectTag (expected : Nat) (input : List Nat) : Bool × List Nat :=
  match input with
  | b :: rest => if b = expected then (true, rest) else (false, input)
  | [] => (false, input)

/-- Modelled from the spec: `CodedInputStream::ExpectAtEnd`: no byte is left to read. -/
def ExpectAtEnd (input : List Nat) : Bool := input.isEmpty

/-- Modelled from the spec: `CodedInputStream::ReadLittleEndian32/64`, the given number of
bytes, least significant first. -/
def ReadLittleEndian : Nat → List Nat → Option (Nat × List Nat)
  | 0, input => some (0, input)
  | _ + 1, [] => none
  | k + 1, b :: rest =>
    match ReadLittleEndian k rest with
    | none => none
    | some (v, rest') => some (b + 256 * v, rest')

/-- Modelled from the spec: `CodedOutputStream::WriteLittleEndian32/64`. -/
def WriteLittleEndian : Nat → Nat → List Nat
  | 0, _ => []
  | k + 1, value => (value % 256) :: WriteLittleEndian k (value / 256)

/-! ## `RepeatedField` -/

/-- Modelled from the spec: `RepeatedField<T>`: the elements in order, and the allocated
capacity `total_size_` (which the non-packed reader consults). -/
structure RepeatedField where
  elements : List Int
  total_size : Nat
  deriving DecidableEq, Repr

/-- Initial capacity `kInitialSize`. -/
def kInitialSize : Nat := 4

/-- A freshly constructed field. -/
def RepeatedField.empty : RepeatedField := ⟨[], kInitialSize⟩

/-- Modelled from the spec: `RepeatedField::Reserve`: grow to at least `new_size`,
doubling. -/
def RepeatedField.Reserve (r : RepeatedField) (new_size : Nat) : RepeatedField :=
  if new_size ≤ r.total_size then r
  else { r with total_size := max (r.total_size * 2) new_size }

/-- Modelled from the spec: `RepeatedField::Add`: append one element. -/
def RepeatedField.Add (r : RepeatedField) (value : Int) : RepeatedField :=
  let r' := if r.elements.length = r.total_size then r.Reserve (r.total_size + 1) else r
  { r' with elements := r'.elements ++ [value] }

/-- Modelled from the spec: `RepeatedField::Clear`: drops the elements, keeps the
allocation. -/
def RepeatedField.Clear (r : RepeatedField) : RepeatedField := { r with elements := [] }

/-- Modelled from the spec: `RepeatedField::MergeFrom`: append the other field's
elements. -/
def RepeatedField.MergeFrom (r other : RepeatedField) : RepeatedField :=
  let r' := r.Reserve (r.elements.length + other.elements.length)
  { r' with elements := r'.elements ++ other.elements }

/-! ## Packed and non-packed readers -/

/-- The loop of `ReadPackedPrimitive` between `PushLimit` and `PopLimit`: `payload` is
the part of the input before the limit. -/
def ReadPackedLoop (read : List Nat → Option (Int × List Nat)) :
    Nat → List Nat → RepeatedField → Outcome RepeatedField
  | _, [], values => .ok values
  | 0, _ :: _, _ => .fuel
  | k + 1, b :: payload, values =>
    match read (b :: payload) with
    | none => .fail
    | some (value, payload') => ReadPackedLoop read k payload' (values.Add value)

/-- Modelled from the spec: `WireFormatLite::ReadPackedPrimitive<CType, DeclaredType>`:
read the payload length, then decode elements from exactly that many bytes; fails when
the announced length exceeds the remaining input or an element crosses the payload
boundary. (Stream positions are C++ `int`s: the model is for inputs shorter than `2^31`
bytes.) -/
def ReadPackedPrimitive (read : List Nat → Option (Int × List Nat))
    (input : List Nat) (values : RepeatedField) : Outcome (RepeatedField × List Nat) :=
  match ReadVarint32 input with
  | none => .fail
  | some (length, input') =>
    if input'.length < length then .fail
    else
      (ReadPackedLoop read length (input'.take length) values).bind fun values' =>
        .ok (values', input'.drop length)

/-- The `while (elements_already_reserved > 0 && input->ExpectTag(tag))` loop of
`ReadRepeatedPrimitive`. -/
def ReadRepeatedLoop (read : List Nat → Option (Int × List Nat)) (tag : Nat) :
    Nat → List Nat → RepeatedField → Outcome (RepeatedField × List Nat)
  | 0, input, values => .ok (values, input)
  | reserved + 1, input, values =>
    match ExpectTag tag input with
    | (false, _) => .ok (values, input)
    | (true, input') =>
      match read input' with
      | none => .fail
      | some (value, input'') =>
        ReadRepeatedLoop read tag reserved input''
          { values with elements := values.elements ++ [value] }

/-- Modelled from the spec: `WireFormatLite::ReadRepeatedPrimitiveNoInline<CType,
DeclaredType>(tag_size, tag, input, values)`, the reader of the non-packed form: read one
element and `Add` it; then, `while (elements_already_reserved > 0 &&
input->ExpectTag(tag))`, read one more element into the reserved capacity. -/
def ReadRepeatedPrimitiveNoInline (read : List Nat → Option (Int × List Nat))
    (_tag_size : Nat) (tag : Nat) (input : List Nat) (values : RepeatedField) :
    Outcome (RepeatedField × List Nat) :=
  match read input with
  | none => .fail
  | some (value, input') =>
    let values' := values.Add value
    ReadRepeatedLoop read tag (values'.total_size - values'.elements.length) input' values'

/-! ## Unknown fields -/

/-- Modelled from the spec: one entry of the `UnknownFieldSet`: the field number and the
payload of its wire type. -/
inductive UnknownField where
  | varint (number : Nat) (value : Nat)
  | fixed32 (number : Nat) (value : Nat)
  | fixed64 (number : Nat) (value : Nat)
  | length_delimited (number : Nat) (data : List Nat)
  | group (number : Nat) (fields : List UnknownField)
  deriving Repr

/-- Recursion limit of a `CodedInputStream` (`default_recursion_limit_`). -/
def recursion_limit : Nat := 64

/-- Modelled from the spec: `WireFormat::SkipField(input, tag, unknown_fields)`, with the
group reader passed in. Returns the entry that is appended to the unknown fields. -/
def SkipFieldWith
    (skipMessage : Nat → List Nat → Outcome (Nat × List UnknownField × List Nat))
    (depth : Nat) (input : List Nat) (tag : Nat) : Outcome (UnknownField × List Nat) :=
  let number := GetTagFieldNumber tag
  match GetTagWireType tag with
  | 0 =>
    match ReadVarint64 input with
    | none => .fail
    | some (value, rest) => .ok (.varint number value, rest)
  | 1 =>
    match ReadLittleEndian 8 input with
    | none => .fail
    | some (value, rest) => .ok (.fixed64 number value, rest)
  | 2 =>
    match ReadVarint32 input with
    | none => .fail
    | some (length, rest) =>
      if 2 ^ 31 ≤ length ∨ rest.length < length then .fail
      else .ok (.length_delimited number (rest.take length), rest.drop length)
  | 3 =>
    if recursion_limit < depth + 1 then .fail
    else
      (skipMessage (depth + 1) input).bind fun (last_tag, fields, rest) =>
        if last_tag = MakeTag number WIRETYPE_END_GROUP then .ok (.group number fields, rest)
        else .fail
  | 5 =>
    match ReadLittleEndian 4 input with
    | none => .fail
    | some (value, rest) => .ok (.fixed32 number value, rest)
  | _ => .fail

/-- Modelled from the spec: `WireFormat::SkipMessage`: read entries until the end of the
input or an end-group tag. Returns the last tag read, the entries and the rest. -/
def SkipMessage : Nat → Nat → List Nat → Outcome (Nat × List UnknownField × List Nat)
  | 0, _, _ => .fuel
  | fuel + 1, depth, input =>
    match ReadTag input with
    | (tag, input') =>
      if tag = 0 then .ok (tag, [], input')
      else if GetTagWireType tag = WIRETYPE_END_GROUP then .ok (tag, [], input')
      else
        (SkipFieldWith (SkipMessage fuel) depth input' tag).bind fun (field, input'') =>
          (SkipMessage fuel depth input'').bind fun (last_tag, fields, rest) =>
            .ok (last_tag, field :: fields, rest)

/-- Modelled from the spec: `WireFormat::SkipField` as called from the message parser, at
recursion depth 0. -/
def SkipField (input : List Nat) (tag : Nat) : Outcome (UnknownField × List Nat) :=
  SkipFieldWith (SkipMessage (input.length + 1)) 0 input tag

mutual
/-- Modelled from the spec: one entry of `WireFormat::SerializeUnknownFields`. -/
def SerializeUnknownField : UnknownField → List Nat
  | .varint number value => WriteVarint32 (MakeTag number WIRETYPE_VARINT) ++ WriteVarint64 value
  | .fixed32 number value =>
    WriteVarint32 (MakeTag number WIRETYPE_FIXED32) ++ WriteLittleEndian 4 value
  | .fixed64 number value =>
    WriteVarint32 (MakeTag number WIRETYPE_FIXED64) ++ WriteLittleEndian 8 value
  | .length_delimited number data =>
    WriteVarint32 (MakeTag number WIRETYPE_LENGTH_DELIMITED) ++ WriteVarint32 data.length ++ data
  | .group number fields =>
    WriteVarint32 (MakeTag number WIRETYPE_START_GROUP) ++ SerializeUnknownFields fields
      ++ WriteVarint32 (MakeTag number WIRETYPE_END_GROUP)
/-- Modelled from the spec: `WireFormat::SerializeUnknownFields`: the entries in order. -/
def SerializeUnknownFields : List UnknownField → List Nat
  | [] => []
  | field :: fields => SerializeUnknownField field ++ SerializeUnknownFields fields
end

mutual
/-- Modelled from the spec: the contribution of one entry to
`WireFormat::ComputeUnknownFieldsSize`; every `size +=` is an `int` addition. -/
def ComputeUnknownFieldSize : UnknownField → Int
  | .varint number value =>
    toInt32 (VarintSize32 (MakeTag number WIRETYPE_VARINT) + VarintSize64 (value % 2 ^ 64))
  | .fixed32 number _ => toInt32 (VarintSize32 (MakeTag number WIRETYPE_FIXED32) + 4)
  | .fixed64 number _ => toInt32 (VarintSize32 (MakeTag number WIRETYPE_FIXED64) + 8)
  | .length_delimited number data =>
    toInt32 (toInt32 (VarintSize32 (MakeTag number WIRETYPE_LENGTH_DELIMITED)
      + VarintSize32 (data.length % 2 ^ 32)) + data.length)
  | .group number fields =>
    toInt32 (toInt32 (VarintSize32 (MakeTag number WIRETYPE_START_GROUP)
      + ComputeUnknownFieldsSize fields) + VarintSize32 (MakeTag number WIRETYPE_END_GROUP))
/-- Modelled from the spec: `WireFormat::ComputeUnknownFieldsSize`, an `int`. -/
def ComputeUnknownFieldsSize : List UnknownField → Int
  | [] => 0
  | field :: fields => toInt32 (ComputeUnknownFieldSize field + ComputeUnknownFieldsSize fields)
end

/-! ## The message class `DeltaNodes` -/

/-- State of a `DeltaNodes` object: the three repeated fields, the unknown fields, and
the `mutable` size caches. -/
structure DeltaNodes where
  id_ : RepeatedField
  lat_ : RepeatedField
  lon_ : RepeatedField
  _unknown_fields_ : List UnknownField
  _id_cached_byte_size_ : Int
  _lat_cached_byte_size_ : Int
  _lon_cached_byte_size_ : Int
  _cached_size_ : Int
  _has_bits_ : Nat
  deriving Repr

/-- `DeltaNodes::DeltaNodes()` with `SharedCtor`: empty fields, `_cached_size_ = 0`, the
has-bits cleared. The per-field size caches are not initialised by the constructor; their
indeterminate contents are the three arguments. -/
def DeltaNodes.New (id_cached lat_cached lon_cached : Int) : DeltaNodes :=
  { id_ := RepeatedField.empty, lat_ := RepeatedField.empty, lon_ := RepeatedField.empty,
    _unknown_fields_ := [],
    _id_cached_byte_size_ := id_cached, _lat_cached_byte_size_ := lat_cached,
    _lon_cached_byte_size_ := lon_cached,
    _cached_size_ := 0, _has_bits_ := 0 }

/-- `DeltaNodes::Clear`. -/
def DeltaNodes.Clear (msg : DeltaNodes) : DeltaNodes :=
  { msg with id_ := msg.id_.Clear, lat_ := msg.lat_.Clear, lon_ := msg.lon_.Clear,
             _has_bits_ := 0, _unknown_fields_ := [] }

/-- The loop `for (i ...) data_size += Size(this->field(i))` of `ByteSize`, on `int`. -/
def DataSize (size : Int → Int) (values : List Int) : Int :=
  values.foldl (fun data_size value => toInt32 (data_size + size value)) 0

/-- One of the three blocks of `DeltaNodes::ByteSize`: from the running `total_size` to
the new `total_size` and the value stored in the field's size cache. -/
def ByteSizeField (size : Int → Int) (values : List Int) (total_size : Int) : Int × Int :=
  let data_size := DataSize size values
  let total_size :=
    if data_size > 0 then toInt32 (total_size + toInt32 (1 + Int32Size data_size))
    else total_size
  (toInt32 (total_size + data_size), data_size)

/-- `DeltaNodes::ByteSize`: the returned size and the object with its caches updated. -/
def DeltaNodes.ByteSize (msg : DeltaNodes) : Int × DeltaNodes :=
  let total_size : Int := 0
  let (total_size, id_cached) := ByteSizeField SInt64Size msg.id_.elements total_size
  let (total_size, lat_cached) := ByteSizeField SInt32Size msg.lat_.elements total_size
  let (total_size, lon_cached) := ByteSizeField SInt32Size msg.lon_.elements total_size
  let total_size :=
    if !msg._unknown_fields_.isEmpty then
      toInt32 (total_size + ComputeUnknownFieldsSize msg._unknown_fields_)
    else total_size
  (total_size,
    { msg with _id_cached_byte_size_ := id_cached, _lat_cached_byte_size_ := lat_cached,
               _lon_cached_byte_size_ := lon_cached, _cached_size_ := total_size })

/-- One of the three blocks of `DeltaNodes::SerializeWithCachedSizes`: tag and cached
payload size when the field has elements, then every element. -/
def SerializeField (field_number : Nat) (write : Int → List Nat) (values : List Int)
    (cached_byte_size : Int) : List Nat :=
  (if (values.length : Int) > 0 then
      WriteTag field_number WIRETYPE_LENGTH_DELIMITED ++ WriteVarint32 (toUInt32 cached_byte_size)
    else [])
  ++ (values.map write).flatten

/-- `DeltaNodes::SerializeWithCachedSizes`: the bytes written to the output stream. -/
def DeltaNodes.SerializeWithCachedSizes (msg : DeltaNodes) : List Nat :=
  SerializeField 1 WriteSInt64NoTag msg.id_.elements msg._id_cached_byte_size_
  ++ SerializeField 2 WriteSInt32NoTag msg.lat_.elements msg._lat_cached_byte_size_
  ++ SerializeField 3 WriteSInt32NoTag msg.lon_.elements msg._lon_cached_byte_size_
  ++ (if !msg._unknown_fields_.isEmpty then SerializeUnknownFields msg._unknown_fields_ else [])

/-- Continuation type of the parse loop: the rest of `MergePartialFromCodedStream`. -/
abbrev ParseCont := List Nat → DeltaNodes → Outcome (DeltaNodes × List Nat)

/-- Label `handle_uninterpreted`: an end-group tag ends the parse with `true`, any other
entry goes through `SkipField` into the unknown fields. -/
def handle_uninterpreted (loop : ParseCont) (tag : Nat) : ParseCont := fun input msg =>
  if GetTagWireType tag = WIRETYPE_END_GROUP then .ok (msg, input)
  else
    (SkipField input tag).bind fun (field, input') =>
      loop input' { msg with _unknown_fields_ := msg._unknown_fields_ ++ [field] }

/-- Label `parse_lon`: the packed reader of field 3, then `ExpectAtEnd`. -/
def parse_lon (loop : ParseCont) : ParseCont := fun input msg =>
  (ReadPackedPrimitive ReadSInt32 input msg.lon_).bind fun (lon, input') =>
    if ExpectAtEnd input' then .ok ({ msg with lon_ := lon }, input')
    else loop input' { msg with lon_ := lon }

/-- Label `parse_lat`: the packed reader of field 2, then `ExpectTag(26)`. -/
def parse_lat (loop : ParseCont) : ParseCont := fun input msg =>
  (ReadPackedPrimitive ReadSInt32 input msg.lat_).bind fun (lat, input') =>
    match ExpectTag 26 input' with
    | (true, input'') => parse_lon loop input'' { msg with lat_ := lat }
    | (false, _) => loop input' { msg with lat_ := lat }

/-- The body of `case 1`. -/
def case_id (loop : ParseCont) (tag : Nat) : ParseCont := fun input msg =>
  if GetTagWireType tag = WIRETYPE_LENGTH_DELIMITED then
    (ReadPackedPrimitive ReadSInt64 input msg.id_).bind fun (id, input') =>
      match ExpectTag 18 input' with
      | (true, input'') => parse_lat loop input'' { msg with id_ := id }
      | (false, _) => loop input' { msg with id_ := id }
  else if GetTagWireType tag = WIRETYPE_VARINT then
    (ReadRepeatedPrimitiveNoInline ReadSInt64 1 10 input msg.id_).bind fun (id, input') =>
      match ExpectTag 18 input' with
      | (true, input'') => parse_lat loop input'' { msg with id_ := id }
      | (false, _) => loop input' { msg with id_ := id }
  else handle_uninterpreted loop tag input msg

/-- The body of `case 2`. -/
def case_lat (loop : ParseCont) (tag : Nat) : ParseCont := fun input msg =>
  if GetTagWireType tag = WIRETYPE_LENGTH_DELIMITED then parse_lat loop input msg
  else if GetTagWireType tag = WIRETYPE_VARINT then
    (ReadRepeatedPrimitiveNoInline ReadSInt32 1 18 input msg.lat_).bind fun (lat, input') =>
      match ExpectTag 26 input' with
      | (true, input'') => parse_lon loop input'' { msg with lat_ := lat }
      | (false, _) => loop input' { msg with lat_ := lat }
  else handle_uninterpreted loop tag input msg

/-- The body of `case 3`. -/
def case_lon (loop : ParseCont) (tag : Nat) : ParseCont := fun input msg =>
  if GetTagWireType tag = WIRETYPE_LENGTH_DELIMITED then parse_lon loop input msg
  else if GetTagWireType tag = WIRETYPE_VARINT then
    (ReadRepeatedPrimitiveNoInline ReadSInt32 1 26 input msg.lon_).bind fun (lon, input') =>
      if ExpectAtEnd input' then .ok ({ msg with lon_ := lon }, input')
      else loop input' { msg with lon_ := lon }
  else handle_uninterpreted loop tag input msg

/-- The `while ((tag = input->ReadTag()) != 0)` loop of
`DeltaNodes::MergePartialFromCodedStream`, iterated at most the given number of times.
The result is the updated object and the unread input. -/
def MergeLoop : Nat → ParseCont
  | 0, _, _ => .fuel
  | fuel + 1, input, msg =>
    match ReadTag input with
    | (tag, input') =>
      if tag = 0 then .ok (msg, input')
      else
        match GetTagFieldNumber tag with
        | 1 => case_id (MergeLoop fuel) tag input' msg
        | 2 => case_lat (MergeLoop fuel) tag input' msg
        | 3 => case_lon (MergeLoop fuel) tag input' msg
        | _ => handle_uninterpreted (MergeLoop fuel) tag input' msg

/-- `DeltaNodes::MergePartialFromCodedStream` on an input held in memory. Every iteration
of the loop that does not return consumes a byte, so `input.length + 1` iterations are
never used up. -/
def DeltaNodes.MergePartialFromCodedStream (msg : DeltaNodes) (input : List Nat) :
    Outcome (DeltaNodes × List Nat) :=
  MergeLoop (input.length + 1) input msg

/-- `DeltaNodes::MergeFrom(const DeltaNodes&)`. -/
def DeltaNodes.MergeFrom (msg src : DeltaNodes) : DeltaNodes :=
  { msg with id_ := msg.id_.MergeFrom src.id_, lat_ := msg.lat_.MergeFrom src.lat_,
             lon_ := msg.lon_.MergeFrom src.lon_,
             _unknown_fields_ := msg._unknown_fields_ ++ src._unknown_fields_ }

/-! ## Wire images used to state the properties -/

/-- The payload of a packed field: the encoding of every element, in sequence order. -/
def Payload (write : Int → List Nat) (s : List Int) : List Nat := (s.map write).flatten

/-- A length-delimited body: the payload length as a varint, then the payload. -/
def PackedBody (write : Int → List Nat) (s : List Int) : List Nat :=
  WriteVarint32 (Payload write s).length ++ Payload write s

/-- A complete packed entry of field `field_number` (one to three): the tag byte
`(field_number << 3) | 2`, the payload length, the payload. -/
def PackedEntry (field_number : Nat) (write : Int → List Nat) (s : List Int) : List Nat :=
  ((field_number <<< 3) ||| 2) :: PackedBody write s

/-- The frame `F(k, s)` written for a field: nothing for an empty sequence, otherwise the
packed entry. -/
def PackedFrame (field_number : Nat) (write : Int → List Nat) (s : List Int) : List Nat :=
  if s = [] then [] else PackedEntry field_number write s

/-- Appending the elements of `s` one by one with `RepeatedField::Add`. -/
def AddAll (values : RepeatedField) (s : List Int) : RepeatedField :=
  s.foldl RepeatedField.Add values

/-- Two continuations that agree on every input of length at most `n`. -/
def AgreeUpTo (n : Nat) (A B : ParseCont) : Prop :=
  ∀ input msg, input.length ≤ n → A input msg = B input msg

/-- `MergePartialFromCodedStream` as a continuation: what the parser does with the rest of
the input. -/
def Decode : ParseCont := fun input msg => msg.MergePartialFromCodedStream input

mutual
/-- An entry the unknown-field reader can have produced at recursion depth `depth`. -/
def ValidField (depth : Nat) : UnknownField → Bool
  | .varint number value => decide (1 ≤ number ∧ number < 2 ^ 29 ∧ value < 2 ^ 64)
  | .fixed32 number value => decide (1 ≤ number ∧ number < 2 ^ 29 ∧ value < 2 ^ 32)
  | .fixed64 number value => decide (1 ≤ number ∧ number < 2 ^ 29 ∧ value < 2 ^ 64)
  | .length_delimited number data =>
    decide (1 ≤ number ∧ number < 2 ^ 29 ∧ data.length < 2 ^ 31)
  | .group number fields =>
    decide (1 ≤ number ∧ number < 2 ^ 29 ∧ depth < recursion_limit)
      && ValidFields (depth + 1) fields
/-- Every entry of the list is valid at recursion depth `depth`. -/
def ValidFields (depth : Nat) : List UnknownField → Bool
  | [] => true
  | field :: fields => ValidField depth field && ValidFields depth fields
end

mutual
/-- Number of entries of an unknown field, nested ones included. -/
def CountField : UnknownField → Nat
  | .varint _ _ => 1
  | .fixed32 _ _ => 1
  | .fixed64 _ _ => 1
  | .length_delimited _ _ => 1
  | .group _ fields => 1 + CountFields fields
/-- Number of entries of a list of unknown fields, nested ones included. -/
def CountFields : List UnknownField → Nat
  | [] => 0
  | field :: fields => CountField field + CountFields fields
end

/-- The tag written in front of an unknown-field entry. -/
def FieldTag : UnknownField → Nat
  | .varint number _ => MakeTag number WIRETYPE_VARINT
  | .fixed32 number _ => MakeTag number WIRETYPE_FIXED32
  | .fixed64 number _ => MakeTag number WIRETYPE_FIXED64
  | .length_delimited number _ => MakeTag number WIRETYPE_LENGTH_DELIMITED
  | .group number _ => MakeTag number WIRETYPE_START_GROUP

/-- The bytes of an unknown-field entry that follow its tag. -/
def FieldPayload : UnknownField → List Nat
  | .varint _ value => WriteVarint64 value
  | .fixed32 _ value => WriteLittleEndian 4 value
  | .fixed64 _ value => WriteLittleEndian 8 value
  | .length_delimited _ data => WriteVarint32 data.length ++ data
  | .group number fields =>
    SerializeUnknownFields fields ++ WriteVarint32 (MakeTag number WIRETYPE_END_GROUP)

/-- An entry that `MergePartialFromCodedStream` does not interpret as field 1, 2 or 3:
any entry but a varint or length-delimited one with one of these numbers. -/
def Uninterpreted : UnknownField → Bool
  | .varint number _ => decide (number ≠ 1 ∧ number ≠ 2 ∧ number ≠ 3)
  | .length_delimited number _ => decide (number ≠ 1 ∧ number ≠ 2 ∧ number ≠ 3)
  | _ => true

/-- One entry of an input: a packed entry of field 1, 2 or 3, or an entry of another
field. -/
inductive Item where
  | ids (s : List Int)
  | lats (s : List Int)
  | lons (s : List Int)
  | unknown (e : UnknownField)

/-- The bytes of an entry. -/
def Item.bytes : Item → List Nat
  | .ids s => PackedEntry 1 WriteSInt64NoTag s
  | .lats s => PackedEntry 2 WriteSInt32NoTag s
  | .lons s => PackedEntry 3 WriteSInt32NoTag s
  | .unknown e => SerializeUnknownField e

/-- Well-formed entries: elements within their integer type, payload shorter than `2^31`
bytes; an unknown entry is valid and not one that fields 1 to 3 interpret. -/
def Item.Valid : Item → Prop
  | .ids s => (∀ x ∈ s, IsInt64 x) ∧ (Payload WriteSInt64NoTag s).length < 2 ^ 31
  | .lats s => (∀ x ∈ s, IsInt32 x) ∧ (Payload WriteSInt32NoTag s).length < 2 ^ 31
  | .lons s => (∀ x ∈ s, IsInt32 x) ∧ (Payload WriteSInt32NoTag s).length < 2 ^ 31
  | .unknown e => ValidField 0 e = true ∧ Uninterpreted e = true

/-- The effect of decoding an entry on the message. -/
def Item.apply (msg : DeltaNodes) : Item → DeltaNodes
  | .ids s => { msg with id_ := AddAll msg.id_ s }
  | .lats s => { msg with lat_ := AddAll msg.lat_ s }
  | .lons s => { msg with lon_ := AddAll msg.lon_ s }
  | .unknown e => { msg with _unknown_fields_ := msg._unknown_fields_ ++ [e] }

/-- The bytes of a sequence of entries. -/
def ItemsBytes (items : List Item) : List Nat := (items.map Item.bytes).flatten

/-- The elements that a sequence of entries carries for field 1. -/
def ItemsIds : List Item → List Int
  | [] => []
  | .ids s :: items => s ++ ItemsIds items
  | _ :: items => ItemsIds items

/-- The elements that a sequence of entries carries for field 2. -/
def ItemsLats : List Item → List Int
  | [] => []
  | .lats s :: items => s ++ ItemsLats items
  | _ :: items => ItemsLats items

/-- The elements that a sequence of entries carries for field 3. -/
def ItemsLons : List Item → List Int
  | [] => []
  | .lons s :: items => s ++ ItemsLons items
  | _ :: items => ItemsLons items

/-- The entries of other fields in a sequence of entries. -/
def ItemsUnknown : List Item → List UnknownField
  | [] => []
  | .unknown e :: items => e :: ItemsUnknown items
  | _ :: items => ItemsUnknown items

/-- The legacy, non-packed encoding of a sequence: every element behind its own tag of
wire type varint. -/
def LegacyRun (field_number : Nat) (write : Int → List Nat) (s : List Int) : List Nat :=
  (s.map fun x => WriteTag field_number WIRETYPE_VARINT ++ write x).flatten

/-- The parser stopped inside `input` leaving `rest` unread: at some position of the input
the tag that was read is 0 (end of input, a zero byte, or a tag that cannot be read) or
an end-group tag, and `rest` is what follows that tag. -/
def StopsAt (input rest : List Nat) : Prop :=
  ∃ s, s <:+ input ∧ (ReadTag s).2 = rest ∧
    ((ReadTag s).1 = 0 ∨ GetTagWireType (ReadTag s).1 = WIRETYPE_END_GROUP)

/-- A batch as the operations of the codec produce it: every element within its integer
type, every unknown entry one that the parser stores. -/
def DeltaNodes.WellFormed (msg : DeltaNodes) : Prop :=
  (∀ x ∈ msg.id_.elements, IsInt64 x) ∧ (∀ x ∈ msg.lat_.elements, IsInt32 x) ∧
  (∀ x ∈ msg.lon_.elements, IsInt32 x) ∧
  (∀ e ∈ msg._unknown_fields_, ValidField 0 e = true ∧ Uninterpreted e = true)

/-- The varint of a natural number of any size (seven bits per byte, least significant
group first). -/
def Varint (n : Nat) : List Nat := WriteVarintLoop (n + 1) n

/-- The frame `F(k, s)` as the specification words it: empty for an empty sequence,
otherwise the tag byte `(k << 3) | 2`, the varint of the payload length (the sum of the
elements' encoded lengths), and the encoding of every element in sequence order. -/
def FrameSpec (k : Nat) (write : Int → List Nat) (s : List Int) : List Nat :=
  if s = [] then []
  else [(k <<< 3) ||| 2] ++ Varint ((s.map fun x => (write x).length).sum)
    ++ (s.map write).flatten

/-- The framed size of a field as the specification words it: nothing for an empty
sequence, otherwise one tag byte, the bytes of the length prefix and the payload bytes. -/
def FramedSize (write : Int → List Nat) (s : List Int) : Nat :=
  if s = [] then 0
  else 1 + (Varint (Payload write s).length).length + (Payload write s).length

/-- The entries that `SerializeWithCachedSizes` writes for a batch: one packed entry for
every non-empty field, in field-number order, then the unknown entries. -/
def BatchItems (msg : DeltaNodes) : List Item :=
  (if msg.id_.elements = [] then [] else [Item.ids msg.id_.elements])
  ++ (if msg.lat_.elements = [] then [] else [Item.lats msg.lat_.elements])
  ++ (if msg.lon_.elements = [] then [] else [Item.lons msg.lon_.elements])
  ++ msg._unknown_fields_.map Item.unknown

/-- Whether an entry belongs to a field other than 1, 2, 3. -/
def Item.isUnknown : Item → Bool
  | .unknown _ => true
  | _ => false

/-- The byte offset `offset` lies inside the payload of one of the packed fields in the
serialization of `msg`: from the first payload byte up to, not including, the byte after
the last. -/
def InsidePayload (msg : DeltaNodes) (offset : Nat) : Prop :=
  let f1 := (PackedFrame 1 WriteSInt64NoTag msg.id_.elements).length
  let f2 := (PackedFrame 2 WriteSInt32NoTag msg.lat_.elements).length
  let f3 := (PackedFrame 3 WriteSInt32NoTag msg.lon_.elements).length
  let p1 := (Payload WriteSInt64NoTag msg.id_.elements).length
  let p2 := (Payload WriteSInt32NoTag msg.lat_.elements).length
  let p3 := (Payload WriteSInt32NoTag msg.lon_.elements).length
  (f1 - p1 ≤ offset ∧ offset < f1) ∨
  (f1 + f2 - p2 ≤ offset ∧ offset < f1 + f2) ∨
  (f1 + f2 + f3 - p3 ≤ offset ∧ offset < f1 + f2 + f3)

/-- The packed entries of fields 1, 2 and 3 that are present, in field-number order. -/
def PresentItems (a b c : List Int) (pa pb pc : Bool) : List Item :=
  (if pa then [Item.ids a] else []) ++ (if pb then [Item.lats b] else [])
    ++ (if pc then [Item.lons c] else [])

/-! ## Sample inputs -/

instance (a : Item) : Decidable a.Valid := by
  cases a <;> unfold Item.Valid <;> exact inferInstance

/-- A batch used to instantiate the theorems: three ids, two lats, one lon. -/
def sampleBatch : DeltaNodes :=
  { DeltaNodes.New 0 0 0 with
    id_ := ⟨[1, -1, 1000000], 4⟩, lat_ := ⟨[0, -850000000], 4⟩, lon_ := ⟨[0], 4⟩ }

/-- A batch without lats, used to instantiate the theorems. -/
def sampleNoLat : DeltaNodes :=
  { DeltaNodes.New 0 0 0 with id_ := ⟨[5, 6], 4⟩, lon_ := ⟨[-7], 4⟩ }

/-- An input with entries of field 4 between packed entries of fields 3, 1 and 2. -/
def sampleItems : List Item :=
  [.lons [3], .unknown (.varint 4 300), .ids [1, 2], .unknown (.length_delimited 4 [9, 8]),
   .lats [-2], .unknown (.group 4 [.fixed32 1 5]), .unknown (.fixed64 4 77)]

/-! ## Swap, and serializing to a flat array -/

/-- Modelled from the spec: `RepeatedField::Swap`: the two fields exchange their elements
and their allocations. The result is the pair (`this`, `other`) after the call. -/
def RepeatedField.Swap (r other : RepeatedField) : RepeatedField × RepeatedField := (other, r)

/-- `DeltaNodes::Swap`: the pair (`this`, `other`) after the call. The three repeated
fields, the has-bits, the unknown fields and `_cached_size_` are exchanged; the members
`_id_cached_byte_size_`, `_lat_cached_byte_size_` and `_lon_cached_byte_size_` are not
mentioned by the function and stay where they are. -/
def DeltaNodes.Swap (msg other : DeltaNodes) : DeltaNodes × DeltaNodes :=
  ({ msg with id_ := (msg.id_.Swap other.id_).1, lat_ := (msg.lat_.Swap other.lat_).1,
              lon_ := (msg.lon_.Swap other.lon_).1, _has_bits_ := other._has_bits_,
              _unknown_fields_ := other._unknown_fields_,
              _cached_size_ := other._cached_size_ },
   { other with id_ := (msg.id_.Swap other.id_).2, lat_ := (msg.lat_.Swap other.lat_).2,
                lon_ := (msg.lon_.Swap other.lon_).2, _has_bits_ := msg._has_bits_,
                _unknown_fields_ := msg._unknown_fields_,
                _cached_size_ := msg._cached_size_ })

/-- Modelled from the spec: `CodedOutputStream::WriteVarint32ToArray(value, target)`. The
array is represented by the bytes stored in it up to the position `target`; the varint is
stored from that position on and the advanced position is returned. -/
def WriteVarint32ToArray (value : Nat) (target : List Nat) : List Nat :=
  target ++ WriteVarintLoop 5 (value % 2 ^ 32)

/-- Modelled from the spec: `CodedOutputStream::WriteVarint64ToArray(value, target)`. -/
def WriteVarint64ToArray (value : Nat) (target : List Nat) : List Nat :=
  target ++ WriteVarintLoop 10 (value % 2 ^ 64)

/-- Modelled from the spec: `WireFormatLite::WriteTagToArray`. -/
def WriteTagToArray (field_number type : Nat) (target : List Nat) : List Nat :=
  WriteVarint32ToArray (MakeTag field_number type) target

/-- Modelled from the spec: `WireFormatLite::WriteSInt32NoTagToArray`. -/
def WriteSInt32NoTagToArray (value : Int) (target : List Nat) : List Nat :=
  WriteVarint32ToArray (ZigZagEncode32 value) target

/-- Modelled from the spec: `WireFormatLite::WriteSInt64NoTagToArray`. -/
def WriteSInt64NoTagToArray (value : Int) (target : List Nat) : List Nat :=
  WriteVarint64ToArray (ZigZagEncode64 value) target

/-- Modelled from the spec: `WireFormat::SerializeUnknownFieldsToArray`: the same bytes
as `SerializeUnknownFields`, stored from `target` on. -/
def SerializeUnknownFieldsToArray (fields : List UnknownField) (target : List Nat) :
    List Nat :=
  target ++ SerializeUnknownFields fields

/-- One of the three blocks of `DeltaNodes::SerializeWithCachedSizesToArray`. -/
def SerializeFieldToArray (field_number : Nat) (write : Int → List Nat → List Nat)
    (values : List Int) (cached_byte_size : Int) (target : List Nat) : List Nat :=
  let target :=
    if (values.length : Int) > 0 then
      WriteVarint32ToArray (toUInt32 cached_byte_size)
        (WriteTagToArray field_number WIRETYPE_LENGTH_DELIMITED target)
    else target
  values.foldl (fun target value => write value target) target

/-- `DeltaNodes::SerializeWithCachedSizesToArray`: the array up to the returned
position. -/
def DeltaNodes.SerializeWithCachedSizesToArray (msg : DeltaNodes) (target : List Nat) :
    List Nat :=
  let target :=
    SerializeFieldToArray 1 WriteSInt64NoTagToArray msg.id_.elements
      msg._id_cached_byte_size_ target
  let target :=
    SerializeFieldToArray 2 WriteSInt32NoTagToArray msg.lat_.elements
      msg._lat_cached_byte_size_ target
  let target :=
    SerializeFieldToArray 3 WriteSInt32NoTagToArray msg.lon_.elements
      msg._lon_cached_byte_size_ target
  if !msg._unknown_fields_.isEmpty then
    SerializeUnknownFieldsToArray msg._unknown_fields_ target
  else target

/-- Bytes that do not begin with a complete varint of at most `max_bytes` bytes: either
every byte carries the continuation bit (the bytes end before a terminating byte), or
the first `max_bytes` bytes all carry it (the varint is over-long). -/
def Unterminated (max_bytes : Nat) (bytes : List Nat) : Prop :=
  (∀ b ∈ bytes, 0x80 ≤ b) ∨ (max_bytes ≤ bytes.length ∧ ∀ b ∈ bytes.take max_bytes, 0x80 ≤ b)

instance (max_bytes : Nat) (bytes : List Nat) : Decidable (Unterminated max_bytes bytes) := by
  unfold Unterminated; exact inferInstance

/-- A batch holding three ids in an allocation of four, as left by decoding the packed
entry `0A 03 0E 10 12` into a new object. -/
def sampleThreeIds : DeltaNodes :=
  { DeltaNodes.New 0 0 0 with id_ := ⟨[7, 8, 9], 4⟩ }

/-- A batch with one id of one byte. -/
def sampleShort : DeltaNodes :=
  { DeltaNodes.New 0 0 0 with id_ := ⟨[1], 4⟩ }

/-- A batch with one id of three bytes. -/
def sampleLong : DeltaNodes :=
  { DeltaNodes.New 0 0 0 with id_ := ⟨[1000000], 4⟩ }

/-! # Theorems -/

/-! ## Arithmetic of the primitives -/

theorem xor_all_ones (w x : Nat) (h : x < 2 ^ w) : x ^^^ (2 ^ w - 1) = 2 ^ w - 1 - x := by
  apply Nat.eq_of_testBit_eq
  intro i
  have e : 2 ^ w - 1 - x = 2 ^ w - (x + 1) := by omega
  rw [Nat.testBit_xor, Nat.testBit_two_pow_sub_one, e, Nat.testBit_two_pow_sub_succ h]
  by_cases hi : i < w
  · simp [hi]
  · have : x.testBit i = false := by
      apply Nat.testBit_lt_two_pow
      exact lt_of_lt_of_le h (Nat.pow_le_pow_right (by norm_num) (by omega))
    simp [hi, this]

theorem ZigZagEncode64_eq (n : Int) (h : IsInt64 n) :
    ZigZagEncode64 n = (if 0 ≤ n then 2 * n else -2 * n - 1).toNat := by
  obtain ⟨h1, h2⟩ := h
  unfold ZigZagEncode64 toUInt64
  rw [Int.shiftRight_eq_div_pow, show (((2 : Nat) ^ 63 : Nat) : Int) = (2 : Int) ^ 63 by norm_num]
  by_cases hn : 0 ≤ n
  · have e1 : n / ((2 : Int) ^ 63) = 0 := Int.ediv_eq_zero_of_lt hn h2
    have e2 : (n * 2) % (2 : Int) ^ 64 = n * 2 := Int.emod_eq_of_lt (by omega) (by omega)
    rw [e1, e2, if_pos hn]
    simp
    ring_nf
  · have e1 : n / ((2 : Int) ^ 63) = -1 := by omega
    have e2 : (n * 2) % (2 : Int) ^ 64 = n * 2 + 2 ^ 64 := by omega
    have e3 : ((-1 : Int) % 2 ^ 64).toNat = 2 ^ 64 - 1 := by decide
    rw [e1, e2, if_neg hn, e3, xor_all_ones 64 _ (by omega)]
    omega

theorem ZigZagEncode32_eq (n : Int) (h : IsInt32 n) :
    ZigZagEncode32 n = (if 0 ≤ n then 2 * n else -2 * n - 1).toNat := by
  obtain ⟨h1, h2⟩ := h
  unfold ZigZagEncode32 toUInt32
  rw [Int.shiftRight_eq_div_pow, show (((2 : Nat) ^ 31 : Nat) : Int) = (2 : Int) ^ 31 by norm_num]
  by_cases hn : 0 ≤ n
  · have e1 : n / ((2 : Int) ^ 31) = 0 := Int.ediv_eq_zero_of_lt hn h2
    have e2 : (n * 2) % (2 : Int) ^ 32 = n * 2 := Int.emod_eq_of_lt (by omega) (by omega)
    rw [e1, e2, if_pos hn]
    simp
    ring_nf
  · have e1 : n / ((2 : Int) ^ 31) = -1 := by omega
    have e2 : (n * 2) % (2 : Int) ^ 32 = n * 2 + 2 ^ 32 := by omega
    have e3 : ((-1 : Int) % 2 ^ 32).toNat = 2 ^ 32 - 1 := by decide
    rw [e1, e2, if_neg hn, e3, xor_all_ones 32 _ (by omega)]
    omega

theorem ZigZagEncode64_lt (n : Int) (h : IsInt64 n) : ZigZagEncode64 n < 2 ^ 64 := by
  rw [ZigZagEncode64_eq n h]; obtain ⟨h1, h2⟩ := h; split <;> omega

theorem ZigZagEncode32_lt (n : Int) (h : IsInt32 n) : ZigZagEncode32 n < 2 ^ 32 := by
  rw [ZigZagEncode32_eq n h]; obtain ⟨h1, h2⟩ := h; split <;> omega

theorem ZigZagDecode64_Encode64 (n : Int) (h : IsInt64 n) :
    ZigZagDecode64 (ZigZagEncode64 n) = n := by
  rw [ZigZagEncode64_eq n h]
  obtain ⟨h1, h2⟩ := h
  unfold ZigZagDecode64 toInt64 toUInt64
  rw [Nat.shiftRight_eq_div_pow, Nat.and_one_is_mod]
  by_cases hn : 0 ≤ n
  · rw [if_pos hn]
    have a1 : (2 * n).toNat / 2 ^ 1 = n.toNat := by omega
    have a2 : (2 * n).toNat % 2 = 0 := by omega
    rw [a1, a2]
    simp
    omega
  · rw [if_neg hn]
    have a1 : (-2 * n - 1).toNat / 2 ^ 1 = (-n - 1).toNat := by omega
    have a2 : (-2 * n - 1).toNat % 2 = 1 := by omega
    have e3 : ((-((1 : Nat) : Int)) % 2 ^ 64).toNat = 2 ^ 64 - 1 := by decide
    rw [a1, a2, e3, xor_all_ones 64 _ (by omega)]
    omega

theorem ZigZagDecode32_Encode32 (n : Int) (h : IsInt32 n) :
    ZigZagDecode32 (ZigZagEncode32 n) = n := by
  rw [ZigZagEncode32_eq n h]
  obtain ⟨h1, h2⟩ := h
  unfold ZigZagDecode32 toInt32 toUInt32
  rw [Nat.shiftRight_eq_div_pow, Nat.and_one_is_mod]
  by_cases hn : 0 ≤ n
  · rw [if_pos hn]
    have a1 : (2 * n).toNat / 2 ^ 1 = n.toNat := by omega
    have a2 : (2 * n).toNat % 2 = 0 := by omega
    rw [a1, a2]
    simp
    omega
  · rw [if_neg hn]
    have a1 : (-2 * n - 1).toNat / 2 ^ 1 = (-n - 1).toNat := by omega
    have a2 : (-2 * n - 1).toNat % 2 = 1 := by omega
    have e3 : ((-((1 : Nat) : Int)) % 2 ^ 32).toNat = 2 ^ 32 - 1 := by decide
    rw [a1, a2, e3, xor_all_ones 32 _ (by omega)]
    omega

theorem ReadVarintLoop_Write (k : Nat) : ∀ (v : Nat) (rest : List Nat), v < 128 ^ (k + 1) →
    ReadVarintLoop (k + 1) (WriteVarintLoop (k + 1) v ++ rest) = some (v, rest) := by
  induction k with
  | zero =>
    intro v rest h
    have hv : v < 0x80 := by simpa using h
    simp [WriteVarintLoop, ReadVarintLoop, hv]
  | succ k ih =>
    intro v rest h
    rw [WriteVarintLoop]
    by_cases hv : v < 0x80
    · simp [hv, ReadVarintLoop]
    · have h2 : v / 0x80 < 128 ^ (k + 1) := by
        rw [Nat.div_lt_iff_lt_mul (by norm_num)]
        rw [pow_succ] at h; exact h
      have h3 : ¬ (v % 0x80 + 0x80 < 0x80) := by omega
      rw [if_neg hv, List.cons_append, ReadVarintLoop, if_neg h3, ih _ rest h2]
      have : (v % 0x80 + 0x80) % 0x80 + 0x80 * (v / 0x80) = v := by omega
      simp only [this]

theorem ReadVarint32_Write (v : Nat) (rest : List Nat) (h : v < 2 ^ 32) :
    ReadVarint32 (WriteVarint32 v ++ rest) = some (v, rest) := by
  unfold ReadVarint32 WriteVarint32
  rw [Nat.mod_eq_of_lt h, ReadVarintLoop_Write 4 v rest (by norm_num at h ⊢; omega)]
  show some (v % 2 ^ 32, rest) = some (v, rest)
  rw [Nat.mod_eq_of_lt h]

theorem ReadVarint64_Write (v : Nat) (rest : List Nat) (h : v < 2 ^ 64) :
    ReadVarint64 (WriteVarint64 v ++ rest) = some (v, rest) := by
  unfold ReadVarint64 WriteVarint64
  rw [Nat.mod_eq_of_lt h, ReadVarintLoop_Write 9 v rest (by norm_num at h ⊢; omega)]
  show some (v % 2 ^ 64, rest) = some (v, rest)
  rw [Nat.mod_eq_of_lt h]

theorem ReadSInt64_Write (n : Int) (rest : List Nat) (h : IsInt64 n) :
    ReadSInt64 (WriteSInt64NoTag n ++ rest) = some (n, rest) := by
  unfold ReadSInt64 WriteSInt64NoTag
  rw [ReadVarint64_Write _ rest (ZigZagEncode64_lt n h)]
  simp [ZigZagDecode64_Encode64 n h]

theorem ReadSInt32_Write (n : Int) (rest : List Nat) (h : IsInt32 n) :
    ReadSInt32 (WriteSInt32NoTag n ++ rest) = some (n, rest) := by
  unfold ReadSInt32 WriteSInt32NoTag
  rw [ReadVarint32_Write _ rest (ZigZagEncode32_lt n h)]
  simp [ZigZagDecode32_Encode32 n h]

theorem WriteVarintLoop_lt (k v : Nat) (h : v < 128) : WriteVarintLoop (k + 1) v = [v] := by
  simp [WriteVarintLoop, h]

theorem WriteVarintLoop_ge (k v : Nat) (h : 128 ≤ v) :
    WriteVarintLoop (k + 1) v = (v % 128 + 128) :: WriteVarintLoop k (v / 128) := by
  have : ¬ v < 128 := by omega
  simp [WriteVarintLoop, this]

theorem WriteVarintLoop_length (k : Nat) : ∀ (v j : Nat), j < k → (j ≠ 0 → 128 ^ j ≤ v) →
    v < 128 ^ (j + 1) →
    (WriteVarintLoop k v).length = j + 1 := by
  induction k with
  | zero => intro v j h; omega
  | succ k ih =>
    intro v j hj h1 h2
    cases j with
    | zero => rw [WriteVarintLoop_lt k v (by simpa using h2)]; rfl
    | succ j =>
      have hv : 128 ≤ v := by
        calc 128 = 128 ^ 1 := by norm_num
          _ ≤ 128 ^ (j + 1) := Nat.pow_le_pow_right (by norm_num) (by omega)
          _ ≤ v := h1 (by omega)
      rw [WriteVarintLoop_ge k v hv, List.length_cons, ih (v / 128) j (by omega)]
      · intro _; rw [Nat.le_div_iff_mul_le (by norm_num), ← pow_succ]; exact h1 (by omega)
      · rw [Nat.div_lt_iff_lt_mul (by norm_num), ← pow_succ]; exact h2

theorem WriteVarint32_length (v : Nat) (h : v < 2 ^ 32) :
    ((WriteVarint32 v).length : Int) = VarintSize32 v := by
  unfold WriteVarint32 VarintSize32
  rw [Nat.mod_eq_of_lt h]
  have L := WriteVarintLoop_length 5 v
  by_cases h1 : v < 2 ^ 7
  · rw [if_pos h1, L 0 (by omega) (fun hj => absurd rfl hj) (by norm_num at *; omega)]; rfl
  rw [if_neg h1]
  by_cases h2 : v < 2 ^ 14
  · rw [if_pos h2, L 1 (by omega) (by intro _; norm_num at *; omega) (by norm_num at *; omega)]; rfl
  rw [if_neg h2]
  by_cases h3 : v < 2 ^ 21
  · rw [if_pos h3, L 2 (by omega) (by intro _; norm_num at *; omega) (by norm_num at *; omega)]; rfl
  rw [if_neg h3]
  by_cases h4 : v < 2 ^ 28
  · rw [if_pos h4, L 3 (by omega) (by intro _; norm_num at *; omega) (by norm_num at *; omega)]; rfl
  rw [if_neg h4, L 4 (by omega) (by intro _; norm_num at *; omega) (by norm_num at *; omega)]; rfl

theorem WriteVarint64_length (v : Nat) (h : v < 2 ^ 64) :
    ((WriteVarint64 v).length : Int) = VarintSize64 v := by
  unfold WriteVarint64 VarintSize64
  rw [Nat.mod_eq_of_lt h]
  have L := WriteVarintLoop_length 10 v
  by_cases h1 : v < 2 ^ 7
  · rw [if_pos h1, L 0 (by omega) (fun hj => absurd rfl hj) (by norm_num at *; omega)]; rfl
  rw [if_neg h1]
  by_cases h2 : v < 2 ^ 14
  · rw [if_pos h2, L 1 (by omega) (by intro _; norm_num at *; omega) (by norm_num at *; omega)]; rfl
  rw [if_neg h2]
  by_cases h3 : v < 2 ^ 21
  · rw [if_pos h3, L 2 (by omega) (by intro _; norm_num at *; omega) (by norm_num at *; omega)]; rfl
  rw [if_neg h3]
  by_cases h4 : v < 2 ^ 28
  · rw [if_pos h4, L 3 (by omega) (by intro _; norm_num at *; omega) (by norm_num at *; omega)]; rfl
  rw [if_neg h4]
  by_cases h5 : v < 2 ^ 35
  · rw [if_pos h5, L 4 (by omega) (by intro _; norm_num at *; omega) (by norm_num at *; omega)]; rfl
  rw [if_neg h5]
  by_cases h6 : v < 2 ^ 42
  · rw [if_pos h6, L 5 (by omega) (by intro _; norm_num at *; omega) (by norm_num at *; omega)]; rfl
  rw [if_neg h6]
  by_cases h7 : v < 2 ^ 49
  · rw [if_pos h7, L 6 (by omega) (by intro _; norm_num at *; omega) (by norm_num at *; omega)]; rfl
  rw [if_neg h7]
  by_cases h8 : v < 2 ^ 56
  · rw [if_pos h8, L 7 (by omega) (by intro _; norm_num at *; omega) (by norm_num at *; omega)]; rfl
  rw [if_neg h8]
  by_cases h9 : v < 2 ^ 63
  · rw [if_pos h9, L 8 (by omega) (by intro _; norm_num at *; omega) (by norm_num at *; omega)]; rfl
  rw [if_neg h9, L 9 (by omega) (by intro _; norm_num at *; omega) (by norm_num at *; omega)]; rfl

/-! ## Packed fields and sizes -/

theorem toInt32_of_range (x : Int) (h0 : -2 ^ 31 ≤ x) (h1 : x < 2 ^ 31) : toInt32 x = x := by
  unfold toInt32; omega

theorem toInt32_add_left (a b : Int) : toInt32 (toInt32 a + b) = toInt32 (a + b) := by
  unfold toInt32; omega

theorem toInt32_add_right (a b : Int) : toInt32 (a + toInt32 b) = toInt32 (a + b) := by
  unfold toInt32; omega

theorem toUInt32_toInt32 (a : Int) : toUInt32 (toInt32 a) = toUInt32 a := by
  unfold toInt32 toUInt32; omega

theorem toUInt32_natCast (n : Nat) : toUInt32 (n : Int) = n % 2 ^ 32 := by
  unfold toUInt32; omega

theorem toUInt64_lt (x : Int) : toUInt64 x < 2 ^ 64 := by
  unfold toUInt64; omega

theorem toUInt32_lt (x : Int) : toUInt32 x < 2 ^ 32 := by
  unfold toUInt32; omega

theorem ZigZagEncode64_lt' (n : Int) : ZigZagEncode64 n < 2 ^ 64 :=
  Nat.xor_lt_two_pow (toUInt64_lt _) (toUInt64_lt _)

theorem ZigZagEncode32_lt' (n : Int) : ZigZagEncode32 n < 2 ^ 32 :=
  Nat.xor_lt_two_pow (toUInt32_lt _) (toUInt32_lt _)

theorem WriteVarintLoop_ne_nil (k v : Nat) : WriteVarintLoop (k + 1) v ≠ [] := by
  rw [WriteVarintLoop]; split <;> simp

theorem WriteSInt64NoTag_ne_nil (n : Int) : WriteSInt64NoTag n ≠ [] := WriteVarintLoop_ne_nil _ _

theorem WriteSInt32NoTag_ne_nil (n : Int) : WriteSInt32NoTag n ≠ [] := WriteVarintLoop_ne_nil _ _

theorem SInt64Size_eq (n : Int) : SInt64Size n = ((WriteSInt64NoTag n).length : Int) :=
  (WriteVarint64_length _ (ZigZagEncode64_lt' n)).symm

theorem SInt32Size_eq (n : Int) : SInt32Size n = ((WriteSInt32NoTag n).length : Int) :=
  (WriteVarint32_length _ (ZigZagEncode32_lt' n)).symm

theorem Payload_nil (write : Int → List Nat) : Payload write [] = [] := rfl

theorem Payload_cons (write : Int → List Nat) (x : Int) (s : List Int) :
    Payload write (x :: s) = write x ++ Payload write s := by
  simp [Payload]

theorem Payload_append (write : Int → List Nat) (s t : List Int) :
    Payload write (s ++ t) = Payload write s ++ Payload write t := by
  simp [Payload]

theorem Payload_length_ge (write : Int → List Nat) (hne : ∀ x, write x ≠ []) (s : List Int) :
    s.length ≤ (Payload write s).length := by
  induction s with
  | nil => simp
  | cons x s ih =>
    rw [Payload_cons, List.length_append, List.length_cons]
    have := List.length_pos.mpr (hne x)
    omega

theorem Add_elements (r : RepeatedField) (x : Int) : (r.Add x).elements = r.elements ++ [x] := by
  unfold RepeatedField.Add RepeatedField.Reserve
  split <;> [split; skip] <;> rfl

theorem AddAll_elements (s : List Int) : ∀ r : RepeatedField,
    (AddAll r s).elements = r.elements ++ s := by
  induction s with
  | nil => intro r; simp [AddAll]
  | cons x s ih =>
    intro r
    show (AddAll (r.Add x) s).elements = _
    rw [ih, Add_elements]; simp

theorem AddAll_append (s t : List Int) (r : RepeatedField) :
    AddAll r (s ++ t) = AddAll (AddAll r s) t := by
  simp [AddAll, List.foldl_append]

theorem ReadPackedLoop_Payload (read : List Nat → Option (Int × List Nat))
    (write : Int → List Nat) (hne : ∀ x, write x ≠ []) (s : List Int) :
    ∀ (k : Nat) (values : RepeatedField),
      (∀ x ∈ s, ∀ rest, read (write x ++ rest) = some (x, rest)) → s.length ≤ k →
      ReadPackedLoop read k (Payload write s) values = .ok (AddAll values s) := by
  induction s with
  | nil => intro k values _ _; cases k <;> simp [Payload, ReadPackedLoop, AddAll]
  | cons x s ih =>
    intro k values hrt hk
    obtain ⟨k, rfl⟩ : ∃ k', k = k' + 1 := ⟨k - 1, by simp at hk; omega⟩
    rw [Payload_cons]
    obtain ⟨b, w, hw⟩ := List.exists_cons_of_ne_nil (hne x)
    have h1 := hrt x (List.mem_cons_self _ _) (Payload write s)
    rw [hw] at h1 ⊢
    rw [List.cons_append] at h1 ⊢
    rw [ReadPackedLoop, h1]
    exact ih k _ (fun y hy => hrt y (List.mem_cons_of_mem _ hy)) (by simpa using hk)

theorem ReadPackedPrimitive_Body (read : List Nat → Option (Int × List Nat))
    (write : Int → List Nat) (hne : ∀ x, write x ≠ []) (s : List Int) (tail : List Nat)
    (values : RepeatedField)
    (hrt : ∀ x ∈ s, ∀ rest, read (write x ++ rest) = some (x, rest))
    (hlen : (Payload write s).length < 2 ^ 32) :
    ReadPackedPrimitive read (PackedBody write s ++ tail) values = .ok (AddAll values s, tail) := by
  unfold ReadPackedPrimitive PackedBody
  rw [List.append_assoc, ReadVarint32_Write _ _ hlen]
  simp only [List.length_append]
  rw [if_neg (by omega), List.take_left, List.drop_left,
    ReadPackedLoop_Payload read write hne s _ values hrt (Payload_length_ge write hne s)]
  rfl

theorem MakeTag_lt (n t : Nat) : MakeTag n t < 2 ^ 32 := by
  unfold MakeTag; omega

theorem WriteLittleEndian_length (k : Nat) : ∀ v, (WriteLittleEndian k v).length = k := by
  induction k with
  | zero => intro v; rfl
  | succ k ih => intro v; simp [WriteLittleEndian, ih]

mutual
theorem ComputeUnknownFieldSize_eq : ∀ f : UnknownField,
    ComputeUnknownFieldSize f = toInt32 ((SerializeUnknownField f).length : Int)
  | .varint number value => by
    rw [ComputeUnknownFieldSize, SerializeUnknownField, List.length_append, Nat.cast_add,
      WriteVarint32_length _ (MakeTag_lt _ _), ← WriteVarint64_length _ (Nat.mod_lt _ (by norm_num))]
    simp [WriteVarint64]
  | .fixed32 number value => by
    rw [ComputeUnknownFieldSize, SerializeUnknownField, List.length_append, Nat.cast_add,
      WriteVarint32_length _ (MakeTag_lt _ _), WriteLittleEndian_length]
    rfl
  | .fixed64 number value => by
    rw [ComputeUnknownFieldSize, SerializeUnknownField, List.length_append, Nat.cast_add,
      WriteVarint32_length _ (MakeTag_lt _ _), WriteLittleEndian_length]
    rfl
  | .length_delimited number data => by
    rw [ComputeUnknownFieldSize, SerializeUnknownField, List.length_append, List.length_append,
      Nat.cast_add, Nat.cast_add,
      WriteVarint32_length _ (MakeTag_lt _ _), ← WriteVarint32_length _ (Nat.mod_lt _ (by norm_num)),
      toInt32_add_left]
    simp [WriteVarint32]
  | .group number fields => by
    rw [ComputeUnknownFieldSize, SerializeUnknownField, List.length_append, List.length_append,
      Nat.cast_add, Nat.cast_add, ComputeUnknownFieldsSize_eq fields,
      WriteVarint32_length _ (MakeTag_lt _ _), WriteVarint32_length _ (MakeTag_lt _ _)]
    unfold toInt32; omega
theorem ComputeUnknownFieldsSize_eq : ∀ fs : List UnknownField,
    ComputeUnknownFieldsSize fs = toInt32 ((SerializeUnknownFields fs).length : Int)
  | [] => by rw [ComputeUnknownFieldsSize, SerializeUnknownFields]; rfl
  | f :: fs => by
    rw [ComputeUnknownFieldsSize, SerializeUnknownFields, List.length_append, Nat.cast_add,
      ComputeUnknownFieldSize_eq f, ComputeUnknownFieldsSize_eq fs, toInt32_add_left,
      toInt32_add_right]
end

/-! ## `ByteSize` and `SerializeWithCachedSizes` -/

theorem DataSize_foldl (size : Int → Int) (s : List Int) : ∀ a : Int,
    s.foldl (fun data_size value => toInt32 (data_size + size value)) (toInt32 a)
      = toInt32 (a + (s.map size).sum) := by
  induction s with
  | nil => intro a; simp
  | cons x s ih =>
    intro a
    rw [List.foldl_cons, toInt32_add_left, ih, List.map_cons, List.sum_cons, add_assoc]

theorem Payload_length_sum (write : Int → List Nat) (s : List Int) :
    ((Payload write s).length : Int) = (s.map fun x => ((write x).length : Int)).sum := by
  induction s with
  | nil => rfl
  | cons x s ih => rw [Payload_cons, List.length_append, Nat.cast_add, ih]; simp

theorem DataSize_eq (size : Int → Int) (write : Int → List Nat)
    (h : ∀ x, size x = ((write x).length : Int)) (s : List Int) :
    DataSize size s = toInt32 ((Payload write s).length : Int) := by
  have e : (0 : Int) = toInt32 0 := by decide
  unfold DataSize
  rw [e, DataSize_foldl, Payload_length_sum, zero_add]
  rw [show size = (fun x => ((write x).length : Int)) from funext h]

theorem Payload_eq_nil_iff (write : Int → List Nat) (hne : ∀ x, write x ≠ []) (s : List Int) :
    Payload write s = [] ↔ s = [] := by
  constructor
  · intro h
    have := Payload_length_ge write hne s
    rw [h] at this
    exact List.length_eq_zero.mp (by simpa using this)
  · rintro rfl; rfl

theorem WriteVarint32_mod (v : Nat) : WriteVarint32 (v % 2 ^ 32) = WriteVarint32 v := by
  unfold WriteVarint32; rw [Nat.mod_mod]

theorem SerializeField_eq (k : Nat) (size : Int → Int) (write : Int → List Nat)
    (h : ∀ x, size x = ((write x).length : Int)) (s : List Int)
    (hk : WriteTag k WIRETYPE_LENGTH_DELIMITED = [(k <<< 3) ||| 2]) :
    SerializeField k write s (DataSize size s) = PackedFrame k write s := by
  unfold SerializeField PackedFrame PackedEntry PackedBody
  cases s with
  | nil => simp [Payload]
  | cons x s =>
    have : ((x :: s).length : Int) > 0 := by rw [List.length_cons]; omega
    rw [if_pos this, if_neg (by simp), hk, DataSize_eq size write h, toUInt32_toInt32,
      toUInt32_natCast, WriteVarint32_mod]
    rfl

theorem ByteSize_snd (msg : DeltaNodes) :
    msg.ByteSize.2 =
      { msg with
        _id_cached_byte_size_ := DataSize SInt64Size msg.id_.elements,
        _lat_cached_byte_size_ := DataSize SInt32Size msg.lat_.elements,
        _lon_cached_byte_size_ := DataSize SInt32Size msg.lon_.elements,
        _cached_size_ := msg.ByteSize.1 } := rfl

theorem SerializeUnknownFields_guard (fs : List UnknownField) :
    (if !fs.isEmpty then SerializeUnknownFields fs else []) = SerializeUnknownFields fs := by
  cases fs <;> simp [SerializeUnknownFields]

theorem SerializeWithCachedSizes_ByteSize (msg : DeltaNodes) :
    msg.ByteSize.2.SerializeWithCachedSizes =
      PackedFrame 1 WriteSInt64NoTag msg.id_.elements
      ++ PackedFrame 2 WriteSInt32NoTag msg.lat_.elements
      ++ PackedFrame 3 WriteSInt32NoTag msg.lon_.elements
      ++ SerializeUnknownFields msg._unknown_fields_ := by
  rw [ByteSize_snd]
  unfold DeltaNodes.SerializeWithCachedSizes
  simp only []
  rw [SerializeField_eq 1 SInt64Size WriteSInt64NoTag SInt64Size_eq _ (by decide),
    SerializeField_eq 2 SInt32Size WriteSInt32NoTag SInt32Size_eq _ (by decide),
    SerializeField_eq 3 SInt32Size WriteSInt32NoTag SInt32Size_eq _ (by decide),
    SerializeUnknownFields_guard]

theorem PackedFrame_length (k : Nat) (write : Int → List Nat) (s : List Int) :
    (PackedFrame k write s).length =
      if s = [] then 0 else 1 + (WriteVarint32 (Payload write s).length).length
        + (Payload write s).length := by
  unfold PackedFrame PackedEntry PackedBody
  split
  · rfl
  · simp; omega

theorem ByteSizeField_eq (k : Nat) (size : Int → Int) (write : Int → List Nat)
    (h : ∀ x, size x = ((write x).length : Int)) (hne : ∀ x, write x ≠ []) (s : List Int)
    (t : Int) (hlen : (Payload write s).length < 2 ^ 31) :
    ByteSizeField size s t
      = (toInt32 (t + ((PackedFrame k write s).length : Int)), ((Payload write s).length : Int)) := by
  unfold ByteSizeField
  have hd : DataSize size s = ((Payload write s).length : Int) := by
    rw [DataSize_eq size write h, toInt32_of_range] <;> omega
  simp only [hd]
  rw [PackedFrame_length]
  by_cases hs : s = []
  · subst hs; simp [Payload]
  · have hp : (Payload write s).length ≠ 0 := by
      intro h0
      exact hs ((Payload_eq_nil_iff write hne s).mp (List.length_eq_zero.mp h0))
    have hpos : ((Payload write s).length : Int) > 0 := by omega
    rw [if_pos hpos, if_neg hs]
    unfold Int32Size
    rw [if_neg (by omega), toUInt32_natCast, Nat.mod_eq_of_lt (by omega),
      ← WriteVarint32_length _ (by omega)]
    congr 1
    unfold toInt32
    push_cast
    omega

theorem ByteSize_fst (msg : DeltaNodes) :
    msg.ByteSize.1 =
      (if !msg._unknown_fields_.isEmpty then
        toInt32 ((ByteSizeField SInt32Size msg.lon_.elements
          (ByteSizeField SInt32Size msg.lat_.elements
            (ByteSizeField SInt64Size msg.id_.elements 0).1).1).1
          + ComputeUnknownFieldsSize msg._unknown_fields_)
      else
        (ByteSizeField SInt32Size msg.lon_.elements
          (ByteSizeField SInt32Size msg.lat_.elements
            (ByteSizeField SInt64Size msg.id_.elements 0).1).1).1) := rfl

theorem PackedFrame_length_ge (k : Nat) (write : Int → List Nat) (s : List Int) :
    (Payload write s).length ≤ (PackedFrame k write s).length := by
  rw [PackedFrame_length]
  split
  · next h => subst h; simp [Payload]
  · omega

theorem DataSize_pos_iff (size : Int → Int) (write : Int → List Nat)
    (h : ∀ x, size x = ((write x).length : Int)) (hne : ∀ x, write x ≠ []) (s : List Int)
    (hlen : (Payload write s).length < 2 ^ 31) :
    DataSize size s > 0 ↔ (s.length : Int) > 0 := by
  rw [DataSize_eq size write h, toInt32_of_range _ (by omega) (by omega)]
  have := Payload_eq_nil_iff write hne s
  constructor
  · intro hp
    have : s ≠ [] := fun hs => by rw [hs] at hp; simp [Payload] at hp
    have := List.length_pos.mpr this
    omega
  · intro hp
    have h1 := Payload_length_ge write hne s
    omega

theorem ByteSize_eq_aux (msg : DeltaNodes)
    (h : msg.ByteSize.2.SerializeWithCachedSizes.length < 2 ^ 31) :
    msg.ByteSize.1 = (msg.ByteSize.2.SerializeWithCachedSizes.length : Int) := by
  rw [SerializeWithCachedSizes_ByteSize] at h ⊢
  simp only [List.length_append] at h ⊢
  have g1 := PackedFrame_length_ge 1 WriteSInt64NoTag msg.id_.elements
  have g2 := PackedFrame_length_ge 2 WriteSInt32NoTag msg.lat_.elements
  have g3 := PackedFrame_length_ge 3 WriteSInt32NoTag msg.lon_.elements
  rw [ByteSize_fst,
    ByteSizeField_eq 1 SInt64Size WriteSInt64NoTag SInt64Size_eq WriteSInt64NoTag_ne_nil
      msg.id_.elements _ (by omega),
    ByteSizeField_eq 2 SInt32Size WriteSInt32NoTag SInt32Size_eq WriteSInt32NoTag_ne_nil
      msg.lat_.elements _ (by omega),
    ByteSizeField_eq 3 SInt32Size WriteSInt32NoTag SInt32Size_eq WriteSInt32NoTag_ne_nil
      msg.lon_.elements _ (by omega),
    ComputeUnknownFieldsSize_eq]
  simp only []
  have hu : msg._unknown_fields_.isEmpty = true →
      (SerializeUnknownFields msg._unknown_fields_).length = 0 := by
    intro he
    rw [List.isEmpty_iff.mp he]; rfl
  by_cases he : msg._unknown_fields_.isEmpty = true
  · have := hu he
    simp only [he, Bool.not_true, Bool.false_eq_true, if_false, toInt32_add_left,
      toInt32_add_right]
    rw [toInt32_of_range _ (by omega) (by omega)]
    push_cast
    omega
  · simp only [he, Bool.not_false, if_true, toInt32_add_left, toInt32_add_right]
    rw [toInt32_of_range _ (by omega) (by omega)]
    push_cast
    omega

/-! ## The parse loop does not depend on its iteration budget -/

@[simp] theorem Outcome.bind_ok {α β : Type} (a : α) (f : α → Outcome β) :
    (Outcome.ok a).bind f = f a := rfl

@[simp] theorem Outcome.bind_fail {α β : Type} (f : α → Outcome β) :
    (Outcome.fail : Outcome α).bind f = .fail := rfl

@[simp] theorem Outcome.bind_fuel {α β : Type} (f : α → Outcome β) :
    (Outcome.fuel : Outcome α).bind f = .fuel := rfl

theorem Outcome.bind_eq_ok {α β : Type} (x : Outcome α) (f : α → Outcome β) (b : β)
    (h : x.bind f = .ok b) : ∃ a, x = .ok a ∧ f a = .ok b := by
  cases x with
  | ok a => exact ⟨a, rfl, h⟩
  | fail => cases h
  | fuel => cases h

theorem Outcome.bind_congr {α β : Type} (x : Outcome α) (f g : α → Outcome β)
    (h : ∀ a, x = .ok a → f a = g a) : x.bind f = x.bind g := by
  cases x with
  | ok a => exact h a rfl
  | fail => rfl
  | fuel => rfl

theorem ReadVarintLoop_length (k : Nat) : ∀ (input : List Nat) (v : Nat) (rest : List Nat),
    ReadVarintLoop k input = some (v, rest) → rest.length < input.length := by
  induction k with
  | zero => intro input v rest h; simp [ReadVarintLoop] at h
  | succ k ih =>
    intro input v rest h
    cases input with
    | nil => simp [ReadVarintLoop] at h
    | cons b t =>
      rw [ReadVarintLoop] at h
      split at h
      · simp only [Option.some.injEq, Prod.mk.injEq] at h
        rw [← h.2]; simp
      · split at h
        · cases h
        · next v' r' hr =>
          simp only [Option.some.injEq, Prod.mk.injEq] at h
          have := ih t v' r' hr
          rw [← h.2]; simp; omega

theorem ReadVarint32_length (input : List Nat) (v : Nat) (rest : List Nat)
    (h : ReadVarint32 input = some (v, rest)) : rest.length < input.length := by
  unfold ReadVarint32 at h
  split at h
  · cases h
  · next v' r' hr =>
    simp only [Option.some.injEq, Prod.mk.injEq] at h
    rw [← h.2]; exact ReadVarintLoop_length _ _ _ _ hr

theorem ReadVarint64_length (input : List Nat) (v : Nat) (rest : List Nat)
    (h : ReadVarint64 input = some (v, rest)) : rest.length < input.length := by
  unfold ReadVarint64 at h
  split at h
  · cases h
  · next v' r' hr =>
    simp only [Option.some.injEq, Prod.mk.injEq] at h
    rw [← h.2]; exact ReadVarintLoop_length _ _ _ _ hr

theorem ReadSInt32_length (input : List Nat) (v : Int) (rest : List Nat)
    (h : ReadSInt32 input = some (v, rest)) : rest.length < input.length := by
  unfold ReadSInt32 at h
  split at h
  · cases h
  · next v' r' hr =>
    simp only [Option.some.injEq, Prod.mk.injEq] at h
    rw [← h.2]; exact ReadVarint32_length _ _ _ hr

theorem ReadSInt64_length (input : List Nat) (v : Int) (rest : List Nat)
    (h : ReadSInt64 input = some (v, rest)) : rest.length < input.length := by
  unfold ReadSInt64 at h
  split at h
  · cases h
  · next v' r' hr =>
    simp only [Option.some.injEq, Prod.mk.injEq] at h
    rw [← h.2]; exact ReadVarint64_length _ _ _ hr

theorem ReadTag_length (input : List Nat) :
    (ReadTag input).2.length ≤ input.length ∧
      ((ReadTag input).1 ≠ 0 → (ReadTag input).2.length < input.length) := by
  unfold ReadTag
  cases input with
  | nil => simp
  | cons b t =>
    simp only []
    split
    · simp
    · split
      · simp
      · next tag r hr =>
        have := ReadVarint32_length _ _ _ hr
        simp only [List.length_cons] at this ⊢
        exact ⟨by omega, fun _ => this⟩

theorem ExpectTag_length (expected : Nat) (input : List Nat) :
    (ExpectTag expected input).2.length ≤ input.length := by
  unfold ExpectTag
  cases input with
  | nil => simp
  | cons b t => simp only []; split <;> simp

theorem ReadLittleEndian_length (k : Nat) : ∀ (input : List Nat) (v : Nat) (rest : List Nat),
    ReadLittleEndian k input = some (v, rest) → rest.length ≤ input.length := by
  induction k with
  | zero => intro input v rest h; simp [ReadLittleEndian] at h; rw [h.2]
  | succ k ih =>
    intro input v rest h
    cases input with
    | nil => simp [ReadLittleEndian] at h
    | cons b t =>
      rw [ReadLittleEndian] at h
      split at h
      · cases h
      · next v' r' hr =>
        simp only [Option.some.injEq, Prod.mk.injEq] at h
        have := ih t v' r' hr
        rw [← h.2]; simp; omega

theorem ReadPackedPrimitive_length (read : List Nat → Option (Int × List Nat))
    (input : List Nat) (values values' : RepeatedField) (rest : List Nat)
    (h : ReadPackedPrimitive read input values = .ok (values', rest)) :
    rest.length < input.length := by
  unfold ReadPackedPrimitive at h
  split at h
  · cases h
  · next length input' hr =>
    have h1 := ReadVarint32_length _ _ _ hr
    split at h
    · cases h
    · obtain ⟨a, _, ha⟩ := Outcome.bind_eq_ok _ _ _ h
      simp only [Outcome.ok.injEq, Prod.mk.injEq] at ha
      rw [← ha.2, List.length_drop]; omega

theorem ReadRepeatedLoop_length (read : List Nat → Option (Int × List Nat)) (tag : Nat)
    (hread : ∀ input v rest, read input = some (v, rest) → rest.length < input.length)
    (k : Nat) : ∀ (input : List Nat) (values values' : RepeatedField) (rest : List Nat),
    ReadRepeatedLoop read tag k input values = .ok (values', rest) →
    rest.length ≤ input.length := by
  induction k with
  | zero =>
    intro input values values' rest h
    simp only [ReadRepeatedLoop, Outcome.ok.injEq, Prod.mk.injEq] at h
    rw [h.2]
  | succ k ih =>
    intro input values values' rest h
    rw [ReadRepeatedLoop] at h
    have he := ExpectTag_length tag input
    split at h
    · simp only [Outcome.ok.injEq, Prod.mk.injEq] at h; rw [h.2]
    · next input' hx =>
      rw [hx] at he
      split at h
      · cases h
      · next value input'' hr =>
        have := hread _ _ _ hr
        have := ih _ _ _ _ h
        simp only at he
        omega

theorem ReadRepeatedPrimitiveNoInline_length (read : List Nat → Option (Int × List Nat))
    (hread : ∀ input v rest, read input = some (v, rest) → rest.length < input.length)
    (tag_size tag : Nat) (input : List Nat) (values values' : RepeatedField) (rest : List Nat)
    (h : ReadRepeatedPrimitiveNoInline read tag_size tag input values = .ok (values', rest)) :
    rest.length < input.length := by
  unfold ReadRepeatedPrimitiveNoInline at h
  split at h
  · cases h
  · next value input' hr =>
    have := hread _ _ _ hr
    have := ReadRepeatedLoop_length read tag hread _ _ _ _ _ h
    omega

theorem SkipFieldWith_length
    (skipMessage : Nat → List Nat → Outcome (Nat × List UnknownField × List Nat))
    (hskip : ∀ d input t fs rest, skipMessage d input = .ok (t, fs, rest) →
      rest.length ≤ input.length)
    (depth : Nat) (input : List Nat) (tag : Nat) (field : UnknownField) (rest : List Nat)
    (h : SkipFieldWith skipMessage depth input tag = .ok (field, rest)) :
    rest.length ≤ input.length := by
  unfold SkipFieldWith at h
  simp only at h
  split at h
  · split at h
    · cases h
    · next v r hr =>
      simp only [Outcome.ok.injEq, Prod.mk.injEq] at h
      have := ReadVarint64_length _ _ _ hr
      rw [← h.2]; omega
  · split at h
    · cases h
    · next v r hr =>
      simp only [Outcome.ok.injEq, Prod.mk.injEq] at h
      have := ReadLittleEndian_length _ _ _ _ hr
      rw [← h.2]; omega
  · split at h
    · cases h
    · next v r hr =>
      have := ReadVarint32_length _ _ _ hr
      split at h
      · cases h
      · simp only [Outcome.ok.injEq, Prod.mk.injEq] at h
        rw [← h.2, List.length_drop]; omega
  · split at h
    · cases h
    · obtain ⟨⟨t, fs, r⟩, ha, hb⟩ := Outcome.bind_eq_ok _ _ _ h
      have := hskip _ _ _ _ _ ha
      simp only at hb
      split at hb
      · simp only [Outcome.ok.injEq, Prod.mk.injEq] at hb
        rw [← hb.2]; exact this
      · cases hb
  · split at h
    · cases h
    · next v r hr =>
      simp only [Outcome.ok.injEq, Prod.mk.injEq] at h
      have := ReadLittleEndian_length _ _ _ _ hr
      rw [← h.2]; omega
  · cases h

theorem SkipMessage_length (fuel : Nat) : ∀ (depth : Nat) (input : List Nat) (t : Nat)
    (fs : List UnknownField) (rest : List Nat),
    SkipMessage fuel depth input = .ok (t, fs, rest) → rest.length ≤ input.length := by
  induction fuel with
  | zero => intro depth input t fs rest h; simp [SkipMessage] at h
  | succ fuel ih =>
    intro depth input t fs rest h
    rw [SkipMessage] at h
    have hl := (ReadTag_length input).1
    generalize ReadTag input = rt at h hl
    obtain ⟨tag, input'⟩ := rt
    simp only at h hl
    split at h
    · simp only [Outcome.ok.injEq, Prod.mk.injEq] at h
      rw [← h.2.2]; exact hl
    · split at h
      · simp only [Outcome.ok.injEq, Prod.mk.injEq] at h
        rw [← h.2.2]; exact hl
      · obtain ⟨⟨f, r1⟩, ha, hb⟩ := Outcome.bind_eq_ok _ _ _ h
        have h1 := SkipFieldWith_length _ (fun d i t fs r => ih d i t fs r) _ _ _ _ _ ha
        simp only at hb
        obtain ⟨⟨t2, fs2, r2⟩, hc, hd⟩ := Outcome.bind_eq_ok _ _ _ hb
        have h2 := ih _ _ _ _ _ hc
        simp only [Outcome.ok.injEq, Prod.mk.injEq] at hd
        rw [← hd.2.2]; omega

theorem SkipField_length (input : List Nat) (tag : Nat) (field : UnknownField)
    (rest : List Nat) (h : SkipField input tag = .ok (field, rest)) :
    rest.length ≤ input.length :=
  SkipFieldWith_length _ (fun d i t fs r => SkipMessage_length _ d i t fs r) _ _ _ _ _ h

theorem handle_uninterpreted_congr (n : Nat) (A B : ParseCont) (hAB : AgreeUpTo n A B)
    (tag : Nat) (input : List Nat) (msg : DeltaNodes) (hn : input.length ≤ n) :
    handle_uninterpreted A tag input msg = handle_uninterpreted B tag input msg := by
  unfold handle_uninterpreted
  split
  · rfl
  · apply Outcome.bind_congr
    rintro ⟨f, r⟩ ha
    have := SkipField_length _ _ _ _ ha
    exact hAB _ _ (by omega)

theorem parse_lon_congr (n : Nat) (A B : ParseCont) (hAB : AgreeUpTo n A B)
    (input : List Nat) (msg : DeltaNodes) (hn : input.length ≤ n) :
    parse_lon A input msg = parse_lon B input msg := by
  unfold parse_lon
  apply Outcome.bind_congr
  rintro ⟨v, r⟩ ha
  have := ReadPackedPrimitive_length _ _ _ _ _ ha
  simp only
  split
  · rfl
  · exact hAB _ _ (by omega)

theorem parse_lat_congr (n : Nat) (A B : ParseCont) (hAB : AgreeUpTo n A B)
    (input : List Nat) (msg : DeltaNodes) (hn : input.length ≤ n) :
    parse_lat A input msg = parse_lat B input msg := by
  unfold parse_lat
  apply Outcome.bind_congr
  rintro ⟨v, r⟩ ha
  have h1 := ReadPackedPrimitive_length _ _ _ _ _ ha
  have h2 := ExpectTag_length 26 r
  simp only
  generalize ExpectTag 26 r = e at h2
  obtain ⟨b, r'⟩ := e
  cases b
  · exact hAB _ _ (by omega)
  · exact parse_lon_congr n A B hAB _ _ (by simp only at h2; omega)

theorem case_id_congr (n : Nat) (A B : ParseCont) (hAB : AgreeUpTo n A B) (tag : Nat)
    (input : List Nat) (msg : DeltaNodes) (hn : input.length ≤ n) :
    case_id A tag input msg = case_id B tag input msg := by
  unfold case_id
  split
  · apply Outcome.bind_congr
    rintro ⟨v, r⟩ ha
    have h1 := ReadPackedPrimitive_length _ _ _ _ _ ha
    have h2 := ExpectTag_length 18 r
    simp only
    generalize ExpectTag 18 r = e at h2
    obtain ⟨b, r'⟩ := e
    cases b
    · exact hAB _ _ (by omega)
    · exact parse_lat_congr n A B hAB _ _ (by simp only at h2; omega)
  · split
    · apply Outcome.bind_congr
      rintro ⟨v, r⟩ ha
      have h1 := ReadRepeatedPrimitiveNoInline_length _ ReadSInt64_length _ _ _ _ _ _ ha
      have h2 := ExpectTag_length 18 r
      simp only
      generalize ExpectTag 18 r = e at h2
      obtain ⟨b, r'⟩ := e
      cases b
      · exact hAB _ _ (by omega)
      · exact parse_lat_congr n A B hAB _ _ (by simp only at h2; omega)
    · exact handle_uninterpreted_congr n A B hAB _ _ _ hn

theorem case_lat_congr (n : Nat) (A B : ParseCont) (hAB : AgreeUpTo n A B) (tag : Nat)
    (input : List Nat) (msg : DeltaNodes) (hn : input.length ≤ n) :
    case_lat A tag input msg = case_lat B tag input msg := by
  unfold case_lat
  split
  · exact parse_lat_congr n A B hAB _ _ hn
  · split
    · apply Outcome.bind_congr
      rintro ⟨v, r⟩ ha
      have h1 := ReadRepeatedPrimitiveNoInline_length _ ReadSInt32_length _ _ _ _ _ _ ha
      have h2 := ExpectTag_length 26 r
      simp only
      generalize ExpectTag 26 r = e at h2
      obtain ⟨b, r'⟩ := e
      cases b
      · exact hAB _ _ (by omega)
      · exact parse_lon_congr n A B hAB _ _ (by simp only at h2; omega)
    · exact handle_uninterpreted_congr n A B hAB _ _ _ hn

theorem case_lon_congr (n : Nat) (A B : ParseCont) (hAB : AgreeUpTo n A B) (tag : Nat)
    (input : List Nat) (msg : DeltaNodes) (hn : input.length ≤ n) :
    case_lon A tag input msg = case_lon B tag input msg := by
  unfold case_lon
  split
  · exact parse_lon_congr n A B hAB _ _ hn
  · split
    · apply Outcome.bind_congr
      rintro ⟨v, r⟩ ha
      have h1 := ReadRepeatedPrimitiveNoInline_length _ ReadSInt32_length _ _ _ _ _ _ ha
      simp only
      split
      · rfl
      · exact hAB _ _ (by omega)
    · exact handle_uninterpreted_congr n A B hAB _ _ _ hn

theorem MergeLoop_fuel_irrelevant (f1 : Nat) : ∀ (f2 : Nat) (input : List Nat) (msg : DeltaNodes),
    input.length < f1 → input.length < f2 → MergeLoop f1 input msg = MergeLoop f2 input msg := by
  induction f1 with
  | zero => intro f2 input msg h; omega
  | succ f1 ih =>
    intro f2 input msg h1 h2
    obtain ⟨f2, rfl⟩ : ∃ k, f2 = k + 1 := ⟨f2 - 1, by omega⟩
    rw [MergeLoop, MergeLoop]
    have hl := ReadTag_length input
    generalize ReadTag input = rt at hl
    obtain ⟨tag, input'⟩ := rt
    simp only at hl ⊢
    split
    · rfl
    · next htag =>
      have hlt := hl.2 htag
      have hAB : AgreeUpTo input'.length (MergeLoop f1) (MergeLoop f2) :=
        fun i m hi => ih f2 i m (by omega) (by omega)
      split
      · exact case_id_congr _ _ _ hAB _ _ _ le_rfl
      · exact case_lat_congr _ _ _ hAB _ _ _ le_rfl
      · exact case_lon_congr _ _ _ hAB _ _ _ le_rfl
      · exact handle_uninterpreted_congr _ _ _ hAB _ _ _ le_rfl

/-! ## Decoding packed entries -/

theorem Decode_step (input : List Nat) (msg : DeltaNodes) :
    Decode input msg =
      match ReadTag input with
      | (tag, input') =>
        if tag = 0 then .ok (msg, input')
        else
          match GetTagFieldNumber tag with
          | 1 => case_id Decode tag input' msg
          | 2 => case_lat Decode tag input' msg
          | 3 => case_lon Decode tag input' msg
          | _ => handle_uninterpreted Decode tag input' msg := by
  show MergeLoop (input.length + 1) input msg = _
  rw [MergeLoop]
  have hl := ReadTag_length input
  generalize ReadTag input = rt at hl
  obtain ⟨tag, input'⟩ := rt
  simp only at hl ⊢
  split
  · rfl
  · next htag =>
    have hlt := hl.2 htag
    have hAB : AgreeUpTo input'.length (MergeLoop input.length) Decode :=
      fun i m hi => MergeLoop_fuel_irrelevant _ _ i m (by omega) (by omega)
    rw [case_id_congr _ _ _ hAB tag input' msg le_rfl,
      case_lat_congr _ _ _ hAB tag input' msg le_rfl,
      case_lon_congr _ _ _ hAB tag input' msg le_rfl,
      handle_uninterpreted_congr _ _ _ hAB tag input' msg le_rfl]

theorem Decode_nil (msg : DeltaNodes) : Decode [] msg = .ok (msg, []) := rfl

theorem parse_lon_Body (s : List Int) (tail : List Nat) (msg : DeltaNodes)
    (hs : ∀ x ∈ s, IsInt32 x) (hlen : (Payload WriteSInt32NoTag s).length < 2 ^ 32) :
    parse_lon Decode (PackedBody WriteSInt32NoTag s ++ tail) msg
      = Decode tail { msg with lon_ := AddAll msg.lon_ s } := by
  unfold parse_lon
  rw [ReadPackedPrimitive_Body ReadSInt32 WriteSInt32NoTag WriteSInt32NoTag_ne_nil s tail _
    (fun x hx rest => ReadSInt32_Write x rest (hs x hx)) hlen]
  simp only [Outcome.bind_ok]
  cases tail with
  | nil => rfl
  | cons b t => rfl

theorem Decode_lon_entry (s : List Int) (tail : List Nat) (msg : DeltaNodes)
    (hs : ∀ x ∈ s, IsInt32 x) (hlen : (Payload WriteSInt32NoTag s).length < 2 ^ 32) :
    Decode (PackedEntry 3 WriteSInt32NoTag s ++ tail) msg
      = Decode tail { msg with lon_ := AddAll msg.lon_ s } := by
  rw [Decode_step]
  exact parse_lon_Body s tail msg hs hlen

theorem parse_lat_Body (s : List Int) (tail : List Nat) (msg : DeltaNodes)
    (hs : ∀ x ∈ s, IsInt32 x) (hlen : (Payload WriteSInt32NoTag s).length < 2 ^ 32) :
    parse_lat Decode (PackedBody WriteSInt32NoTag s ++ tail) msg
      = Decode tail { msg with lat_ := AddAll msg.lat_ s } := by
  unfold parse_lat
  rw [ReadPackedPrimitive_Body ReadSInt32 WriteSInt32NoTag WriteSInt32NoTag_ne_nil s tail _
    (fun x hx rest => ReadSInt32_Write x rest (hs x hx)) hlen]
  simp only [Outcome.bind_ok]
  cases tail with
  | nil => rfl
  | cons b t =>
    by_cases hb : b = 26
    · subst hb
      rw [Decode_step]
      rfl
    · simp [ExpectTag, hb]

theorem Decode_lat_entry (s : List Int) (tail : List Nat) (msg : DeltaNodes)
    (hs : ∀ x ∈ s, IsInt32 x) (hlen : (Payload WriteSInt32NoTag s).length < 2 ^ 32) :
    Decode (PackedEntry 2 WriteSInt32NoTag s ++ tail) msg
      = Decode tail { msg with lat_ := AddAll msg.lat_ s } := by
  rw [Decode_step]
  exact parse_lat_Body s tail msg hs hlen

theorem Decode_id_entry (s : List Int) (tail : List Nat) (msg : DeltaNodes)
    (hs : ∀ x ∈ s, IsInt64 x) (hlen : (Payload WriteSInt64NoTag s).length < 2 ^ 32) :
    Decode (PackedEntry 1 WriteSInt64NoTag s ++ tail) msg
      = Decode tail { msg with id_ := AddAll msg.id_ s } := by
  rw [Decode_step]
  show case_id Decode 10 (PackedBody WriteSInt64NoTag s ++ tail) msg = _
  unfold case_id
  rw [if_pos (by decide)]
  rw [ReadPackedPrimitive_Body ReadSInt64 WriteSInt64NoTag WriteSInt64NoTag_ne_nil s tail _
    (fun x hx rest => ReadSInt64_Write x rest (hs x hx)) hlen]
  simp only [Outcome.bind_ok]
  cases tail with
  | nil => rfl
  | cons b t =>
    by_cases hb : b = 18
    · subst hb
      rw [Decode_step]
      rfl
    · simp [ExpectTag, hb]

/-! ## Unknown fields: reading back what was written -/

theorem MakeTag_eq (n t : Nat) (hn : n < 2 ^ 29) (ht : t < 8) : MakeTag n t = n * 8 + t := by
  unfold MakeTag
  rw [Nat.shiftLeft_eq, Nat.mul_comm, ← Nat.mul_add_lt_is_or (i := 3) (by simpa using ht)]
  omega

theorem GetTagFieldNumber_MakeTag (n t : Nat) (hn : n < 2 ^ 29) (ht : t < 8) :
    GetTagFieldNumber (MakeTag n t) = n := by
  rw [MakeTag_eq n t hn ht]; unfold GetTagFieldNumber
  rw [Nat.shiftRight_eq_div_pow]; omega

theorem GetTagWireType_eq (tag : Nat) : GetTagWireType tag = tag % 8 := by
  unfold GetTagWireType
  exact Nat.and_pow_two_sub_one_eq_mod tag 3

theorem GetTagWireType_MakeTag (n t : Nat) (hn : n < 2 ^ 29) (ht : t < 8) :
    GetTagWireType (MakeTag n t) = t := by
  rw [MakeTag_eq n t hn ht, GetTagWireType_eq]; omega

theorem ReadTag_WriteVarint32 (tag : Nat) (rest : List Nat) (h : tag < 2 ^ 32) :
    ReadTag (WriteVarint32 tag ++ rest) = (tag, rest) := by
  have hr := ReadVarint32_Write tag rest h
  unfold ReadTag
  by_cases ht : tag < 128
  · have : WriteVarint32 tag = [tag] := by
      unfold WriteVarint32; rw [Nat.mod_eq_of_lt h, WriteVarintLoop_lt _ _ ht]
    rw [this]; simp [ht]
  · have hw : WriteVarint32 tag = (tag % 128 + 128) :: WriteVarintLoop 4 (tag / 128) := by
      unfold WriteVarint32; rw [Nat.mod_eq_of_lt h, WriteVarintLoop_ge _ _ (by omega)]
    rw [hw] at hr ⊢
    simp only [List.cons_append] at hr ⊢
    rw [if_neg (by omega), hr]

theorem SerializeUnknownField_eq (e : UnknownField) :
    SerializeUnknownField e = WriteVarint32 (FieldTag e) ++ FieldPayload e := by
  cases e <;> simp [SerializeUnknownField, FieldTag, FieldPayload]

theorem ReadLittleEndian_Write (k : Nat) : ∀ (v : Nat) (rest : List Nat), v < 256 ^ k →
    ReadLittleEndian k (WriteLittleEndian k v ++ rest) = some (v, rest) := by
  induction k with
  | zero => intro v rest h; simp at h; subst h; rfl
  | succ k ih =>
    intro v rest h
    have h2 : v / 256 < 256 ^ k := by
      rw [Nat.div_lt_iff_lt_mul (by norm_num)]
      rw [pow_succ] at h; exact h
    rw [WriteLittleEndian, List.cons_append, ReadLittleEndian, ih _ rest h2]
    have : v % 256 + 256 * (v / 256) = v := by omega
    simp only [this]

theorem WriteVarint32_ne_nil (v : Nat) : WriteVarint32 v ≠ [] := WriteVarintLoop_ne_nil _ _

theorem WriteVarint64_ne_nil (v : Nat) : WriteVarint64 v ≠ [] := WriteVarintLoop_ne_nil _ _

mutual
theorem CountField_le : ∀ e : UnknownField, CountField e ≤ (SerializeUnknownField e).length
  | .varint n v => by
    rw [SerializeUnknownField, CountField, List.length_append]
    have := List.length_pos.mpr (WriteVarint32_ne_nil (MakeTag n WIRETYPE_VARINT))
    omega
  | .fixed32 n v => by
    rw [SerializeUnknownField, CountField, List.length_append]
    have := List.length_pos.mpr (WriteVarint32_ne_nil (MakeTag n WIRETYPE_FIXED32))
    omega
  | .fixed64 n v => by
    rw [SerializeUnknownField, CountField, List.length_append]
    have := List.length_pos.mpr (WriteVarint32_ne_nil (MakeTag n WIRETYPE_FIXED64))
    omega
  | .length_delimited n data => by
    rw [SerializeUnknownField, CountField, List.length_append, List.length_append]
    have := List.length_pos.mpr (WriteVarint32_ne_nil (MakeTag n WIRETYPE_LENGTH_DELIMITED))
    omega
  | .group n fields => by
    rw [SerializeUnknownField, CountField, List.length_append, List.length_append]
    have := List.length_pos.mpr (WriteVarint32_ne_nil (MakeTag n WIRETYPE_START_GROUP))
    have := CountFields_le fields
    omega
theorem CountFields_le : ∀ fs : List UnknownField,
    CountFields fs ≤ (SerializeUnknownFields fs).length
  | [] => by simp [CountFields]
  | e :: fs => by
    rw [SerializeUnknownFields, CountFields, List.length_append]
    have := CountField_le e
    have := CountFields_le fs
    omega
end

theorem CountField_pos (e : UnknownField) : 1 ≤ CountField e := by
  cases e <;> simp [CountField]

theorem CountField_le_payload (e : UnknownField) : CountField e ≤ (FieldPayload e).length := by
  cases e with
  | varint n v =>
    simp only [CountField, FieldPayload]
    exact List.length_pos.mpr (WriteVarint64_ne_nil v)
  | fixed32 n v => simp [CountField, FieldPayload, WriteLittleEndian_length]
  | fixed64 n v => simp [CountField, FieldPayload, WriteLittleEndian_length]
  | length_delimited n data =>
    simp only [CountField, FieldPayload, List.length_append]
    have := List.length_pos.mpr (WriteVarint32_ne_nil data.length)
    omega
  | group n fs =>
    simp only [CountField, FieldPayload, List.length_append]
    have := List.length_pos.mpr (WriteVarint32_ne_nil (MakeTag n WIRETYPE_END_GROUP))
    have := CountFields_le fs
    omega

theorem FieldTag_props (d : Nat) (e : UnknownField) (h : ValidField d e = true) :
    FieldTag e < 2 ^ 32 ∧ FieldTag e ≠ 0 ∧ GetTagWireType (FieldTag e) ≠ WIRETYPE_END_GROUP := by
  cases e <;>
    simp only [ValidField, Bool.and_eq_true, decide_eq_true_eq] at h <;>
    simp only [FieldTag, WIRETYPE_VARINT, WIRETYPE_FIXED32, WIRETYPE_FIXED64,
      WIRETYPE_LENGTH_DELIMITED, WIRETYPE_START_GROUP, WIRETYPE_END_GROUP] <;>
    (rw [GetTagWireType_MakeTag _ _ (by omega) (by omega), MakeTag_eq _ _ (by omega) (by omega)]
     omega)

mutual
theorem SkipFieldWith_roundtrip : ∀ (e : UnknownField) (k d : Nat) (rest : List Nat),
    ValidField d e = true → CountField e ≤ k →
    SkipFieldWith (SkipMessage k) d (FieldPayload e ++ rest) (FieldTag e) = .ok (e, rest)
  | .varint n v, k, d, rest, hv, _ => by
    simp only [ValidField, decide_eq_true_eq] at hv
    unfold SkipFieldWith
    simp only [FieldTag, FieldPayload, WIRETYPE_VARINT,
      GetTagWireType_MakeTag n 0 (by omega) (by omega),
      GetTagFieldNumber_MakeTag n 0 (by omega) (by omega),
      ReadVarint64_Write v rest (by omega)]
  | .fixed32 n v, k, d, rest, hv, _ => by
    simp only [ValidField, decide_eq_true_eq] at hv
    unfold SkipFieldWith
    simp only [FieldTag, FieldPayload, WIRETYPE_FIXED32,
      GetTagWireType_MakeTag n 5 (by omega) (by omega),
      GetTagFieldNumber_MakeTag n 5 (by omega) (by omega),
      ReadLittleEndian_Write 4 v rest (by norm_num; omega)]
  | .fixed64 n v, k, d, rest, hv, _ => by
    simp only [ValidField, decide_eq_true_eq] at hv
    unfold SkipFieldWith
    simp only [FieldTag, FieldPayload, WIRETYPE_FIXED64,
      GetTagWireType_MakeTag n 1 (by omega) (by omega),
      GetTagFieldNumber_MakeTag n 1 (by omega) (by omega),
      ReadLittleEndian_Write 8 v rest (by norm_num; omega)]
  | .length_delimited n data, k, d, rest, hv, _ => by
    simp only [ValidField, decide_eq_true_eq] at hv
    unfold SkipFieldWith
    simp only [FieldTag, FieldPayload, WIRETYPE_LENGTH_DELIMITED,
      GetTagWireType_MakeTag n 2 (by omega) (by omega),
      GetTagFieldNumber_MakeTag n 2 (by omega) (by omega), List.append_assoc,
      ReadVarint32_Write data.length (data ++ rest) (by omega)]
    rw [if_neg (by simp; omega), List.take_left, List.drop_left]
  | .group n fs, k, d, rest, hv, hk => by
    simp only [ValidField, Bool.and_eq_true, decide_eq_true_eq] at hv
    simp only [CountField] at hk
    have ih := SkipMessage_roundtrip fs k (d + 1) n rest hv.2 (by omega) (by omega)
    unfold SkipFieldWith
    simp only [FieldTag, FieldPayload, WIRETYPE_START_GROUP,
      GetTagWireType_MakeTag n 3 (by omega) (by omega),
      GetTagFieldNumber_MakeTag n 3 (by omega) (by omega), List.append_assoc]
    rw [if_neg (by omega)]
    simp only [List.append_assoc] at ih
    rw [ih]
    simp
theorem SkipMessage_roundtrip : ∀ (fs : List UnknownField) (k d n : Nat) (rest : List Nat),
    ValidFields d fs = true → n < 2 ^ 29 → CountFields fs + 1 ≤ k →
    SkipMessage k d (SerializeUnknownFields fs ++ WriteVarint32 (MakeTag n WIRETYPE_END_GROUP)
      ++ rest) = .ok (MakeTag n WIRETYPE_END_GROUP, fs, rest)
  | [], k, d, n, rest, _, hn, hk => by
    obtain ⟨k, rfl⟩ : ∃ j, k = j + 1 := ⟨k - 1, by omega⟩
    rw [SkipMessage]
    simp only [SerializeUnknownFields, List.nil_append,
      ReadTag_WriteVarint32 _ rest (MakeTag_lt _ _)]
    simp only [WIRETYPE_END_GROUP, GetTagWireType_MakeTag n 4 hn (by omega)]
    rw [if_neg (by rw [MakeTag_eq n 4 hn (by omega)]; omega)]
    simp
  | e :: fs, k, d, n, rest, hv, hn, hk => by
    obtain ⟨k, rfl⟩ : ∃ j, k = j + 1 := ⟨k - 1, by omega⟩
    simp only [ValidFields, Bool.and_eq_true] at hv
    simp only [CountFields] at hk
    have hpos := CountField_pos e
    have h1 := SkipFieldWith_roundtrip e k d
      (SerializeUnknownFields fs ++ WriteVarint32 (MakeTag n WIRETYPE_END_GROUP) ++ rest)
      hv.1 (by omega)
    have h2 := SkipMessage_roundtrip fs k d n rest hv.2 hn (by omega)
    obtain ⟨t1, t2, t3⟩ := FieldTag_props d e hv.1
    rw [SkipMessage]
    simp only [SerializeUnknownFields, SerializeUnknownField_eq, List.append_assoc,
      ReadTag_WriteVarint32 _ _ t1]
    rw [if_neg t2, if_neg t3]
    simp only [List.append_assoc] at h1 h2
    rw [h1]
    simp only [Outcome.bind_ok]
    rw [h2]
    simp
end

theorem SkipField_roundtrip (e : UnknownField) (rest : List Nat) (hv : ValidField 0 e = true) :
    SkipField (FieldPayload e ++ rest) (FieldTag e) = .ok (e, rest) := by
  unfold SkipField
  apply SkipFieldWith_roundtrip e _ 0 rest hv
  have := CountField_le_payload e
  rw [List.length_append]
  omega

theorem dispatch_uninterpreted (loop : ParseCont) (tag : Nat) (input : List Nat)
    (msg : DeltaNodes)
    (h : (GetTagFieldNumber tag ≠ 1 ∧ GetTagFieldNumber tag ≠ 2 ∧ GetTagFieldNumber tag ≠ 3) ∨
      (GetTagWireType tag ≠ WIRETYPE_LENGTH_DELIMITED ∧ GetTagWireType tag ≠ WIRETYPE_VARINT)) :
    (match GetTagFieldNumber tag with
      | 1 => case_id loop tag input msg
      | 2 => case_lat loop tag input msg
      | 3 => case_lon loop tag input msg
      | _ => handle_uninterpreted loop tag input msg)
      = handle_uninterpreted loop tag input msg := by
  split
  · next h1 =>
    rcases h with h | h
    · exact absurd h1 h.1
    · unfold case_id; rw [if_neg h.1, if_neg h.2]
  · next h1 =>
    rcases h with h | h
    · exact absurd h1 h.2.1
    · unfold case_lat; rw [if_neg h.1, if_neg h.2]
  · next h1 =>
    rcases h with h | h
    · exact absurd h1 h.2.2
    · unfold case_lon; rw [if_neg h.1, if_neg h.2]
  · rfl

theorem Decode_uninterpreted_tag (tag : Nat) (input : List Nat) (msg : DeltaNodes)
    (h0 : tag ≠ 0) (h32 : tag < 2 ^ 32)
    (h : (GetTagFieldNumber tag ≠ 1 ∧ GetTagFieldNumber tag ≠ 2 ∧ GetTagFieldNumber tag ≠ 3) ∨
      (GetTagWireType tag ≠ WIRETYPE_LENGTH_DELIMITED ∧ GetTagWireType tag ≠ WIRETYPE_VARINT)) :
    Decode (WriteVarint32 tag ++ input) msg = handle_uninterpreted Decode tag input msg := by
  rw [Decode_step, ReadTag_WriteVarint32 tag input h32]
  simp only [h0, if_false]
  exact dispatch_uninterpreted Decode tag input msg h

theorem FieldTag_route (e : UnknownField) (hv : ValidField 0 e = true)
    (hu : Uninterpreted e = true) :
    (GetTagFieldNumber (FieldTag e) ≠ 1 ∧ GetTagFieldNumber (FieldTag e) ≠ 2 ∧
        GetTagFieldNumber (FieldTag e) ≠ 3) ∨
      (GetTagWireType (FieldTag e) ≠ WIRETYPE_LENGTH_DELIMITED ∧
        GetTagWireType (FieldTag e) ≠ WIRETYPE_VARINT) := by
  cases e <;>
    simp only [ValidField, Bool.and_eq_true, decide_eq_true_eq] at hv <;>
    simp only [Uninterpreted, decide_eq_true_eq] at hu <;>
    simp only [FieldTag, WIRETYPE_VARINT, WIRETYPE_FIXED32, WIRETYPE_FIXED64,
      WIRETYPE_LENGTH_DELIMITED, WIRETYPE_START_GROUP] <;>
    rw [GetTagWireType_MakeTag _ _ (by omega) (by omega),
      GetTagFieldNumber_MakeTag _ _ (by omega) (by omega)] <;>
    omega

theorem Decode_unknown_entry (e : UnknownField) (tail : List Nat) (msg : DeltaNodes)
    (hv : ValidField 0 e = true) (hu : Uninterpreted e = true) :
    Decode (SerializeUnknownField e ++ tail) msg
      = Decode tail { msg with _unknown_fields_ := msg._unknown_fields_ ++ [e] } := by
  obtain ⟨t1, t2, t3⟩ := FieldTag_props 0 e hv
  rw [SerializeUnknownField_eq, List.append_assoc,
    Decode_uninterpreted_tag _ _ _ t2 t1 (FieldTag_route e hv hu)]
  unfold handle_uninterpreted
  rw [if_neg t3, SkipField_roundtrip e tail hv]
  rfl

/-! ## Decoding a sequence of entries -/

theorem ItemsBytes_cons (a : Item) (items : List Item) :
    ItemsBytes (a :: items) = a.bytes ++ ItemsBytes items := by
  simp [ItemsBytes]

theorem ItemsBytes_append (xs ys : List Item) :
    ItemsBytes (xs ++ ys) = ItemsBytes xs ++ ItemsBytes ys := by
  simp [ItemsBytes]

theorem Decode_item (a : Item) (tail : List Nat) (msg : DeltaNodes) (h : a.Valid) :
    Decode (a.bytes ++ tail) msg = Decode tail (a.apply msg) := by
  cases a with
  | ids s => exact Decode_id_entry s tail msg h.1 (by have := h.2; omega)
  | lats s => exact Decode_lat_entry s tail msg h.1 (by have := h.2; omega)
  | lons s => exact Decode_lon_entry s tail msg h.1 (by have := h.2; omega)
  | unknown e => exact Decode_unknown_entry e tail msg h.1 h.2

theorem Decode_items (items : List Item) : ∀ (tail : List Nat) (msg : DeltaNodes),
    (∀ a ∈ items, a.Valid) →
    Decode (ItemsBytes items ++ tail) msg = Decode tail (items.foldl Item.apply msg) := by
  induction items with
  | nil => intro tail msg _; rfl
  | cons a items ih =>
    intro tail msg h
    rw [ItemsBytes_cons, List.append_assoc,
      Decode_item a _ msg (h a (List.mem_cons_self _ _)),
      ih tail _ (fun b hb => h b (List.mem_cons_of_mem _ hb))]
    rfl

theorem foldl_apply_id (items : List Item) : ∀ msg : DeltaNodes,
    (items.foldl Item.apply msg).id_.elements = msg.id_.elements ++ ItemsIds items := by
  induction items with
  | nil => intro msg; simp [ItemsIds]
  | cons a items ih =>
    intro msg
    rw [List.foldl_cons, ih]
    cases a <;> simp [Item.apply, ItemsIds, AddAll_elements]

theorem foldl_apply_lat (items : List Item) : ∀ msg : DeltaNodes,
    (items.foldl Item.apply msg).lat_.elements = msg.lat_.elements ++ ItemsLats items := by
  induction items with
  | nil => intro msg; simp [ItemsLats]
  | cons a items ih =>
    intro msg
    rw [List.foldl_cons, ih]
    cases a <;> simp [Item.apply, ItemsLats, AddAll_elements]

theorem foldl_apply_lon (items : List Item) : ∀ msg : DeltaNodes,
    (items.foldl Item.apply msg).lon_.elements = msg.lon_.elements ++ ItemsLons items := by
  induction items with
  | nil => intro msg; simp [ItemsLons]
  | cons a items ih =>
    intro msg
    rw [List.foldl_cons, ih]
    cases a <;> simp [Item.apply, ItemsLons, AddAll_elements]

theorem foldl_apply_unknown (items : List Item) : ∀ msg : DeltaNodes,
    (items.foldl Item.apply msg)._unknown_fields_
      = msg._unknown_fields_ ++ ItemsUnknown items := by
  induction items with
  | nil => intro msg; simp [ItemsUnknown]
  | cons a items ih =>
    intro msg
    rw [List.foldl_cons, ih]
    cases a <;> simp [Item.apply, ItemsUnknown]

/-! ## Every reader returns a suffix of its input -/

theorem ReadVarintLoop_suffix (k : Nat) : ∀ (input : List Nat) (v : Nat) (rest : List Nat),
    ReadVarintLoop k input = some (v, rest) → rest <:+ input := by
  induction k with
  | zero => intro input v rest h; simp [ReadVarintLoop] at h
  | succ k ih =>
    intro input v rest h
    cases input with
    | nil => simp [ReadVarintLoop] at h
    | cons b t =>
      rw [ReadVarintLoop] at h
      split at h
      · simp only [Option.some.injEq, Prod.mk.injEq] at h
        rw [← h.2]; exact List.suffix_cons _ _
      · split at h
        · cases h
        · next v' r' hr =>
          simp only [Option.some.injEq, Prod.mk.injEq] at h
          rw [← h.2]
          exact (ih t v' r' hr).trans (List.suffix_cons _ _)

theorem ReadVarint32_suffix (input : List Nat) (v : Nat) (rest : List Nat)
    (h : ReadVarint32 input = some (v, rest)) : rest <:+ input := by
  unfold ReadVarint32 at h
  split at h
  · cases h
  · next v' r' hr =>
    simp only [Option.some.injEq, Prod.mk.injEq] at h
    rw [← h.2]; exact ReadVarintLoop_suffix _ _ _ _ hr

theorem ReadVarint64_suffix (input : List Nat) (v : Nat) (rest : List Nat)
    (h : ReadVarint64 input = some (v, rest)) : rest <:+ input := by
  unfold ReadVarint64 at h
  split at h
  · cases h
  · next v' r' hr =>
    simp only [Option.some.injEq, Prod.mk.injEq] at h
    rw [← h.2]; exact ReadVarintLoop_suffix _ _ _ _ hr

theorem ReadSInt32_suffix (input : List Nat) (v : Int) (rest : List Nat)
    (h : ReadSInt32 input = some (v, rest)) : rest <:+ input := by
  unfold ReadSInt32 at h
  split at h
  · cases h
  · next v' r' hr =>
    simp only [Option.some.injEq, Prod.mk.injEq] at h
    rw [← h.2]; exact ReadVarint32_suffix _ _ _ hr

theorem ReadSInt64_suffix (input : List Nat) (v : Int) (rest : List Nat)
    (h : ReadSInt64 input = some (v, rest)) : rest <:+ input := by
  unfold ReadSInt64 at h
  split at h
  · cases h
  · next v' r' hr =>
    simp only [Option.some.injEq, Prod.mk.injEq] at h
    rw [← h.2]; exact ReadVarint64_suffix _ _ _ hr

theorem ReadTag_suffix (input : List Nat) : (ReadTag input).2 <:+ input := by
  unfold ReadTag
  cases input with
  | nil => exact List.suffix_refl _
  | cons b t =>
    simp only []
    split
    · exact List.suffix_cons _ _
    · split
      · exact List.suffix_refl _
      · next tag r hr => exact ReadVarint32_suffix _ _ _ hr

theorem ExpectTag_suffix (expected : Nat) (input : List Nat) :
    (ExpectTag expected input).2 <:+ input := by
  unfold ExpectTag
  cases input with
  | nil => exact List.suffix_refl _
  | cons b t =>
    simp only []
    split
    · exact List.suffix_cons _ _
    · exact List.suffix_refl _

theorem ReadLittleEndian_suffix (k : Nat) : ∀ (input : List Nat) (v : Nat) (rest : List Nat),
    ReadLittleEndian k input = some (v, rest) → rest <:+ input := by
  induction k with
  | zero =>
    intro input v rest h
    simp [ReadLittleEndian] at h
    rw [h.2]
  | succ k ih =>
    intro input v rest h
    cases input with
    | nil => simp [ReadLittleEndian] at h
    | cons b t =>
      rw [ReadLittleEndian] at h
      split at h
      · cases h
      · next v' r' hr =>
        simp only [Option.some.injEq, Prod.mk.injEq] at h
        rw [← h.2]
        exact (ih t v' r' hr).trans (List.suffix_cons _ _)

theorem ReadPackedPrimitive_suffix (read : List Nat → Option (Int × List Nat))
    (input : List Nat) (values values' : RepeatedField) (rest : List Nat)
    (h : ReadPackedPrimitive read input values = .ok (values', rest)) :
    rest <:+ input := by
  unfold ReadPackedPrimitive at h
  split at h
  · cases h
  · next length input' hr =>
    have h1 := ReadVarint32_suffix _ _ _ hr
    split at h
    · cases h
    · obtain ⟨a, _, ha⟩ := Outcome.bind_eq_ok _ _ _ h
      simp only [Outcome.ok.injEq, Prod.mk.injEq] at ha
      rw [← ha.2]
      exact (List.drop_suffix _ _).trans h1

theorem ReadRepeatedLoop_suffix (read : List Nat → Option (Int × List Nat)) (tag : Nat)
    (hread : ∀ input v rest, read input = some (v, rest) → rest <:+ input)
    (k : Nat) : ∀ (input : List Nat) (values values' : RepeatedField) (rest : List Nat),
    ReadRepeatedLoop read tag k input values = .ok (values', rest) → rest <:+ input := by
  induction k with
  | zero =>
    intro input values values' rest h
    simp only [ReadRepeatedLoop, Outcome.ok.injEq, Prod.mk.injEq] at h
    rw [h.2]
  | succ k ih =>
    intro input values values' rest h
    rw [ReadRepeatedLoop] at h
    have he := ExpectTag_suffix tag input
    split at h
    · simp only [Outcome.ok.injEq, Prod.mk.injEq] at h
      rw [h.2]
    · next input' hx =>
      rw [hx] at he
      split at h
      · cases h
      · next value input'' hr =>
        exact ((ih _ _ _ _ h).trans (hread _ _ _ hr)).trans he

theorem ReadRepeatedPrimitiveNoInline_suffix (read : List Nat → Option (Int × List Nat))
    (hread : ∀ input v rest, read input = some (v, rest) → rest <:+ input)
    (tag_size tag : Nat) (input : List Nat) (values values' : RepeatedField) (rest : List Nat)
    (h : ReadRepeatedPrimitiveNoInline read tag_size tag input values = .ok (values', rest)) :
    rest <:+ input := by
  unfold ReadRepeatedPrimitiveNoInline at h
  split at h
  · cases h
  · next value input' hr =>
    exact (ReadRepeatedLoop_suffix read tag hread _ _ _ _ _ h).trans (hread _ _ _ hr)

theorem SkipFieldWith_suffix
    (skipMessage : Nat → List Nat → Outcome (Nat × List UnknownField × List Nat))
    (hskip : ∀ d input t fs rest, skipMessage d input = .ok (t, fs, rest) → rest <:+ input)
    (depth : Nat) (input : List Nat) (tag : Nat) (field : UnknownField) (rest : List Nat)
    (h : SkipFieldWith skipMessage depth input tag = .ok (field, rest)) :
    rest <:+ input := by
  unfold SkipFieldWith at h
  simp only at h
  split at h
  · split at h
    · cases h
    · next v r hr =>
      simp only [Outcome.ok.injEq, Prod.mk.injEq] at h
      rw [← h.2]; exact ReadVarint64_suffix _ _ _ hr
  · split at h
    · cases h
    · next v r hr =>
      simp only [Outcome.ok.injEq, Prod.mk.injEq] at h
      rw [← h.2]; exact ReadLittleEndian_suffix _ _ _ _ hr
  · split at h
    · cases h
    · next v r hr =>
      have := ReadVarint32_suffix _ _ _ hr
      split at h
      · cases h
      · simp only [Outcome.ok.injEq, Prod.mk.injEq] at h
        rw [← h.2]; exact (List.drop_suffix _ _).trans this
  · split at h
    · cases h
    · obtain ⟨⟨t, fs, r⟩, ha, hb⟩ := Outcome.bind_eq_ok _ _ _ h
      have := hskip _ _ _ _ _ ha
      simp only at hb
      split at hb
      · simp only [Outcome.ok.injEq, Prod.mk.injEq] at hb
        rw [← hb.2]; exact this
      · cases hb
  · split at h
    · cases h
    · next v r hr =>
      simp only [Outcome.ok.injEq, Prod.mk.injEq] at h
      rw [← h.2]; exact ReadLittleEndian_suffix _ _ _ _ hr
  · cases h

theorem SkipMessage_suffix (fuel : Nat) : ∀ (depth : Nat) (input : List Nat) (t : Nat)
    (fs : List UnknownField) (rest : List Nat),
    SkipMessage fuel depth input = .ok (t, fs, rest) → rest <:+ input := by
  induction fuel with
  | zero => intro depth input t fs rest h; simp [SkipMessage] at h
  | succ fuel ih =>
    intro depth input t fs rest h
    rw [SkipMessage] at h
    have hl := ReadTag_suffix input
    generalize ReadTag input = rt at h hl
    obtain ⟨tag, input'⟩ := rt
    simp only at h hl
    split at h
    · simp only [Outcome.ok.injEq, Prod.mk.injEq] at h
      rw [← h.2.2]; exact hl
    · split at h
      · simp only [Outcome.ok.injEq, Prod.mk.injEq] at h
        rw [← h.2.2]; exact hl
      · obtain ⟨⟨f, r1⟩, ha, hb⟩ := Outcome.bind_eq_ok _ _ _ h
        have h1 := SkipFieldWith_suffix _ (fun d i t fs r => ih d i t fs r) _ _ _ _ _ ha
        simp only at hb
        obtain ⟨⟨t2, fs2, r2⟩, hc, hd⟩ := Outcome.bind_eq_ok _ _ _ hb
        have h2 := ih _ _ _ _ _ hc
        simp only [Outcome.ok.injEq, Prod.mk.injEq] at hd
        rw [← hd.2.2]; exact (h2.trans h1).trans hl

theorem SkipField_suffix (input : List Nat) (tag : Nat) (field : UnknownField)
    (rest : List Nat) (h : SkipField input tag = .ok (field, rest)) : rest <:+ input :=
  SkipFieldWith_suffix _ (fun d i t fs r => SkipMessage_suffix _ d i t fs r) _ _ _ _ _ h

/-! ## Where a successful parse stops -/

theorem StopsAt_of_suffix (i j rest : List Nat) (h : StopsAt i rest) (hs : i <:+ j) :
    StopsAt j rest := by
  obtain ⟨s, h1, h2, h3⟩ := h
  exact ⟨s, h1.trans hs, h2, h3⟩

theorem StopsAt_nil (input : List Nat) : StopsAt input [] :=
  ⟨[], List.nil_suffix, rfl, Or.inl rfl⟩

theorem parse_lon_stops (loop : ParseCont) (input : List Nat) (msg out : DeltaNodes)
    (rest : List Nat)
    (hloop : ∀ i m o r, i <:+ input → loop i m = .ok (o, r) → StopsAt i r)
    (h : parse_lon loop input msg = .ok (out, rest)) : StopsAt input rest := by
  unfold parse_lon at h
  obtain ⟨⟨v, r1⟩, ha, hb⟩ := Outcome.bind_eq_ok _ _ _ h
  have hs := ReadPackedPrimitive_suffix _ _ _ _ _ ha
  simp only at hb
  split at hb
  · next he =>
    simp only [Outcome.ok.injEq, Prod.mk.injEq] at hb
    have : r1 = [] := List.isEmpty_iff.mp he
    rw [← hb.2, this]
    exact StopsAt_nil _
  · exact StopsAt_of_suffix _ _ _ (hloop _ _ _ _ hs hb) hs

theorem parse_lat_stops (loop : ParseCont) (input : List Nat) (msg out : DeltaNodes)
    (rest : List Nat)
    (hloop : ∀ i m o r, i <:+ input → loop i m = .ok (o, r) → StopsAt i r)
    (h : parse_lat loop input msg = .ok (out, rest)) : StopsAt input rest := by
  unfold parse_lat at h
  obtain ⟨⟨v, r1⟩, ha, hb⟩ := Outcome.bind_eq_ok _ _ _ h
  have hs := ReadPackedPrimitive_suffix _ _ _ _ _ ha
  have he := ExpectTag_suffix 26 r1
  simp only at hb
  generalize ExpectTag 26 r1 = e at hb he
  obtain ⟨b, r2⟩ := e
  cases b
  · exact StopsAt_of_suffix _ _ _ (hloop _ _ _ _ hs hb) hs
  · simp only at hb he
    have := parse_lon_stops loop r2 _ _ _
      (fun i m o r hi hl => hloop i m o r ((hi.trans he).trans hs) hl) hb
    exact StopsAt_of_suffix _ _ _ this (he.trans hs)

theorem handle_uninterpreted_stops (loop : ParseCont) (tag : Nat) (input : List Nat)
    (msg out : DeltaNodes) (rest : List Nat)
    (hloop : ∀ i m o r, i <:+ input → loop i m = .ok (o, r) → StopsAt i r)
    (h : handle_uninterpreted loop tag input msg = .ok (out, rest)) :
    (GetTagWireType tag = WIRETYPE_END_GROUP ∧ rest = input) ∨ StopsAt input rest := by
  unfold handle_uninterpreted at h
  split at h
  · next hw =>
    simp only [Outcome.ok.injEq, Prod.mk.injEq] at h
    exact Or.inl ⟨hw, h.2.symm⟩
  · obtain ⟨⟨f, r1⟩, ha, hb⟩ := Outcome.bind_eq_ok _ _ _ h
    have hs := SkipField_suffix _ _ _ _ ha
    exact Or.inr (StopsAt_of_suffix _ _ _ (hloop _ _ _ _ hs hb) hs)

theorem case_id_stops (loop : ParseCont) (tag : Nat) (input : List Nat)
    (msg out : DeltaNodes) (rest : List Nat)
    (hloop : ∀ i m o r, i <:+ input → loop i m = .ok (o, r) → StopsAt i r)
    (h : case_id loop tag input msg = .ok (out, rest)) :
    (GetTagWireType tag = WIRETYPE_END_GROUP ∧ rest = input) ∨ StopsAt input rest := by
  unfold case_id at h
  split at h
  · right
    obtain ⟨⟨v, r1⟩, ha, hb⟩ := Outcome.bind_eq_ok _ _ _ h
    have hs := ReadPackedPrimitive_suffix _ _ _ _ _ ha
    have he := ExpectTag_suffix 18 r1
    simp only at hb
    generalize ExpectTag 18 r1 = e at hb he
    obtain ⟨b, r2⟩ := e
    cases b
    · exact StopsAt_of_suffix _ _ _ (hloop _ _ _ _ hs hb) hs
    · simp only at hb he
      have := parse_lat_stops loop r2 _ _ _
        (fun i m o r hi hl => hloop i m o r ((hi.trans he).trans hs) hl) hb
      exact StopsAt_of_suffix _ _ _ this (he.trans hs)
  · split at h
    · right
      obtain ⟨⟨v, r1⟩, ha, hb⟩ := Outcome.bind_eq_ok _ _ _ h
      have hs := ReadRepeatedPrimitiveNoInline_suffix _ ReadSInt64_suffix _ _ _ _ _ _ ha
      have he := ExpectTag_suffix 18 r1
      simp only at hb
      generalize ExpectTag 18 r1 = e at hb he
      obtain ⟨b, r2⟩ := e
      cases b
      · exact StopsAt_of_suffix _ _ _ (hloop _ _ _ _ hs hb) hs
      · simp only at hb he
        have := parse_lat_stops loop r2 _ _ _
          (fun i m o r hi hl => hloop i m o r ((hi.trans he).trans hs) hl) hb
        exact StopsAt_of_suffix _ _ _ this (he.trans hs)
    · exact handle_uninterpreted_stops loop tag input msg out rest hloop h

theorem case_lat_stops (loop : ParseCont) (tag : Nat) (input : List Nat)
    (msg out : DeltaNodes) (rest : List Nat)
    (hloop : ∀ i m o r, i <:+ input → loop i m = .ok (o, r) → StopsAt i r)
    (h : case_lat loop tag input msg = .ok (out, rest)) :
    (GetTagWireType tag = WIRETYPE_END_GROUP ∧ rest = input) ∨ StopsAt input rest := by
  unfold case_lat at h
  split at h
  · exact Or.inr (parse_lat_stops loop input msg out rest hloop h)
  · split at h
    · right
      obtain ⟨⟨v, r1⟩, ha, hb⟩ := Outcome.bind_eq_ok _ _ _ h
      have hs := ReadRepeatedPrimitiveNoInline_suffix _ ReadSInt32_suffix _ _ _ _ _ _ ha
      have he := ExpectTag_suffix 26 r1
      simp only at hb
      generalize ExpectTag 26 r1 = e at hb he
      obtain ⟨b, r2⟩ := e
      cases b
      · exact StopsAt_of_suffix _ _ _ (hloop _ _ _ _ hs hb) hs
      · simp only at hb he
        have := parse_lon_stops loop r2 _ _ _
          (fun i m o r hi hl => hloop i m o r ((hi.trans he).trans hs) hl) hb
        exact StopsAt_of_suffix _ _ _ this (he.trans hs)
    · exact handle_uninterpreted_stops loop tag input msg out rest hloop h

theorem case_lon_stops (loop : ParseCont) (tag : Nat) (input : List Nat)
    (msg out : DeltaNodes) (rest : List Nat)
    (hloop : ∀ i m o r, i <:+ input → loop i m = .ok (o, r) → StopsAt i r)
    (h : case_lon loop tag input msg = .ok (out, rest)) :
    (GetTagWireType tag = WIRETYPE_END_GROUP ∧ rest = input) ∨ StopsAt input rest := by
  unfold case_lon at h
  split at h
  · exact Or.inr (parse_lon_stops loop input msg out rest hloop h)
  · split at h
    · right
      obtain ⟨⟨v, r1⟩, ha, hb⟩ := Outcome.bind_eq_ok _ _ _ h
      have hs := ReadRepeatedPrimitiveNoInline_suffix _ ReadSInt32_suffix _ _ _ _ _ _ ha
      simp only at hb
      split at hb
      · next he =>
        simp only [Outcome.ok.injEq, Prod.mk.injEq] at hb
        have : r1 = [] := List.isEmpty_iff.mp he
        rw [← hb.2, this]
        exact StopsAt_nil _
      · exact StopsAt_of_suffix _ _ _ (hloop _ _ _ _ hs hb) hs
    · exact handle_uninterpreted_stops loop tag input msg out rest hloop h

theorem Decode_stops (n : Nat) : ∀ (input : List Nat) (msg out : DeltaNodes) (rest : List Nat),
    input.length ≤ n → Decode input msg = .ok (out, rest) → StopsAt input rest := by
  induction n with
  | zero =>
    intro input msg out rest hn h
    have : input = [] := List.length_eq_zero.mp (by omega)
    subst this
    rw [Decode_nil] at h
    simp only [Outcome.ok.injEq, Prod.mk.injEq] at h
    rw [← h.2]; exact StopsAt_nil _
  | succ n ih =>
    intro input msg out rest hn h
    rw [Decode_step] at h
    have hl := ReadTag_length input
    have hs := ReadTag_suffix input
    have key : ∀ tag input', ReadTag input = (tag, input') →
        ((tag = 0 ∨ GetTagWireType tag = WIRETYPE_END_GROUP) ∧ rest = input') →
        StopsAt input rest := by
      intro tag input' hr hc
      refine ⟨input, List.suffix_refl _, ?_, ?_⟩
      · rw [hr]; exact hc.2.symm
      · rw [hr]; exact hc.1
    generalize hrt : ReadTag input = rt at h hl hs
    obtain ⟨tag, input'⟩ := rt
    simp only at h hl hs
    split at h
    · next h0 =>
      simp only [Outcome.ok.injEq, Prod.mk.injEq] at h
      exact key tag input' hrt ⟨Or.inl h0, h.2.symm⟩
    · next h0 =>
      have hlt := hl.2 h0
      have hloop : ∀ i m o r, i <:+ input' → Decode i m = .ok (o, r) → StopsAt i r :=
        fun i m o r hi hd => ih i m o r (by have := hi.length_le; omega) hd
      have fin : (GetTagWireType tag = WIRETYPE_END_GROUP ∧ rest = input') ∨
          StopsAt input' rest → StopsAt input rest := by
        rintro (hc | hc)
        · exact key tag input' hrt ⟨Or.inr hc.1, hc.2⟩
        · exact StopsAt_of_suffix _ _ _ hc hs
      split at h
      · exact fin (case_id_stops Decode tag input' msg out rest hloop h)
      · exact fin (case_lat_stops Decode tag input' msg out rest hloop h)
      · exact fin (case_lon_stops Decode tag input' msg out rest hloop h)
      · exact fin (handle_uninterpreted_stops Decode tag input' msg out rest hloop h)

/-! ## Batches as sequences of entries -/

theorem WriteVarintLoop_stable (j : Nat) : ∀ (k v : Nat), v < 128 ^ (j + 1) → v < 128 ^ (k + 1) →
    WriteVarintLoop (j + 1) v = WriteVarintLoop (k + 1) v := by
  induction j with
  | zero =>
    intro k v hj _
    have hv : v < 128 := by simpa using hj
    rw [WriteVarintLoop_lt _ _ hv, WriteVarintLoop_lt _ _ hv]
  | succ j ih =>
    intro k v hj hk
    by_cases hv : v < 128
    · rw [WriteVarintLoop_lt _ _ hv, WriteVarintLoop_lt _ _ hv]
    · cases k with
      | zero => exact absurd (by simpa using hk) hv
      | succ k =>
        rw [WriteVarintLoop_ge (j + 1) v (by omega), WriteVarintLoop_ge (k + 1) v (by omega)]
        congr 1
        apply ih
        · rw [Nat.div_lt_iff_lt_mul (by norm_num), ← pow_succ]; exact hj
        · rw [Nat.div_lt_iff_lt_mul (by norm_num), ← pow_succ]; exact hk

theorem Varint_eq (n : Nat) (h : n < 2 ^ 32) : Varint n = WriteVarint32 n := by
  unfold Varint WriteVarint32
  rw [Nat.mod_eq_of_lt h]
  apply WriteVarintLoop_stable
  · calc n < n + 1 := by omega
      _ ≤ 2 ^ (n + 1) := Nat.lt_two_pow (n + 1) |>.le |> fun h => by omega
      _ ≤ 128 ^ (n + 1) := Nat.pow_le_pow_left (by norm_num) _
  · norm_num at h ⊢; omega

theorem Payload_length_sum_nat (write : Int → List Nat) (s : List Int) :
    (Payload write s).length = (s.map fun x => (write x).length).sum := by
  induction s with
  | nil => rfl
  | cons x s ih => rw [Payload_cons, List.length_append, ih]; simp

theorem FrameSpec_eq (k : Nat) (write : Int → List Nat) (s : List Int)
    (h : (Payload write s).length < 2 ^ 32) : FrameSpec k write s = PackedFrame k write s := by
  unfold FrameSpec PackedFrame PackedEntry PackedBody
  rw [← Payload_length_sum_nat, Varint_eq _ h]
  split
  · rfl
  · simp [Payload]

theorem FramedSize_eq (k : Nat) (write : Int → List Nat) (s : List Int)
    (h : (Payload write s).length < 2 ^ 32) :
    FramedSize write s = (PackedFrame k write s).length := by
  unfold FramedSize
  rw [PackedFrame_length, Varint_eq _ h]

theorem PackedFrame_items_id (s : List Int) :
    PackedFrame 1 WriteSInt64NoTag s = ItemsBytes (if s = [] then [] else [Item.ids s]) := by
  unfold PackedFrame
  split <;> simp [ItemsBytes, Item.bytes]

theorem PackedFrame_items_lat (s : List Int) :
    PackedFrame 2 WriteSInt32NoTag s = ItemsBytes (if s = [] then [] else [Item.lats s]) := by
  unfold PackedFrame
  split <;> simp [ItemsBytes, Item.bytes]

theorem PackedFrame_items_lon (s : List Int) :
    PackedFrame 3 WriteSInt32NoTag s = ItemsBytes (if s = [] then [] else [Item.lons s]) := by
  unfold PackedFrame
  split <;> simp [ItemsBytes, Item.bytes]

theorem SerializeUnknownFields_items (fs : List UnknownField) :
    SerializeUnknownFields fs = ItemsBytes (fs.map Item.unknown) := by
  induction fs with
  | nil => rfl
  | cons e fs ih =>
    rw [SerializeUnknownFields, List.map_cons, ItemsBytes_cons, ih]; rfl

theorem Serialize_BatchItems (msg : DeltaNodes) :
    msg.ByteSize.2.SerializeWithCachedSizes = ItemsBytes (BatchItems msg) := by
  rw [SerializeWithCachedSizes_ByteSize, PackedFrame_items_id, PackedFrame_items_lat,
    PackedFrame_items_lon, SerializeUnknownFields_items]
  unfold BatchItems
  simp only [ItemsBytes_append]

theorem ItemsIds_append (xs ys : List Item) : ItemsIds (xs ++ ys) = ItemsIds xs ++ ItemsIds ys := by
  induction xs with
  | nil => rfl
  | cons a xs ih => cases a <;> simp [ItemsIds, ih]

theorem ItemsLats_append (xs ys : List Item) :
    ItemsLats (xs ++ ys) = ItemsLats xs ++ ItemsLats ys := by
  induction xs with
  | nil => rfl
  | cons a xs ih => cases a <;> simp [ItemsLats, ih]

theorem ItemsLons_append (xs ys : List Item) :
    ItemsLons (xs ++ ys) = ItemsLons xs ++ ItemsLons ys := by
  induction xs with
  | nil => rfl
  | cons a xs ih => cases a <;> simp [ItemsLons, ih]

theorem ItemsUnknown_append (xs ys : List Item) :
    ItemsUnknown (xs ++ ys) = ItemsUnknown xs ++ ItemsUnknown ys := by
  induction xs with
  | nil => rfl
  | cons a xs ih => cases a <;> simp [ItemsUnknown, ih]

theorem Items_map_unknown (fs : List UnknownField) :
    ItemsIds (fs.map Item.unknown) = [] ∧ ItemsLats (fs.map Item.unknown) = [] ∧
      ItemsLons (fs.map Item.unknown) = [] ∧ ItemsUnknown (fs.map Item.unknown) = fs := by
  induction fs with
  | nil => exact ⟨rfl, rfl, rfl, rfl⟩
  | cons e fs ih => simp [ItemsIds, ItemsLats, ItemsLons, ItemsUnknown, ih]

theorem BatchItems_contents (msg : DeltaNodes) :
    ItemsIds (BatchItems msg) = msg.id_.elements ∧
    ItemsLats (BatchItems msg) = msg.lat_.elements ∧
    ItemsLons (BatchItems msg) = msg.lon_.elements ∧
    ItemsUnknown (BatchItems msg) = msg._unknown_fields_ := by
  obtain ⟨u1, u2, u3, u4⟩ := Items_map_unknown msg._unknown_fields_
  unfold BatchItems
  simp only [ItemsIds_append, ItemsLats_append, ItemsLons_append, ItemsUnknown_append,
    u1, u2, u3, u4]
  refine ⟨?_, ?_, ?_, ?_⟩
  · by_cases h1 : msg.id_.elements = [] <;> by_cases h2 : msg.lat_.elements = [] <;>
      by_cases h3 : msg.lon_.elements = [] <;> simp [h1, h2, h3, ItemsIds]
  · by_cases h1 : msg.id_.elements = [] <;> by_cases h2 : msg.lat_.elements = [] <;>
      by_cases h3 : msg.lon_.elements = [] <;> simp [h1, h2, h3, ItemsLats]
  · by_cases h1 : msg.id_.elements = [] <;> by_cases h2 : msg.lat_.elements = [] <;>
      by_cases h3 : msg.lon_.elements = [] <;> simp [h1, h2, h3, ItemsLons]
  · by_cases h1 : msg.id_.elements = [] <;> by_cases h2 : msg.lat_.elements = [] <;>
      by_cases h3 : msg.lon_.elements = [] <;> simp [h1, h2, h3, ItemsUnknown]

theorem BatchItems_valid (msg : DeltaNodes) (hwf : msg.WellFormed)
    (h1 : (Payload WriteSInt64NoTag msg.id_.elements).length < 2 ^ 31)
    (h2 : (Payload WriteSInt32NoTag msg.lat_.elements).length < 2 ^ 31)
    (h3 : (Payload WriteSInt32NoTag msg.lon_.elements).length < 2 ^ 31) :
    ∀ a ∈ BatchItems msg, a.Valid := by
  obtain ⟨w1, w2, w3, w4⟩ := hwf
  intro a ha
  unfold BatchItems at ha
  simp only [List.mem_append, List.mem_map] at ha
  rcases ha with ((ha | ha) | ha) | ha
  · split at ha
    · cases ha
    · rw [List.mem_singleton] at ha; subst ha; exact ⟨w1, h1⟩
  · split at ha
    · cases ha
    · rw [List.mem_singleton] at ha; subst ha; exact ⟨w2, h2⟩
  · split at ha
    · cases ha
    · rw [List.mem_singleton] at ha; subst ha; exact ⟨w3, h3⟩
  · obtain ⟨e, he, rfl⟩ := ha
    exact w4 e he

theorem payload_bounds (msg : DeltaNodes)
    (hsize : msg.ByteSize.2.SerializeWithCachedSizes.length < 2 ^ 31) :
    (Payload WriteSInt64NoTag msg.id_.elements).length < 2 ^ 31 ∧
    (Payload WriteSInt32NoTag msg.lat_.elements).length < 2 ^ 31 ∧
    (Payload WriteSInt32NoTag msg.lon_.elements).length < 2 ^ 31 := by
  rw [SerializeWithCachedSizes_ByteSize] at hsize
  simp only [List.length_append] at hsize
  have g1 := PackedFrame_length_ge 1 WriteSInt64NoTag msg.id_.elements
  have g2 := PackedFrame_length_ge 2 WriteSInt32NoTag msg.lat_.elements
  have g3 := PackedFrame_length_ge 3 WriteSInt32NoTag msg.lon_.elements
  omega

theorem New_foldl_contents (items : List Item) (c1 c2 c3 : Int) :
    (items.foldl Item.apply (DeltaNodes.New c1 c2 c3)).id_.elements = ItemsIds items ∧
    (items.foldl Item.apply (DeltaNodes.New c1 c2 c3)).lat_.elements = ItemsLats items ∧
    (items.foldl Item.apply (DeltaNodes.New c1 c2 c3)).lon_.elements = ItemsLons items ∧
    (items.foldl Item.apply (DeltaNodes.New c1 c2 c3))._unknown_fields_ = ItemsUnknown items := by
  rw [foldl_apply_id, foldl_apply_lat, foldl_apply_lon, foldl_apply_unknown]
  exact ⟨rfl, rfl, rfl, rfl⟩

theorem Decode_items_New (items : List Item) (c1 c2 c3 : Int) (h : ∀ a ∈ items, a.Valid) :
    (DeltaNodes.New c1 c2 c3).MergePartialFromCodedStream (ItemsBytes items)
      = .ok (items.foldl Item.apply (DeltaNodes.New c1 c2 c3), []) := by
  have := Decode_items items [] (DeltaNodes.New c1 c2 c3) h
  rw [List.append_nil] at this
  exact this

/-! ## The parser always returns -/

theorem Outcome.bind_ne_fuel {α β : Type} (x : Outcome α) (f : α → Outcome β)
    (hx : x ≠ .fuel) (hf : ∀ a, x = .ok a → f a ≠ .fuel) : x.bind f ≠ .fuel := by
  cases x with
  | ok a => exact hf a rfl
  | fail => intro h; cases h
  | fuel => exact absurd rfl hx

theorem ReadPackedLoop_ne_fuel (read : List Nat → Option (Int × List Nat))
    (hread : ∀ input v rest, read input = some (v, rest) → rest.length < input.length)
    (k : Nat) : ∀ (payload : List Nat) (values : RepeatedField), payload.length ≤ k →
    ReadPackedLoop read k payload values ≠ .fuel := by
  induction k with
  | zero =>
    intro payload values h
    have : payload = [] := List.length_eq_zero.mp (by omega)
    subst this
    simp [ReadPackedLoop]
  | succ k ih =>
    intro payload values h
    cases payload with
    | nil => simp [ReadPackedLoop]
    | cons b t =>
      rw [ReadPackedLoop]
      split
      · intro hc; cases hc
      · next v r hr =>
        have := hread _ _ _ hr
        exact ih _ _ (by simp only [List.length_cons] at this h; omega)

theorem ReadPackedPrimitive_ne_fuel (read : List Nat → Option (Int × List Nat))
    (hread : ∀ input v rest, read input = some (v, rest) → rest.length < input.length)
    (input : List Nat) (values : RepeatedField) :
    ReadPackedPrimitive read input values ≠ .fuel := by
  unfold ReadPackedPrimitive
  split
  · intro hc; cases hc
  · split
    · intro hc; cases hc
    · apply Outcome.bind_ne_fuel
      · exact ReadPackedLoop_ne_fuel read hread _ _ _ (by rw [List.length_take]; omega)
      · intro a _ hc; cases hc

theorem ReadRepeatedLoop_ne_fuel (read : List Nat → Option (Int × List Nat)) (tag : Nat)
    (k : Nat) : ∀ (input : List Nat) (values : RepeatedField),
    ReadRepeatedLoop read tag k input values ≠ .fuel := by
  induction k with
  | zero => intro input values hc; simp [ReadRepeatedLoop] at hc
  | succ k ih =>
    intro input values
    rw [ReadRepeatedLoop]
    split
    · intro hc; cases hc
    · split
      · intro hc; cases hc
      · exact ih _ _

theorem ReadRepeatedPrimitiveNoInline_ne_fuel (read : List Nat → Option (Int × List Nat))
    (tag_size tag : Nat) (input : List Nat) (values : RepeatedField) :
    ReadRepeatedPrimitiveNoInline read tag_size tag input values ≠ .fuel := by
  unfold ReadRepeatedPrimitiveNoInline
  split
  · intro hc; cases hc
  · exact ReadRepeatedLoop_ne_fuel read tag _ _ _

theorem SkipFieldWith_ne_fuel
    (skipMessage : Nat → List Nat → Outcome (Nat × List UnknownField × List Nat))
    (depth : Nat) (input : List Nat) (tag : Nat)
    (hskip : ∀ d, skipMessage d input ≠ .fuel) :
    SkipFieldWith skipMessage depth input tag ≠ .fuel := by
  unfold SkipFieldWith
  simp only
  split
  · split <;> (intro hc; cases hc)
  · split <;> (intro hc; cases hc)
  · split
    · intro hc; cases hc
    · split <;> (intro hc; cases hc)
  · split
    · intro hc; cases hc
    · apply Outcome.bind_ne_fuel _ _ (hskip _)
      intro a _
      split <;> (intro hc; cases hc)
  · split <;> (intro hc; cases hc)
  · intro hc; cases hc

theorem SkipMessage_ne_fuel (fuel : Nat) : ∀ (depth : Nat) (input : List Nat),
    input.length < fuel → SkipMessage fuel depth input ≠ .fuel := by
  induction fuel with
  | zero => intro depth input h; omega
  | succ fuel ih =>
    intro depth input h
    rw [SkipMessage]
    have hl := ReadTag_length input
    generalize ReadTag input = rt at hl
    obtain ⟨tag, input'⟩ := rt
    simp only at hl ⊢
    split
    · intro hc; cases hc
    · next h0 =>
      have hlt := hl.2 h0
      split
      · intro hc; cases hc
      · apply Outcome.bind_ne_fuel
        · exact SkipFieldWith_ne_fuel _ _ _ _ (fun d => ih d input' (by omega))
        · rintro ⟨f, r⟩ ha
          have := SkipFieldWith_length _ (fun d i t fs r => SkipMessage_length _ d i t fs r)
            _ _ _ _ _ ha
          apply Outcome.bind_ne_fuel _ _ (ih _ _ (by simp only; omega))
          intro a _ hc
          cases hc

theorem SkipField_ne_fuel (input : List Nat) (tag : Nat) : SkipField input tag ≠ .fuel :=
  SkipFieldWith_ne_fuel _ _ _ _ (fun d => SkipMessage_ne_fuel _ d input (by omega))

theorem handle_uninterpreted_ne_fuel (loop : ParseCont) (tag : Nat) (input : List Nat)
    (msg : DeltaNodes) (hloop : ∀ i m, i.length ≤ input.length → loop i m ≠ .fuel) :
    handle_uninterpreted loop tag input msg ≠ .fuel := by
  unfold handle_uninterpreted
  split
  · intro hc; cases hc
  · apply Outcome.bind_ne_fuel _ _ (SkipField_ne_fuel _ _)
    rintro ⟨f, r⟩ ha
    exact hloop _ _ (SkipField_length _ _ _ _ ha)

theorem parse_lon_ne_fuel (loop : ParseCont) (input : List Nat) (msg : DeltaNodes)
    (hloop : ∀ i m, i.length ≤ input.length → loop i m ≠ .fuel) :
    parse_lon loop input msg ≠ .fuel := by
  unfold parse_lon
  apply Outcome.bind_ne_fuel _ _ (ReadPackedPrimitive_ne_fuel _ ReadSInt32_length _ _)
  rintro ⟨v, r⟩ ha
  have := ReadPackedPrimitive_length _ _ _ _ _ ha
  simp only
  split
  · intro hc; cases hc
  · exact hloop _ _ (by omega)

theorem parse_lat_ne_fuel (loop : ParseCont) (input : List Nat) (msg : DeltaNodes)
    (hloop : ∀ i m, i.length ≤ input.length → loop i m ≠ .fuel) :
    parse_lat loop input msg ≠ .fuel := by
  unfold parse_lat
  apply Outcome.bind_ne_fuel _ _ (ReadPackedPrimitive_ne_fuel _ ReadSInt32_length _ _)
  rintro ⟨v, r⟩ ha
  have h1 := ReadPackedPrimitive_length _ _ _ _ _ ha
  have h2 := ExpectTag_length 26 r
  simp only
  generalize ExpectTag 26 r = e at h2
  obtain ⟨b, r'⟩ := e
  cases b
  · exact hloop _ _ (by omega)
  · exact parse_lon_ne_fuel loop _ _ (fun i m hi => hloop i m (by simp only at h2; omega))

theorem case_id_ne_fuel (loop : ParseCont) (tag : Nat) (input : List Nat) (msg : DeltaNodes)
    (hloop : ∀ i m, i.length ≤ input.length → loop i m ≠ .fuel) :
    case_id loop tag input msg ≠ .fuel := by
  unfold case_id
  split
  · apply Outcome.bind_ne_fuel _ _ (ReadPackedPrimitive_ne_fuel _ ReadSInt64_length _ _)
    rintro ⟨v, r⟩ ha
    have h1 := ReadPackedPrimitive_length _ _ _ _ _ ha
    have h2 := ExpectTag_length 18 r
    simp only
    generalize ExpectTag 18 r = e at h2
    obtain ⟨b, r'⟩ := e
    cases b
    · exact hloop _ _ (by omega)
    · exact parse_lat_ne_fuel loop _ _ (fun i m hi => hloop i m (by simp only at h2; omega))
  · split
    · apply Outcome.bind_ne_fuel _ _ (ReadRepeatedPrimitiveNoInline_ne_fuel _ _ _ _ _)
      rintro ⟨v, r⟩ ha
      have h1 := ReadRepeatedPrimitiveNoInline_length _ ReadSInt64_length _ _ _ _ _ _ ha
      have h2 := ExpectTag_length 18 r
      simp only
      generalize ExpectTag 18 r = e at h2
      obtain ⟨b, r'⟩ := e
      cases b
      · exact hloop _ _ (by omega)
      · exact parse_lat_ne_fuel loop _ _ (fun i m hi => hloop i m (by simp only at h2; omega))
    · exact handle_uninterpreted_ne_fuel loop tag input msg hloop

theorem case_lat_ne_fuel (loop : ParseCont) (tag : Nat) (input : List Nat) (msg : DeltaNodes)
    (hloop : ∀ i m, i.length ≤ input.length → loop i m ≠ .fuel) :
    case_lat loop tag input msg ≠ .fuel := by
  unfold case_lat
  split
  · exact parse_lat_ne_fuel loop input msg hloop
  · split
    · apply Outcome.bind_ne_fuel _ _ (ReadRepeatedPrimitiveNoInline_ne_fuel _ _ _ _ _)
      rintro ⟨v, r⟩ ha
      have h1 := ReadRepeatedPrimitiveNoInline_length _ ReadSInt32_length _ _ _ _ _ _ ha
      have h2 := ExpectTag_length 26 r
      simp only
      generalize ExpectTag 26 r = e at h2
      obtain ⟨b, r'⟩ := e
      cases b
      · exact hloop _ _ (by omega)
      · exact parse_lon_ne_fuel loop _ _ (fun i m hi => hloop i m (by simp only at h2; omega))
    · exact handle_uninterpreted_ne_fuel loop tag input msg hloop

theorem case_lon_ne_fuel (loop : ParseCont) (tag : Nat) (input : List Nat) (msg : DeltaNodes)
    (hloop : ∀ i m, i.length ≤ input.length → loop i m ≠ .fuel) :
    case_lon loop tag input msg ≠ .fuel := by
  unfold case_lon
  split
  · exact parse_lon_ne_fuel loop input msg hloop
  · split
    · apply Outcome.bind_ne_fuel _ _ (ReadRepeatedPrimitiveNoInline_ne_fuel _ _ _ _ _)
      rintro ⟨v, r⟩ ha
      have h1 := ReadRepeatedPrimitiveNoInline_length _ ReadSInt32_length _ _ _ _ _ _ ha
      simp only
      split
      · intro hc; cases hc
      · exact hloop _ _ (by omega)
    · exact handle_uninterpreted_ne_fuel loop tag input msg hloop

theorem Decode_ne_fuel (n : Nat) : ∀ (input : List Nat) (msg : DeltaNodes),
    input.length ≤ n → Decode input msg ≠ .fuel := by
  induction n with
  | zero =>
    intro input msg hn
    have : input = [] := List.length_eq_zero.mp (by omega)
    subst this
    rw [Decode_nil]
    intro hc; cases hc
  | succ n ih =>
    intro input msg hn
    rw [Decode_step]
    have hl := ReadTag_length input
    generalize ReadTag input = rt at hl
    obtain ⟨tag, input'⟩ := rt
    simp only at hl ⊢
    split
    · intro hc; cases hc
    · next h0 =>
      have hlt := hl.2 h0
      have hloop : ∀ i m, i.length ≤ input'.length → Decode i m ≠ .fuel :=
        fun i m hi => ih i m (by omega)
      split
      · exact case_id_ne_fuel Decode tag input' msg hloop
      · exact case_lat_ne_fuel Decode tag input' msg hloop
      · exact case_lon_ne_fuel Decode tag input' msg hloop
      · exact handle_uninterpreted_ne_fuel Decode tag input' msg hloop

/-- The iteration budgets of the model are never used up: `MergePartialFromCodedStream`
returns `ok` or `fail` on every input. -/
theorem MergePartialFromCodedStream_total (msg : DeltaNodes) (input : List Nat) :
    msg.MergePartialFromCodedStream input ≠ .fuel :=
  Decode_ne_fuel input.length input msg le_rfl

/-! ## The claims -/

theorem sampleBatch_wf : sampleBatch.WellFormed := by
  unfold DeltaNodes.WellFormed
  decide

set_option maxRecDepth 100000 in
theorem sampleBatch_size : sampleBatch.ByteSize.2.SerializeWithCachedSizes.length < 2 ^ 31 := by
  have h : sampleBatch.ByteSize.2.SerializeWithCachedSizes.length = 18 := by decide
  rw [h]; norm_num

theorem sampleNoLat_wf : sampleNoLat.WellFormed := by
  unfold DeltaNodes.WellFormed
  decide

set_option maxRecDepth 100000 in
theorem sampleNoLat_size : sampleNoLat.ByteSize.2.SerializeWithCachedSizes.length < 2 ^ 31 := by
  have h : sampleNoLat.ByteSize.2.SerializeWithCachedSizes.length = 7 := by decide
  rw [h]; norm_num

set_option maxRecDepth 100000 in
theorem sampleItems_valid : ∀ a ∈ sampleItems, a.Valid := by
  decide

theorem round_trip_aux (msg : DeltaNodes) (c1 c2 c3 : Int) (hwf : msg.WellFormed)
    (hsize : msg.ByteSize.2.SerializeWithCachedSizes.length < 2 ^ 31) :
    ∃ out, (DeltaNodes.New c1 c2 c3).MergePartialFromCodedStream
        msg.ByteSize.2.SerializeWithCachedSizes = .ok (out, []) ∧
      out.id_.elements = msg.id_.elements ∧ out.lat_.elements = msg.lat_.elements ∧
      out.lon_.elements = msg.lon_.elements ∧ out._unknown_fields_ = msg._unknown_fields_ := by
  obtain ⟨p1, p2, p3⟩ := payload_bounds msg hsize
  obtain ⟨b1, b2, b3, b4⟩ := BatchItems_contents msg
  obtain ⟨n1, n2, n3, n4⟩ := New_foldl_contents (BatchItems msg) c1 c2 c3
  refine ⟨_, ?_, n1.trans b1, n2.trans b2, n3.trans b3, n4.trans b4⟩
  rw [Serialize_BatchItems]
  exact Decode_items_New _ c1 c2 c3 (BatchItems_valid msg hwf p1 p2 p3)

/-- C1. Round trip: for every well-formed batch (ids in `int64`, lats and lons in
`int32`) whose serialization is shorter than `2^31` bytes, `ByteSize`, then
`SerializeWithCachedSizes`, then `MergePartialFromCodedStream` into a newly constructed
batch succeeds, consumes all bytes, and gives back the same ids, lats and lons in the
same order (and the same unknown entries). -/
theorem round_trip (msg : DeltaNodes) (c1 c2 c3 : Int) (hwf : msg.WellFormed)
    (hsize : msg.ByteSize.2.SerializeWithCachedSizes.length < 2 ^ 31) :
    ∃ out, (DeltaNodes.New c1 c2 c3).MergePartialFromCodedStream
        msg.ByteSize.2.SerializeWithCachedSizes = .ok (out, []) ∧
      out.id_.elements = msg.id_.elements ∧ out.lat_.elements = msg.lat_.elements ∧
      out.lon_.elements = msg.lon_.elements ∧ out._unknown_fields_ = msg._unknown_fields_ := by
  exact round_trip_aux msg c1 c2 c3 hwf hsize

theorem round_trip_witness :
    sampleBatch.WellFormed ∧ sampleBatch.ByteSize.2.SerializeWithCachedSizes.length < 2 ^ 31 ∧
    ∃ out, (DeltaNodes.New 0 0 0).MergePartialFromCodedStream
        sampleBatch.ByteSize.2.SerializeWithCachedSizes = .ok (out, []) ∧
      out.id_.elements = [1, -1, 1000000] ∧ out.lat_.elements = [0, -850000000] ∧
      out.lon_.elements = [0] ∧ out._unknown_fields_ = [] :=
  ⟨sampleBatch_wf, sampleBatch_size, round_trip sampleBatch 0 0 0 sampleBatch_wf sampleBatch_size⟩

/-- C2. Byte-exact layout: right after `ByteSize`, `SerializeWithCachedSizes` writes
`F(1, ids) ++ F(2, lats) ++ F(3, lons) ++ trailer`, where `F(k, s)` is empty for an empty
`s` and otherwise the tag byte `(k << 3) | 2`, the varint of the payload length (the sum
of the elements' varint lengths) and the zig-zag varint of every element in order. Sizes
are C++ `int`s: the payloads are shorter than `2^31` bytes. -/
theorem serialize_layout (msg : DeltaNodes)
    (h1 : (Payload WriteSInt64NoTag msg.id_.elements).length < 2 ^ 31)
    (h2 : (Payload WriteSInt32NoTag msg.lat_.elements).length < 2 ^ 31)
    (h3 : (Payload WriteSInt32NoTag msg.lon_.elements).length < 2 ^ 31) :
    msg.ByteSize.2.SerializeWithCachedSizes =
      FrameSpec 1 (fun x => WriteVarint64 (ZigZagEncode64 x)) msg.id_.elements
      ++ FrameSpec 2 (fun x => WriteVarint32 (ZigZagEncode32 x)) msg.lat_.elements
      ++ FrameSpec 3 (fun x => WriteVarint32 (ZigZagEncode32 x)) msg.lon_.elements
      ++ SerializeUnknownFields msg._unknown_fields_ := by
  rw [SerializeWithCachedSizes_ByteSize]
  have e1 := FrameSpec_eq 1 WriteSInt64NoTag msg.id_.elements (by omega)
  have e2 := FrameSpec_eq 2 WriteSInt32NoTag msg.lat_.elements (by omega)
  have e3 := FrameSpec_eq 3 WriteSInt32NoTag msg.lon_.elements (by omega)
  unfold WriteSInt64NoTag at e1
  unfold WriteSInt32NoTag at e2 e3
  rw [e1, e2, e3]
  rfl

theorem serialize_layout_witness :
    sampleBatch.ByteSize.2.SerializeWithCachedSizes =
      [0x0A, 5, 2, 1, 128, 137, 122] ++ [0x12, 6, 0, 255, 225, 207, 170, 6] ++ [0x1A, 1, 0]
      ++ [] :=
  serialize_layout sampleBatch
    (by have h : (Payload WriteSInt64NoTag sampleBatch.id_.elements).length = 5 := by decide
        rw [h]; norm_num)
    (by have h : (Payload WriteSInt32NoTag sampleBatch.lat_.elements).length = 6 := by decide
        rw [h]; norm_num)
    (by have h : (Payload WriteSInt32NoTag sampleBatch.lon_.elements).length = 1 := by decide
        rw [h]; norm_num)

/-- C3. Size agrees with output: when the serialization is shorter than `2^31` bytes,
`ByteSize` returns, and stores in `_cached_size_`, exactly the number of bytes that
`SerializeWithCachedSizes` then writes, which is the sum of the framed sizes of ids, lats
and lons (one tag byte, the length prefix, the payload; nothing for an empty sequence)
and of the length of the serialized unknown fields. The guard `data_size > 0` of
`ByteSize` and the guard `..._size() > 0` of the serializer hold for the same fields. -/
theorem byte_size_agrees (msg : DeltaNodes)
    (hsize : msg.ByteSize.2.SerializeWithCachedSizes.length < 2 ^ 31) :
    msg.ByteSize.1 = (msg.ByteSize.2.SerializeWithCachedSizes.length : Int) ∧
    msg.ByteSize.2._cached_size_ = (msg.ByteSize.2.SerializeWithCachedSizes.length : Int) ∧
    msg.ByteSize.2.SerializeWithCachedSizes.length =
      FramedSize WriteSInt64NoTag msg.id_.elements + FramedSize WriteSInt32NoTag msg.lat_.elements
        + FramedSize WriteSInt32NoTag msg.lon_.elements
        + (SerializeUnknownFields msg._unknown_fields_).length ∧
    (DataSize SInt64Size msg.id_.elements > 0 ↔ (msg.id_.elements.length : Int) > 0) ∧
    (DataSize SInt32Size msg.lat_.elements > 0 ↔ (msg.lat_.elements.length : Int) > 0) ∧
    (DataSize SInt32Size msg.lon_.elements > 0 ↔ (msg.lon_.elements.length : Int) > 0) := by
  obtain ⟨p1, p2, p3⟩ := payload_bounds msg hsize
  refine ⟨ByteSize_eq_aux msg hsize, ?_, ?_, ?_, ?_, ?_⟩
  · rw [ByteSize_snd]
    exact ByteSize_eq_aux msg hsize
  · rw [SerializeWithCachedSizes_ByteSize,
      FramedSize_eq 1 WriteSInt64NoTag _ (by omega), FramedSize_eq 2 WriteSInt32NoTag _ (by omega),
      FramedSize_eq 3 WriteSInt32NoTag _ (by omega)]
    simp only [List.length_append]
  · exact DataSize_pos_iff SInt64Size WriteSInt64NoTag SInt64Size_eq WriteSInt64NoTag_ne_nil _ p1
  · exact DataSize_pos_iff SInt32Size WriteSInt32NoTag SInt32Size_eq WriteSInt32NoTag_ne_nil _ p2
  · exact DataSize_pos_iff SInt32Size WriteSInt32NoTag SInt32Size_eq WriteSInt32NoTag_ne_nil _ p3

theorem byte_size_agrees_witness :
    sampleBatch.ByteSize.2.SerializeWithCachedSizes.length < 2 ^ 31 ∧
    sampleBatch.ByteSize.1 = (sampleBatch.ByteSize.2.SerializeWithCachedSizes.length : Int) :=
  ⟨sampleBatch_size, (byte_size_agrees sampleBatch sampleBatch_size).1⟩

/-- C4. Empty-field omission: a well-formed batch with empty lats, non-empty ids and lons
and no unknown entries serializes to the field-1 entry (tag `0x0A`) immediately followed
by the field-3 entry (tag `0x1A`): no tag of field 2 stands at a tag position; decoding
these bytes into a new batch gives empty lats. In general a field with an empty sequence
writes no byte whatever its cached size, and a batch with nothing in it has size 0 and
serializes to the empty byte string. -/
theorem empty_field_omitted (msg : DeltaNodes) (c1 c2 c3 : Int) (hwf : msg.WellFormed)
    (hsize : msg.ByteSize.2.SerializeWithCachedSizes.length < 2 ^ 31)
    (hid : msg.id_.elements ≠ []) (hlat : msg.lat_.elements = [])
    (hlon : msg.lon_.elements ≠ []) (htrailer : msg._unknown_fields_ = []) :
    msg.ByteSize.2.SerializeWithCachedSizes =
      (0x0A :: PackedBody WriteSInt64NoTag msg.id_.elements)
        ++ (0x1A :: PackedBody WriteSInt32NoTag msg.lon_.elements) ∧
    (∃ out, (DeltaNodes.New c1 c2 c3).MergePartialFromCodedStream
        msg.ByteSize.2.SerializeWithCachedSizes = .ok (out, []) ∧
      out.lat_.elements = [] ∧ out.id_.elements = msg.id_.elements ∧
      out.lon_.elements = msg.lon_.elements) ∧
    (∀ (k : Nat) (write : Int → List Nat) (cached : Int), SerializeField k write [] cached = []) ∧
    (∀ m : DeltaNodes, m.id_.elements = [] → m.lat_.elements = [] → m.lon_.elements = [] →
      m._unknown_fields_ = [] → m.ByteSize.1 = 0 ∧ m.ByteSize.2.SerializeWithCachedSizes = []) := by
  refine ⟨?_, ?_, ?_, ?_⟩
  · rw [SerializeWithCachedSizes_ByteSize, htrailer, hlat]
    unfold PackedFrame
    rw [if_neg hid, if_neg hlon]
    simp [PackedEntry, SerializeUnknownFields]
  · obtain ⟨out, h1, h2, h3, h4, _⟩ := round_trip_aux msg c1 c2 c3 hwf hsize
    exact ⟨out, h1, h3.trans hlat, h2, h4⟩
  · intro k write cached
    simp [SerializeField]
  · intro m e1 e2 e3 e4
    have hs : m.ByteSize.2.SerializeWithCachedSizes = [] := by
      rw [SerializeWithCachedSizes_ByteSize, e1, e2, e3, e4]
      simp [PackedFrame, SerializeUnknownFields]
    refine ⟨?_, hs⟩
    have := ByteSize_eq_aux m (by rw [hs]; simp)
    rw [this, hs]; rfl

theorem empty_field_omitted_witness :
    sampleNoLat.ByteSize.2.SerializeWithCachedSizes = [0x0A, 2, 10, 12] ++ [0x1A, 1, 13] ∧
    ∃ out, (DeltaNodes.New 0 0 0).MergePartialFromCodedStream
        sampleNoLat.ByteSize.2.SerializeWithCachedSizes = .ok (out, []) ∧
      out.lat_.elements = [] ∧ out.id_.elements = [5, 6] ∧ out.lon_.elements = [-7] :=
  have h := empty_field_omitted sampleNoLat 0 0 0 sampleNoLat_wf sampleNoLat_size
    (by decide) rfl (by decide) rfl
  ⟨h.1, h.2.1⟩

theorem ItemsUnknown_bytes (items : List Item) :
    SerializeUnknownFields (ItemsUnknown items) = ItemsBytes (items.filter Item.isUnknown) := by
  induction items with
  | nil => rfl
  | cons a items ih =>
    cases a <;> simp [ItemsUnknown, Item.isUnknown, ih, SerializeUnknownFields, ItemsBytes_cons,
      Item.bytes]

/-- C5. Forward compatibility: for every input made of valid packed entries of fields 1, 2
and 3 and of valid entries of other fields (field 4 in particular, with any wire type
that carries a payload and any payload), in any interleaving, decoding into a new batch
succeeds and consumes the input; the unknown entries are held, in input order, in the
unknown fields, whose serialization is exactly the bytes these entries had in the input;
and after `ByteSize`, `SerializeWithCachedSizes` writes the frames of fields 1 to 3
followed by exactly those bytes. -/
theorem forward_compatibility (items : List Item) (c1 c2 c3 : Int)
    (hvalid : ∀ a ∈ items, a.Valid) :
    ∃ out, (DeltaNodes.New c1 c2 c3).MergePartialFromCodedStream (ItemsBytes items)
        = .ok (out, []) ∧
      out._unknown_fields_ = ItemsUnknown items ∧
      SerializeUnknownFields out._unknown_fields_ = ItemsBytes (items.filter Item.isUnknown) ∧
      out.id_.elements = ItemsIds items ∧ out.lat_.elements = ItemsLats items ∧
      out.lon_.elements = ItemsLons items ∧
      out.ByteSize.2.SerializeWithCachedSizes =
        PackedFrame 1 WriteSInt64NoTag (ItemsIds items)
        ++ PackedFrame 2 WriteSInt32NoTag (ItemsLats items)
        ++ PackedFrame 3 WriteSInt32NoTag (ItemsLons items)
        ++ ItemsBytes (items.filter Item.isUnknown) := by
  obtain ⟨n1, n2, n3, n4⟩ := New_foldl_contents items c1 c2 c3
  refine ⟨_, Decode_items_New items c1 c2 c3 hvalid, n4, ?_, n1, n2, n3, ?_⟩
  · rw [n4, ItemsUnknown_bytes]
  · rw [SerializeWithCachedSizes_ByteSize, n1, n2, n3, n4, ItemsUnknown_bytes]

set_option maxRecDepth 100000 in
theorem forward_compatibility_witness :
    (∀ a ∈ sampleItems, a.Valid) ∧
    ∃ out, (DeltaNodes.New 0 0 0).MergePartialFromCodedStream
        [0x1A, 1, 6, 0x20, 172, 2, 0x0A, 2, 2, 4, 0x22, 2, 9, 8, 0x12, 1, 3,
         0x23, 0x0D, 5, 0, 0, 0, 0x24, 0x21, 77, 0, 0, 0, 0, 0, 0, 0] = .ok (out, []) ∧
      out._unknown_fields_ = [.varint 4 300, .length_delimited 4 [9, 8],
        .group 4 [.fixed32 1 5], .fixed64 4 77] ∧
      out.ByteSize.2.SerializeWithCachedSizes =
        [0x0A, 2, 2, 4] ++ [0x12, 1, 3] ++ [0x1A, 1, 6]
        ++ [0x20, 172, 2, 0x22, 2, 9, 8, 0x23, 0x0D, 5, 0, 0, 0, 0x24,
            0x21, 77, 0, 0, 0, 0, 0, 0, 0] :=
  have h := forward_compatibility sampleItems 0 0 0 sampleItems_valid
  ⟨sampleItems_valid, by
    obtain ⟨out, h1, h2, _, _, _, _, h7⟩ := h
    exact ⟨out, h1, h2, h7⟩⟩

/-- Counterexample to C6: an end-group tag of field 4 ends the parse with success without
being recorded (the unknown fields stay empty and the bytes after it are not read), and
a tag of field 4 with wire type 6 or 7 makes the parse fail. -/
theorem unknown_entry_not_always_kept :
    (DeltaNodes.New 0 0 0).MergePartialFromCodedStream [0x24, 0x08, 0x02]
      = .ok (DeltaNodes.New 0 0 0, [0x08, 0x02]) ∧
    (DeltaNodes.New 0 0 0).MergePartialFromCodedStream [0x26] = .fail ∧
    (DeltaNodes.New 0 0 0).MergePartialFromCodedStream [0x27] = .fail :=
  ⟨rfl, rfl, rfl⟩

/-- C6, amended. When the parser reads a tag (not 0) whose field number is not 1, 2 or 3,
or whose wire type is neither length-delimited nor varint: an end-group tag (wire type 4)
ends the parse with success, is not recorded, and leaves the rest unread; wire types 6
and 7 make the parse fail; any other wire type hands the entry to `SkipField`, and the
parse fails exactly when `SkipField` fails, otherwise the entry is appended to the
unknown fields and the parse continues behind it; this is the case for every valid entry
(varint, fixed64, length-delimited, group, fixed32) with a complete payload. -/
theorem unknown_entry_routing (tag : Nat) (input : List Nat) (msg : DeltaNodes)
    (h0 : tag ≠ 0) (h32 : tag < 2 ^ 32)
    (hroute :
      (GetTagFieldNumber tag ≠ 1 ∧ GetTagFieldNumber tag ≠ 2 ∧ GetTagFieldNumber tag ≠ 3) ∨
      (GetTagWireType tag ≠ WIRETYPE_LENGTH_DELIMITED ∧ GetTagWireType tag ≠ WIRETYPE_VARINT)) :
    (GetTagWireType tag = WIRETYPE_END_GROUP →
      msg.MergePartialFromCodedStream (WriteVarint32 tag ++ input) = .ok (msg, input)) ∧
    (GetTagWireType tag = 6 ∨ GetTagWireType tag = 7 →
      msg.MergePartialFromCodedStream (WriteVarint32 tag ++ input) = .fail) ∧
    (GetTagWireType tag ≠ WIRETYPE_END_GROUP →
      msg.MergePartialFromCodedStream (WriteVarint32 tag ++ input) =
        (SkipField input tag).bind fun r =>
          DeltaNodes.MergePartialFromCodedStream
            { msg with _unknown_fields_ := msg._unknown_fields_ ++ [r.1] } r.2) ∧
    (∀ (e : UnknownField) (rest : List Nat), ValidField 0 e = true → FieldTag e = tag →
      input = FieldPayload e ++ rest →
      msg.MergePartialFromCodedStream (WriteVarint32 tag ++ input) =
        DeltaNodes.MergePartialFromCodedStream
          { msg with _unknown_fields_ := msg._unknown_fields_ ++ [e] } rest) := by
  have key : msg.MergePartialFromCodedStream (WriteVarint32 tag ++ input)
      = handle_uninterpreted Decode tag input msg :=
    Decode_uninterpreted_tag tag input msg h0 h32 hroute
  rw [key]
  refine ⟨?_, ?_, ?_, ?_⟩
  · intro h4
    unfold handle_uninterpreted
    rw [if_pos h4]
  · intro h67
    unfold handle_uninterpreted
    have hne : GetTagWireType tag ≠ WIRETYPE_END_GROUP := by
      unfold WIRETYPE_END_GROUP; omega
    rw [if_neg hne]
    unfold SkipField SkipFieldWith
    rcases h67 with h | h <;> simp [h]
  · intro hne
    unfold handle_uninterpreted
    rw [if_neg hne]
    rfl
  · intro e rest hv ht hi
    obtain ⟨_, _, t3⟩ := FieldTag_props 0 e hv
    subst ht hi
    unfold handle_uninterpreted
    rw [if_neg t3, SkipField_roundtrip e rest hv]
    rfl

theorem unknown_entry_routing_witness :
    (DeltaNodes.New 0 0 0).MergePartialFromCodedStream ([0x20] ++ [5, 0x08, 0x02]) =
      DeltaNodes.MergePartialFromCodedStream
        { DeltaNodes.New 0 0 0 with _unknown_fields_ := [] ++ [.varint 4 5] } [0x08, 0x02] :=
  (unknown_entry_routing 0x20 [5, 0x08, 0x02] (DeltaNodes.New 0 0 0) (by decide) (by decide)
    (Or.inl (by decide))).2.2.2 (.varint 4 5) [0x08, 0x02] rfl rfl rfl

/-- Counterexample to C8: the parse of `00 08 02` and of `0C 08 02` returns success at
the first byte (a zero tag, an end-group tag) and leaves the two bytes behind it
unread. -/
theorem success_with_unread_bytes :
    (DeltaNodes.New 0 0 0).MergePartialFromCodedStream [0x00, 0x08, 0x02]
      = .ok (DeltaNodes.New 0 0 0, [0x08, 0x02]) ∧
    (DeltaNodes.New 0 0 0).MergePartialFromCodedStream [0x0C, 0x08, 0x02]
      = .ok (DeltaNodes.New 0 0 0, [0x08, 0x02]) :=
  ⟨rfl, rfl⟩

/-- C8, amended. Whenever `MergePartialFromCodedStream` returns success, it stopped at a
position of the input where the tag it read is 0 (the input is exhausted there, or a zero
byte or an unreadable tag stands there) or is an end-group tag; the unread rest is exactly
what follows that tag. The parser stops with success nowhere else. -/
theorem success_stops_at_end_or_stop_tag (input : List Nat) (msg out : DeltaNodes)
    (rest : List Nat) (h : msg.MergePartialFromCodedStream input = .ok (out, rest)) :
    StopsAt input rest :=
  Decode_stops input.length input msg out rest le_rfl h

theorem success_stops_at_end_or_stop_tag_witness : StopsAt [0x00, 0x08, 0x02] [0x08, 0x02] :=
  success_stops_at_end_or_stop_tag [0x00, 0x08, 0x02] (DeltaNodes.New 0 0 0)
    (DeltaNodes.New 0 0 0) [0x08, 0x02] rfl

/-! ## Truncated input -/

theorem Decode_frame_id (s : List Int) (tail : List Nat) (msg : DeltaNodes)
    (hs : ∀ x ∈ s, IsInt64 x) (hlen : (Payload WriteSInt64NoTag s).length < 2 ^ 32) :
    Decode (PackedFrame 1 WriteSInt64NoTag s ++ tail) msg
      = Decode tail { msg with id_ := AddAll msg.id_ s } := by
  unfold PackedFrame
  split
  · next h => subst h; rfl
  · exact Decode_id_entry s tail msg hs hlen

theorem Decode_frame_lat (s : List Int) (tail : List Nat) (msg : DeltaNodes)
    (hs : ∀ x ∈ s, IsInt32 x) (hlen : (Payload WriteSInt32NoTag s).length < 2 ^ 32) :
    Decode (PackedFrame 2 WriteSInt32NoTag s ++ tail) msg
      = Decode tail { msg with lat_ := AddAll msg.lat_ s } := by
  unfold PackedFrame
  split
  · next h => subst h; rfl
  · exact Decode_lat_entry s tail msg hs hlen

theorem ReadPackedPrimitive_truncated (read : List Nat → Option (Int × List Nat))
    (write : Int → List Nat) (s : List Int) (j : Nat) (values : RepeatedField)
    (hj : j < (Payload write s).length) (hlen : (Payload write s).length < 2 ^ 32) :
    ReadPackedPrimitive read (WriteVarint32 (Payload write s).length ++ (Payload write s).take j)
      values = .fail := by
  unfold ReadPackedPrimitive
  rw [ReadVarint32_Write _ _ hlen]
  simp only
  rw [if_pos (by rw [List.length_take]; omega)]

theorem Decode_truncated_id (s : List Int) (j : Nat) (msg : DeltaNodes)
    (hj : j < (Payload WriteSInt64NoTag s).length)
    (hlen : (Payload WriteSInt64NoTag s).length < 2 ^ 32) :
    Decode (10 :: (WriteVarint32 (Payload WriteSInt64NoTag s).length
      ++ (Payload WriteSInt64NoTag s).take j)) msg = .fail := by
  rw [Decode_step]
  show case_id Decode 10 _ msg = _
  unfold case_id
  rw [if_pos (by decide), ReadPackedPrimitive_truncated ReadSInt64 WriteSInt64NoTag s j _ hj hlen]
  rfl

theorem Decode_truncated_lat (s : List Int) (j : Nat) (msg : DeltaNodes)
    (hj : j < (Payload WriteSInt32NoTag s).length)
    (hlen : (Payload WriteSInt32NoTag s).length < 2 ^ 32) :
    Decode (18 :: (WriteVarint32 (Payload WriteSInt32NoTag s).length
      ++ (Payload WriteSInt32NoTag s).take j)) msg = .fail := by
  rw [Decode_step]
  show parse_lat Decode _ msg = _
  unfold parse_lat
  rw [ReadPackedPrimitive_truncated ReadSInt32 WriteSInt32NoTag s j _ hj hlen]
  rfl

theorem Decode_truncated_lon (s : List Int) (j : Nat) (msg : DeltaNodes)
    (hj : j < (Payload WriteSInt32NoTag s).length)
    (hlen : (Payload WriteSInt32NoTag s).length < 2 ^ 32) :
    Decode (26 :: (WriteVarint32 (Payload WriteSInt32NoTag s).length
      ++ (Payload WriteSInt32NoTag s).take j)) msg = .fail := by
  rw [Decode_step]
  show parse_lon Decode _ msg = _
  unfold parse_lon
  rw [ReadPackedPrimitive_truncated ReadSInt32 WriteSInt32NoTag s j _ hj hlen]
  rfl

theorem take_frame (k : Nat) (write : Int → List Nat) (s : List Int) (rest : List Nat)
    (n : Nat)
    (h1 : (PackedFrame k write s).length - (Payload write s).length ≤ n)
    (h2 : n < (PackedFrame k write s).length) :
    (PackedFrame k write s ++ rest).take n =
      ((k <<< 3) ||| 2) :: (WriteVarint32 (Payload write s).length
        ++ (Payload write s).take
            (n - ((PackedFrame k write s).length - (Payload write s).length))) ∧
    n - ((PackedFrame k write s).length - (Payload write s).length) < (Payload write s).length := by
  have hl := PackedFrame_length k write s
  by_cases hs : s = []
  · rw [if_pos hs] at hl; omega
  · rw [if_neg hs] at hl
    have hf : PackedFrame k write s = (((k <<< 3) ||| 2) ::
        WriteVarint32 (Payload write s).length) ++ Payload write s := by
      unfold PackedFrame PackedEntry PackedBody
      rw [if_neg hs]; simp
    have hlen : (((k <<< 3) ||| 2) :: WriteVarint32 (Payload write s).length).length =
        (PackedFrame k write s).length - (Payload write s).length := by
      rw [List.length_cons]; omega
    refine ⟨?_, by omega⟩
    rw [List.take_append_of_le_length (by omega)]
    conv_lhs => rw [hf]
    rw [List.take_append_eq_append_take, List.take_of_length_le (by omega), hlen]
    simp

set_option maxRecDepth 100000 in
theorem sampleBatch_inside : InsidePayload sampleBatch 4 := by
  unfold InsidePayload
  decide

/-- C7. Truncation detection: for every well-formed batch whose serialization is shorter
than `2^31` bytes and every byte offset inside the payload of one of its packed fields
(from the first payload byte up to the last, so in particular strictly inside), decoding
the serialization cut at that offset into a new batch returns failure: never success,
never a shortened sequence. -/
theorem truncation_detected (msg : DeltaNodes) (c1 c2 c3 : Int) (offset : Nat)
    (hwf : msg.WellFormed)
    (hsize : msg.ByteSize.2.SerializeWithCachedSizes.length < 2 ^ 31)
    (hinside : InsidePayload msg offset) :
    (DeltaNodes.New c1 c2 c3).MergePartialFromCodedStream
      (msg.ByteSize.2.SerializeWithCachedSizes.take offset) = .fail := by
  obtain ⟨p1, p2, p3⟩ := payload_bounds msg hsize
  obtain ⟨w1, w2, w3, _⟩ := hwf
  have g1 := PackedFrame_length_ge 1 WriteSInt64NoTag msg.id_.elements
  have g2 := PackedFrame_length_ge 2 WriteSInt32NoTag msg.lat_.elements
  have g3 := PackedFrame_length_ge 3 WriteSInt32NoTag msg.lon_.elements
  show Decode _ _ = _
  rw [SerializeWithCachedSizes_ByteSize]
  unfold InsidePayload at hinside
  simp only at hinside
  rcases hinside with h | h | h
  · simp only [List.append_assoc]
    obtain ⟨e, hj⟩ := take_frame 1 WriteSInt64NoTag msg.id_.elements _ offset h.1 h.2
    rw [e]
    exact Decode_truncated_id _ _ _ hj (by omega)
  · simp only [List.append_assoc]
    rw [List.take_append_eq_append_take, List.take_of_length_le (by omega),
      Decode_frame_id _ _ _ w1 (by omega)]
    obtain ⟨e, hj⟩ := take_frame 2 WriteSInt32NoTag msg.lat_.elements
      (PackedFrame 3 WriteSInt32NoTag msg.lon_.elements
        ++ SerializeUnknownFields msg._unknown_fields_)
      (offset - (PackedFrame 1 WriteSInt64NoTag msg.id_.elements).length)
      (by omega) (by omega)
    rw [e]
    exact Decode_truncated_lat _ _ _ hj (by omega)
  · simp only [List.append_assoc]
    rw [List.take_append_eq_append_take, List.take_of_length_le (by omega),
      Decode_frame_id _ _ _ w1 (by omega),
      List.take_append_eq_append_take, List.take_of_length_le (by omega),
      Decode_frame_lat _ _ _ w2 (by omega)]
    obtain ⟨e, hj⟩ := take_frame 3 WriteSInt32NoTag msg.lon_.elements
      (SerializeUnknownFields msg._unknown_fields_)
      (offset - (PackedFrame 1 WriteSInt64NoTag msg.id_.elements).length
        - (PackedFrame 2 WriteSInt32NoTag msg.lat_.elements).length)
      (by omega) (by omega)
    rw [e]
    exact Decode_truncated_lon _ _ _ hj (by omega)

set_option maxRecDepth 100000 in
theorem truncation_detected_witness :
    InsidePayload sampleBatch 4 ∧
    (DeltaNodes.New 0 0 0).MergePartialFromCodedStream [0x0A, 5, 2, 1] = .fail :=
  ⟨sampleBatch_inside, truncation_detected sampleBatch 0 0 0 4 sampleBatch_wf sampleBatch_size
    sampleBatch_inside⟩

/-! ## The legacy, non-packed form -/

theorem ExpectTag_ne (tag : Nat) (input : List Nat) (h : input.head? ≠ some tag) :
    ExpectTag tag input = (false, input) := by
  cases input with
  | nil => rfl
  | cons b t =>
    have : b ≠ tag := fun hb => h (by rw [hb]; rfl)
    simp [ExpectTag, this]

theorem ReadRepeatedLoop_stop (read : List Nat → Option (Int × List Nat)) (tag k : Nat)
    (input : List Nat) (values : RepeatedField) (h : input.head? ≠ some tag) :
    ReadRepeatedLoop read tag k input values = .ok (values, input) := by
  cases k with
  | zero => rfl
  | succ k => rw [ReadRepeatedLoop, ExpectTag_ne tag input h]

theorem ReadRepeated_single (read : List Nat → Option (Int × List Nat))
    (write : Int → List Nat) (x : Int) (tag : Nat) (tail : List Nat) (values : RepeatedField)
    (hrt : read (write x ++ tail) = some (x, tail)) (h : tail.head? ≠ some tag) :
    ReadRepeatedPrimitiveNoInline read 1 tag (write x ++ tail) values
      = .ok (values.Add x, tail) := by
  unfold ReadRepeatedPrimitiveNoInline
  rw [hrt]
  exact ReadRepeatedLoop_stop read tag _ tail _ h

theorem Decode_legacy_id (x : Int) (tail : List Nat) (msg : DeltaNodes) (hx : IsInt64 x)
    (h : tail.head? ≠ some 10) :
    Decode (8 :: (WriteSInt64NoTag x ++ tail)) msg
      = Decode tail { msg with id_ := msg.id_.Add x } := by
  rw [Decode_step]
  show case_id Decode 8 _ msg = _
  unfold case_id
  rw [if_neg (by decide), if_pos (by decide),
    ReadRepeated_single ReadSInt64 WriteSInt64NoTag x 10 tail _ (ReadSInt64_Write x tail hx) h]
  simp only [Outcome.bind_ok]
  cases tail with
  | nil => rfl
  | cons b t =>
    by_cases hb : b = 18
    · subst hb
      rw [Decode_step]
      rfl
    · simp [ExpectTag, hb]

theorem Decode_legacy_lat (x : Int) (tail : List Nat) (msg : DeltaNodes) (hx : IsInt32 x)
    (h : tail.head? ≠ some 18) :
    Decode (16 :: (WriteSInt32NoTag x ++ tail)) msg
      = Decode tail { msg with lat_ := msg.lat_.Add x } := by
  rw [Decode_step]
  show case_lat Decode 16 _ msg = _
  unfold case_lat
  rw [if_neg (by decide), if_pos (by decide),
    ReadRepeated_single ReadSInt32 WriteSInt32NoTag x 18 tail _ (ReadSInt32_Write x tail hx) h]
  simp only [Outcome.bind_ok]
  cases tail with
  | nil => rfl
  | cons b t =>
    by_cases hb : b = 26
    · subst hb
      rw [Decode_step]
      rfl
    · simp [ExpectTag, hb]

theorem Decode_legacy_lon (x : Int) (tail : List Nat) (msg : DeltaNodes) (hx : IsInt32 x)
    (h : tail.head? ≠ some 26) :
    Decode (24 :: (WriteSInt32NoTag x ++ tail)) msg
      = Decode tail { msg with lon_ := msg.lon_.Add x } := by
  rw [Decode_step]
  show case_lon Decode 24 _ msg = _
  unfold case_lon
  rw [if_neg (by decide), if_pos (by decide),
    ReadRepeated_single ReadSInt32 WriteSInt32NoTag x 26 tail _ (ReadSInt32_Write x tail hx) h]
  simp only [Outcome.bind_ok]
  cases tail with
  | nil => rfl
  | cons b t => rfl

theorem LegacyRun_cons (k : Nat) (write : Int → List Nat) (x : Int) (s : List Int) :
    LegacyRun k write (x :: s) = WriteTag k WIRETYPE_VARINT ++ write x ++ LegacyRun k write s := by
  simp [LegacyRun]

theorem LegacyRun_head (k : Nat) (write : Int → List Nat) (s : List Int) (tail : List Nat)
    (t p : Nat) (hk : WriteTag k WIRETYPE_VARINT = [t]) (htp : t ≠ p)
    (h : tail.head? ≠ some p) : (LegacyRun k write s ++ tail).head? ≠ some p := by
  cases s with
  | nil => exact h
  | cons x s =>
    rw [LegacyRun_cons, hk]
    simp [htp]

theorem Decode_LegacyRun_id (s : List Int) : ∀ (tail : List Nat) (msg : DeltaNodes),
    (∀ x ∈ s, IsInt64 x) → tail.head? ≠ some 10 →
    Decode (LegacyRun 1 WriteSInt64NoTag s ++ tail) msg
      = Decode tail { msg with id_ := AddAll msg.id_ s } := by
  induction s with
  | nil => intro tail msg _ _; rfl
  | cons x s ih =>
    intro tail msg hs h
    rw [LegacyRun_cons, show WriteTag 1 WIRETYPE_VARINT = [8] from by decide]
    simp only [List.append_assoc, List.cons_append, List.nil_append]
    rw [Decode_legacy_id x _ msg (hs x (List.mem_cons_self _ _))
        (LegacyRun_head 1 WriteSInt64NoTag s tail 8 10 (by decide) (by decide) h),
      ih tail _ (fun y hy => hs y (List.mem_cons_of_mem _ hy)) h]
    rfl

theorem Decode_LegacyRun_lat (s : List Int) : ∀ (tail : List Nat) (msg : DeltaNodes),
    (∀ x ∈ s, IsInt32 x) → tail.head? ≠ some 18 →
    Decode (LegacyRun 2 WriteSInt32NoTag s ++ tail) msg
      = Decode tail { msg with lat_ := AddAll msg.lat_ s } := by
  induction s with
  | nil => intro tail msg _ _; rfl
  | cons x s ih =>
    intro tail msg hs h
    rw [LegacyRun_cons, show WriteTag 2 WIRETYPE_VARINT = [16] from by decide]
    simp only [List.append_assoc, List.cons_append, List.nil_append]
    rw [Decode_legacy_lat x _ msg (hs x (List.mem_cons_self _ _))
        (LegacyRun_head 2 WriteSInt32NoTag s tail 16 18 (by decide) (by decide) h),
      ih tail _ (fun y hy => hs y (List.mem_cons_of_mem _ hy)) h]
    rfl

theorem Decode_LegacyRun_lon (s : List Int) : ∀ (tail : List Nat) (msg : DeltaNodes),
    (∀ x ∈ s, IsInt32 x) → tail.head? ≠ some 26 →
    Decode (LegacyRun 3 WriteSInt32NoTag s ++ tail) msg
      = Decode tail { msg with lon_ := AddAll msg.lon_ s } := by
  induction s with
  | nil => intro tail msg _ _; rfl
  | cons x s ih =>
    intro tail msg hs h
    rw [LegacyRun_cons, show WriteTag 3 WIRETYPE_VARINT = [24] from by decide]
    simp only [List.append_assoc, List.cons_append, List.nil_append]
    rw [Decode_legacy_lon x _ msg (hs x (List.mem_cons_self _ _))
        (LegacyRun_head 3 WriteSInt32NoTag s tail 24 26 (by decide) (by decide) h),
      ih tail _ (fun y hy => hs y (List.mem_cons_of_mem _ hy)) h]
    rfl

/-- Legacy and packed form of a field decode alike when no packed entry of the same
field comes directly behind the legacy run (the tail does not begin with the tag of the
packed entry). -/
theorem legacy_decodes_like_packed (s : List Int) (tail : List Nat) (msg : DeltaNodes) :
    ((∀ x ∈ s, IsInt64 x) → (Payload WriteSInt64NoTag s).length < 2 ^ 31 →
      tail.head? ≠ some 10 →
      Decode (LegacyRun 1 WriteSInt64NoTag s ++ tail) msg
        = Decode (PackedEntry 1 WriteSInt64NoTag s ++ tail) msg) ∧
    ((∀ x ∈ s, IsInt32 x) → (Payload WriteSInt32NoTag s).length < 2 ^ 31 →
      tail.head? ≠ some 18 →
      Decode (LegacyRun 2 WriteSInt32NoTag s ++ tail) msg
        = Decode (PackedEntry 2 WriteSInt32NoTag s ++ tail) msg) ∧
    ((∀ x ∈ s, IsInt32 x) → (Payload WriteSInt32NoTag s).length < 2 ^ 31 →
      tail.head? ≠ some 26 →
      Decode (LegacyRun 3 WriteSInt32NoTag s ++ tail) msg
        = Decode (PackedEntry 3 WriteSInt32NoTag s ++ tail) msg) := by
  refine ⟨fun hs hlen h => ?_, fun hs hlen h => ?_, fun hs hlen h => ?_⟩
  · rw [Decode_LegacyRun_id s tail msg hs h, Decode_id_entry s tail msg hs (by omega)]
  · rw [Decode_LegacyRun_lat s tail msg hs h, Decode_lat_entry s tail msg hs (by omega)]
  · rw [Decode_LegacyRun_lon s tail msg hs h, Decode_lon_entry s tail msg hs (by omega)]

/-- C9 at the failing input: the legacy encoding of the id `1` followed by the packed run
of the id `2` is the byte string `08 02 0A 01 04`; the parser returns success with ids
`[1, -1]` (after the legacy element it takes the tag `0A` of the packed run for the tag
of a further element and reads the length byte `01` as that element), where the packed
run of `[1, 2]`, and the packed run of `[1]` followed by the packed run of `[2]`, give
`[1, 2]`. The same happens for lats (`10 02 12 01 04`) and lons (`18 02 1A 01 04`). -/
theorem legacy_then_packed_misdecoded :
    LegacyRun 1 WriteSInt64NoTag [1] ++ PackedEntry 1 WriteSInt64NoTag [2]
      = [0x08, 0x02, 0x0A, 0x01, 0x04] ∧
    (∃ out, (DeltaNodes.New 0 0 0).MergePartialFromCodedStream [0x08, 0x02, 0x0A, 0x01, 0x04]
        = .ok (out, []) ∧ out.id_.elements = [1, -1]) ∧
    (∃ out, (DeltaNodes.New 0 0 0).MergePartialFromCodedStream
        (PackedEntry 1 WriteSInt64NoTag [1, 2]) = .ok (out, []) ∧ out.id_.elements = [1, 2]) ∧
    (∃ out, (DeltaNodes.New 0 0 0).MergePartialFromCodedStream
        (PackedEntry 1 WriteSInt64NoTag [1] ++ PackedEntry 1 WriteSInt64NoTag [2])
          = .ok (out, []) ∧ out.id_.elements = [1, 2]) ∧
    (∃ out, (DeltaNodes.New 0 0 0).MergePartialFromCodedStream [0x10, 0x02, 0x12, 0x01, 0x04]
        = .ok (out, []) ∧ out.lat_.elements = [1, -1]) ∧
    (∃ out, (DeltaNodes.New 0 0 0).MergePartialFromCodedStream [0x18, 0x02, 0x1A, 0x01, 0x04]
        = .ok (out, []) ∧ out.lon_.elements = [1, -1]) :=
  ⟨rfl, ⟨_, rfl, rfl⟩, ⟨_, rfl, rfl⟩, ⟨_, rfl, rfl⟩, ⟨_, rfl, rfl⟩, ⟨_, rfl, rfl⟩⟩

/-! ## Order of the fields -/

theorem apply_comm_fields (a b c : List Int) (x y : Item)
    (hx : x ∈ [Item.ids a, Item.lats b, Item.lons c])
    (hy : y ∈ [Item.ids a, Item.lats b, Item.lons c]) (z : DeltaNodes) :
    Item.apply (Item.apply z x) y = Item.apply (Item.apply z y) x := by
  simp only [List.mem_cons, List.mem_singleton, List.not_mem_nil, or_false] at hx hy
  rcases hx with rfl | rfl | rfl <;> rcases hy with rfl | rfl | rfl <;> rfl

theorem PresentItems_contents (a b c : List Int) (pa pb pc : Bool) :
    ItemsIds (PresentItems a b c pa pb pc) = (if pa then a else []) ∧
    ItemsLats (PresentItems a b c pa pb pc) = (if pb then b else []) ∧
    ItemsLons (PresentItems a b c pa pb pc) = (if pc then c else []) := by
  cases pa <;> cases pb <;> cases pc <;> simp [PresentItems, ItemsIds, ItemsLats, ItemsLons]

theorem PresentItems_mem (a b c : List Int) (pa pb pc : Bool) (x : Item)
    (hx : x ∈ PresentItems a b c pa pb pc) : x ∈ [Item.ids a, Item.lats b, Item.lons c] := by
  cases pa <;> cases pb <;> cases pc <;> simp [PresentItems] at hx ⊢ <;> tauto

/-- C10. Field order independence: take the packed entries of fields 1, 2 and 3 of which
any may be absent, and present those that are there in any order (`items` is a
permutation of them). Decoding into a new batch succeeds, consumes the input and gives
the same result as decoding them in field-number order: the sequence of each field that
is present, the empty sequence for one that is absent. The jumps to `parse_lat` and
`parse_lon` after `ExpectTag(18)` and `ExpectTag(26)` do what the loop does when it reads
the tag 18 or 26 itself. -/
theorem field_order_independent (a b c : List Int) (pa pb pc : Bool) (items : List Item)
    (c1 c2 c3 : Int) (ha : (Item.ids a).Valid) (hb : (Item.lats b).Valid)
    (hc : (Item.lons c).Valid) (hperm : items.Perm (PresentItems a b c pa pb pc)) :
    (DeltaNodes.New c1 c2 c3).MergePartialFromCodedStream (ItemsBytes items)
      = (DeltaNodes.New c1 c2 c3).MergePartialFromCodedStream
          (ItemsBytes (PresentItems a b c pa pb pc)) ∧
    (∃ out, (DeltaNodes.New c1 c2 c3).MergePartialFromCodedStream (ItemsBytes items)
        = .ok (out, []) ∧
      out.id_.elements = (if pa then a else []) ∧ out.lat_.elements = (if pb then b else []) ∧
      out.lon_.elements = (if pc then c else [])) ∧
    (∀ (input : List Nat) (msg : DeltaNodes),
      parse_lat Decode input msg = msg.MergePartialFromCodedStream (18 :: input) ∧
      parse_lon Decode input msg = msg.MergePartialFromCodedStream (26 :: input)) := by
  have hmem : ∀ x ∈ items, x ∈ [Item.ids a, Item.lats b, Item.lons c] :=
    fun x hx => PresentItems_mem a b c pa pb pc x (hperm.mem_iff.mp hx)
  have hv3 : ∀ x ∈ [Item.ids a, Item.lats b, Item.lons c], x.Valid := by
    intro x hx
    simp only [List.mem_cons, List.mem_singleton, List.not_mem_nil, or_false] at hx
    rcases hx with rfl | rfl | rfl
    · exact ha
    · exact hb
    · exact hc
  have hvi : ∀ x ∈ items, x.Valid := fun x hx => hv3 x (hmem x hx)
  have hvs : ∀ x ∈ PresentItems a b c pa pb pc, x.Valid :=
    fun x hx => hv3 x (PresentItems_mem a b c pa pb pc x hx)
  have hfold : items.foldl Item.apply (DeltaNodes.New c1 c2 c3)
      = (PresentItems a b c pa pb pc).foldl Item.apply (DeltaNodes.New c1 c2 c3) :=
    hperm.foldl_eq' (fun x hx y hy z => apply_comm_fields a b c x y (hmem x hx) (hmem y hy) z) _
  obtain ⟨n1, n2, n3, _⟩ := New_foldl_contents (PresentItems a b c pa pb pc) c1 c2 c3
  obtain ⟨e1, e2, e3⟩ := PresentItems_contents a b c pa pb pc
  refine ⟨?_, ⟨_, Decode_items_New items c1 c2 c3 hvi, ?_, ?_, ?_⟩, ?_⟩
  · rw [Decode_items_New items c1 c2 c3 hvi, Decode_items_New _ c1 c2 c3 hvs, hfold]
  · rw [hfold, n1, e1]
  · rw [hfold, n2, e2]
  · rw [hfold, n3, e3]
  · intro input msg
    constructor
    · show _ = Decode (18 :: input) msg
      rw [Decode_step]; rfl
    · show _ = Decode (26 :: input) msg
      rw [Decode_step]; rfl

set_option maxRecDepth 100000 in
theorem field_order_independent_witness :
    ∃ out, (DeltaNodes.New 0 0 0).MergePartialFromCodedStream
        ([0x1A, 1, 6] ++ [0x0A, 2, 2, 4]) = .ok (out, []) ∧
      out.id_.elements = [1, 2] ∧ out.lat_.elements = [] ∧ out.lon_.elements = [3] :=
  (field_order_independent [1, 2] [-5] [3] true false true [.lons [3], .ids [1, 2]] 0 0 0
    (by decide) (by decide) (by decide) (List.Perm.swap _ _ _)).2.1

/-! ## Merging, clearing and swapping -/

theorem MergeFrom_elements (r other : RepeatedField) :
    (r.MergeFrom other).elements = r.elements ++ other.elements := by
  unfold RepeatedField.MergeFrom RepeatedField.Reserve
  split <;> rfl

/-- C11. Merge is concatenation: after `a.MergeFrom(b)` the ids, lats and lons of `a` are
the former sequences of `a` followed by those of `b`, and the unknown fields of `a` are
followed by those of `b`. Nothing is reordered, dropped or deduplicated: every value
occurs in the result as often as in `a` and `b` together, so two entries with the same id
both remain. The argument is a `const` reference and the function returns the new state
of `this` only: `b` is not written. -/
theorem merge_is_concatenation (a b : DeltaNodes) :
    (a.MergeFrom b).id_.elements = a.id_.elements ++ b.id_.elements ∧
    (a.MergeFrom b).lat_.elements = a.lat_.elements ++ b.lat_.elements ∧
    (a.MergeFrom b).lon_.elements = a.lon_.elements ++ b.lon_.elements ∧
    (a.MergeFrom b)._unknown_fields_ = a._unknown_fields_ ++ b._unknown_fields_ ∧
    (∀ x : Int,
      (a.MergeFrom b).id_.elements.count x = a.id_.elements.count x + b.id_.elements.count x ∧
      (a.MergeFrom b).lat_.elements.count x
        = a.lat_.elements.count x + b.lat_.elements.count x ∧
      (a.MergeFrom b).lon_.elements.count x
        = a.lon_.elements.count x + b.lon_.elements.count x) := by
  have h1 : (a.MergeFrom b).id_.elements = a.id_.elements ++ b.id_.elements :=
    MergeFrom_elements _ _
  have h2 : (a.MergeFrom b).lat_.elements = a.lat_.elements ++ b.lat_.elements :=
    MergeFrom_elements _ _
  have h3 : (a.MergeFrom b).lon_.elements = a.lon_.elements ++ b.lon_.elements :=
    MergeFrom_elements _ _
  refine ⟨h1, h2, h3, rfl, fun x => ?_⟩
  rw [h1, h2, h3]
  simp only [List.count_append, and_self]

/-- C12. Merge is associative: merging `b` and then `c` into `a` leaves the same ids,
lats, lons and unknown fields as merging into `a` the result of merging `c` into `b`. -/
theorem merge_associative (a b c : DeltaNodes) :
    ((a.MergeFrom b).MergeFrom c).id_.elements = (a.MergeFrom (b.MergeFrom c)).id_.elements ∧
    ((a.MergeFrom b).MergeFrom c).lat_.elements = (a.MergeFrom (b.MergeFrom c)).lat_.elements ∧
    ((a.MergeFrom b).MergeFrom c).lon_.elements = (a.MergeFrom (b.MergeFrom c)).lon_.elements ∧
    ((a.MergeFrom b).MergeFrom c)._unknown_fields_
      = (a.MergeFrom (b.MergeFrom c))._unknown_fields_ := by
  refine ⟨?_, ?_, ?_, ?_⟩
  · show ((a.id_.MergeFrom b.id_).MergeFrom c.id_).elements
      = (a.id_.MergeFrom (b.id_.MergeFrom c.id_)).elements
    simp only [MergeFrom_elements, List.append_assoc]
  · show ((a.lat_.MergeFrom b.lat_).MergeFrom c.lat_).elements
      = (a.lat_.MergeFrom (b.lat_.MergeFrom c.lat_)).elements
    simp only [MergeFrom_elements, List.append_assoc]
  · show ((a.lon_.MergeFrom b.lon_).MergeFrom c.lon_).elements
      = (a.lon_.MergeFrom (b.lon_.MergeFrom c.lon_)).elements
    simp only [MergeFrom_elements, List.append_assoc]
  · show (a._unknown_fields_ ++ b._unknown_fields_) ++ c._unknown_fields_
      = a._unknown_fields_ ++ (b._unknown_fields_ ++ c._unknown_fields_)
    exact List.append_assoc _ _ _

/-- Decoding valid entries into any batch appends what they carry: the basis of C13 and
C20. -/
theorem Decode_items_into (items : List Item) (x : DeltaNodes) (h : ∀ a ∈ items, a.Valid) :
    ∃ out, x.MergePartialFromCodedStream (ItemsBytes items) = .ok (out, []) ∧
      out.id_.elements = x.id_.elements ++ ItemsIds items ∧
      out.lat_.elements = x.lat_.elements ++ ItemsLats items ∧
      out.lon_.elements = x.lon_.elements ++ ItemsLons items ∧
      out._unknown_fields_ = x._unknown_fields_ ++ ItemsUnknown items := by
  have hd := Decode_items items [] x h
  rw [List.append_nil] at hd
  exact ⟨_, hd, foldl_apply_id _ _, foldl_apply_lat _ _, foldl_apply_lon _ _,
    foldl_apply_unknown _ _⟩

/-- Decoding an input made of valid packed entries and unknown entries into a batch `x`
gives the merge of `x` and of what the same input decodes to in a new batch. -/
theorem decode_items_merges (items : List Item) (x : DeltaNodes) (c1 c2 c3 : Int)
    (h : ∀ a ∈ items, a.Valid) :
    ∃ y out, (DeltaNodes.New c1 c2 c3).MergePartialFromCodedStream (ItemsBytes items)
        = .ok (y, []) ∧
      x.MergePartialFromCodedStream (ItemsBytes items) = .ok (out, []) ∧
      out.id_.elements = (x.MergeFrom y).id_.elements ∧
      out.lat_.elements = (x.MergeFrom y).lat_.elements ∧
      out.lon_.elements = (x.MergeFrom y).lon_.elements ∧
      out._unknown_fields_ = (x.MergeFrom y)._unknown_fields_ := by
  obtain ⟨y, hy, y1, y2, y3, y4⟩ := Decode_items_into items (DeltaNodes.New c1 c2 c3) h
  obtain ⟨out, ho, o1, o2, o3, o4⟩ := Decode_items_into items x h
  refine ⟨y, out, hy, ho, ?_, ?_, ?_, ?_⟩
  · rw [o1, show (x.MergeFrom y).id_.elements = _ from MergeFrom_elements _ _, y1]; rfl
  · rw [o2, show (x.MergeFrom y).lat_.elements = _ from MergeFrom_elements _ _, y2]; rfl
  · rw [o3, show (x.MergeFrom y).lon_.elements = _ from MergeFrom_elements _ _, y3]; rfl
  · rw [o4, show (x.MergeFrom y)._unknown_fields_ = x._unknown_fields_ ++ y._unknown_fields_
      from rfl, y4]; rfl

/-- C13 at the failing input: the bytes `08 02 0A 01 04` decode into a new batch with
success, giving `y` with ids `[1, -1]`. Decoded into a batch `x` that holds the ids
`[7, 8, 9]` in an allocation of four (the result of decoding `0A 03 0E 10 12` into a new
batch), the same bytes give the ids `[7, 8, 9, 1, 2]`, where
the merge of `x` and `y` has `[7, 8, 9, 1, -1]`. The non-packed reader continues with the
tag `0A` of the packed entry only while the field has reserved room, which the new batch
has and `x` has not. -/
theorem decode_into_batch_differs_from_merge :
    (DeltaNodes.New 0 0 0).MergePartialFromCodedStream [0x0A, 0x03, 0x0E, 0x10, 0x12]
      = .ok (sampleThreeIds, []) ∧
    ∃ y out, (DeltaNodes.New 0 0 0).MergePartialFromCodedStream [0x08, 0x02, 0x0A, 0x01, 0x04]
        = .ok (y, []) ∧
      y.id_.elements = [1, -1] ∧
      sampleThreeIds.MergePartialFromCodedStream [0x08, 0x02, 0x0A, 0x01, 0x04]
        = .ok (out, []) ∧
      out.id_.elements = [7, 8, 9, 1, 2] ∧
      (sampleThreeIds.MergeFrom y).id_.elements = [7, 8, 9, 1, -1] :=
  ⟨rfl, _, _, rfl, rfl, rfl, rfl, rfl⟩

/-- Counterexample to C14: a batch on which `ByteSize` has stored the size 18 in
`_cached_size_` still has 18 there after `Clear`. -/
theorem clear_keeps_cached_size :
    sampleBatch.ByteSize.2._cached_size_ = 18 ∧
    sampleBatch.ByteSize.2.Clear._cached_size_ = 18 ∧
    sampleBatch.ByteSize.2.Clear._cached_size_ ≠ 0 := by
  decide

/-- C14, amended. After `Clear` the ids, lats, lons and the unknown fields are empty and
the has-bits are zero. `_cached_size_` and the three per-field size caches keep the values
they had; `_cached_size_` is zero in a newly constructed batch, and the next `ByteSize`
on the cleared batch returns 0 and stores it. -/
theorem clear_empties_contents (msg : DeltaNodes) (c1 c2 c3 : Int) :
    msg.Clear.id_.elements = [] ∧ msg.Clear.lat_.elements = [] ∧
    msg.Clear.lon_.elements = [] ∧ msg.Clear._unknown_fields_ = [] ∧
    msg.Clear._has_bits_ = 0 ∧
    msg.Clear._cached_size_ = msg._cached_size_ ∧
    msg.Clear._id_cached_byte_size_ = msg._id_cached_byte_size_ ∧
    msg.Clear._lat_cached_byte_size_ = msg._lat_cached_byte_size_ ∧
    msg.Clear._lon_cached_byte_size_ = msg._lon_cached_byte_size_ ∧
    (DeltaNodes.New c1 c2 c3)._cached_size_ = 0 ∧
    msg.Clear.ByteSize.1 = 0 ∧ msg.Clear.ByteSize.2._cached_size_ = 0 ∧
    msg.Clear.SerializeWithCachedSizes = [] :=
  ⟨rfl, rfl, rfl, rfl, rfl, rfl, rfl, rfl, rfl, rfl, rfl, rfl, rfl⟩

/-- What `DeltaNodes::Swap` exchanges and what it leaves in place. -/
theorem Swap_fields (a b : DeltaNodes) :
    (a.Swap b).1.id_ = b.id_ ∧ (a.Swap b).1.lat_ = b.lat_ ∧ (a.Swap b).1.lon_ = b.lon_ ∧
    (a.Swap b).1._unknown_fields_ = b._unknown_fields_ ∧
    (a.Swap b).1._cached_size_ = b._cached_size_ ∧
    (a.Swap b).2.id_ = a.id_ ∧ (a.Swap b).2.lat_ = a.lat_ ∧ (a.Swap b).2.lon_ = a.lon_ ∧
    (a.Swap b).2._unknown_fields_ = a._unknown_fields_ ∧
    (a.Swap b).2._cached_size_ = a._cached_size_ ∧
    (a.Swap b).1._id_cached_byte_size_ = a._id_cached_byte_size_ ∧
    (a.Swap b).1._lat_cached_byte_size_ = a._lat_cached_byte_size_ ∧
    (a.Swap b).1._lon_cached_byte_size_ = a._lon_cached_byte_size_ ∧
    (a.Swap b).2._id_cached_byte_size_ = b._id_cached_byte_size_ ∧
    (a.Swap b).2._lat_cached_byte_size_ = b._lat_cached_byte_size_ ∧
    (a.Swap b).2._lon_cached_byte_size_ = b._lon_cached_byte_size_ :=
  ⟨rfl, rfl, rfl, rfl, rfl, rfl, rfl, rfl, rfl, rfl, rfl, rfl, rfl, rfl, rfl, rfl⟩

/-- C18 at the failing input: `a` holds the id `1` (payload of one byte), `b` the id
`1000000` (payload of three bytes), and `ByteSize` has been called on both. After
`a.Swap(b)`, `a` has the ids and the `_cached_size_` of `b` but still its own
`_id_cached_byte_size_ = 1`: `SerializeWithCachedSizes` on `a` writes `0A 01 80 89 7A`
where `b` would have written `0A 03 80 89 7A`, and what `a` writes does not decode. In
the same way `b` writes `0A 03 02` where `a` would have written `0A 01 02`. -/
theorem swap_leaves_field_size_caches :
    sampleLong.ByteSize.2.SerializeWithCachedSizes = [0x0A, 0x03, 0x80, 0x89, 0x7A] ∧
    sampleShort.ByteSize.2.SerializeWithCachedSizes = [0x0A, 0x01, 0x02] ∧
    (sampleShort.ByteSize.2.Swap sampleLong.ByteSize.2).1.id_.elements = [1000000] ∧
    (sampleShort.ByteSize.2.Swap sampleLong.ByteSize.2).1._cached_size_ = 5 ∧
    (sampleShort.ByteSize.2.Swap sampleLong.ByteSize.2).1._id_cached_byte_size_ = 1 ∧
    (sampleShort.ByteSize.2.Swap sampleLong.ByteSize.2).1.SerializeWithCachedSizes
      = [0x0A, 0x01, 0x80, 0x89, 0x7A] ∧
    (sampleShort.ByteSize.2.Swap sampleLong.ByteSize.2).2.SerializeWithCachedSizes
      = [0x0A, 0x03, 0x02] ∧
    (DeltaNodes.New 0 0 0).MergePartialFromCodedStream [0x0A, 0x01, 0x80, 0x89, 0x7A]
      = .fail := by
  refine ⟨by decide, by decide, by decide, by decide, by decide, by decide, by decide, rfl⟩

theorem foldl_ToArray (writeToArray : Int → List Nat → List Nat) (write : Int → List Nat)
    (h : ∀ v t, writeToArray v t = t ++ write v) (values : List Int) :
    ∀ target : List Nat,
      values.foldl (fun target value => writeToArray value target) target
        = target ++ (values.map write).flatten := by
  induction values with
  | nil => intro target; simp
  | cons v values ih =>
    intro target
    rw [List.foldl_cons, ih, h]
    simp

theorem SerializeFieldToArray_eq (field_number : Nat)
    (writeToArray : Int → List Nat → List Nat) (write : Int → List Nat)
    (h : ∀ v t, writeToArray v t = t ++ write v) (values : List Int) (cached : Int)
    (target : List Nat) :
    SerializeFieldToArray field_number writeToArray values cached target
      = target ++ SerializeField field_number write values cached := by
  unfold SerializeFieldToArray SerializeField
  simp only []
  rw [foldl_ToArray writeToArray write h]
  split
  · simp [WriteVarint32ToArray, WriteTagToArray, WriteTag, WriteVarint32]
  · simp

theorem SerializeWithCachedSizesToArray_eq (msg : DeltaNodes) (target : List Nat) :
    msg.SerializeWithCachedSizesToArray target = target ++ msg.SerializeWithCachedSizes := by
  unfold DeltaNodes.SerializeWithCachedSizesToArray DeltaNodes.SerializeWithCachedSizes
  simp only []
  rw [SerializeFieldToArray_eq 1 WriteSInt64NoTagToArray WriteSInt64NoTag (fun _ _ => rfl),
    SerializeFieldToArray_eq 2 WriteSInt32NoTagToArray WriteSInt32NoTag (fun _ _ => rfl),
    SerializeFieldToArray_eq 3 WriteSInt32NoTagToArray WriteSInt32NoTag (fun _ _ => rfl)]
  split
  · simp [SerializeUnknownFieldsToArray]
  · simp

/-- C19. The two serializers agree: `SerializeWithCachedSizesToArray` stores at `target`
exactly the bytes that `SerializeWithCachedSizes` writes to a stream, for every state of
the batch; and after `ByteSize`, for a serialization shorter than `2^31` bytes, the
position it returns is `target` advanced by the value `ByteSize` returned. -/
theorem array_serializer_agrees (msg : DeltaNodes) (target : List Nat)
    (hsize : msg.ByteSize.2.SerializeWithCachedSizes.length < 2 ^ 31) :
    msg.SerializeWithCachedSizesToArray target = target ++ msg.SerializeWithCachedSizes ∧
    msg.ByteSize.2.SerializeWithCachedSizesToArray target
      = target ++ msg.ByteSize.2.SerializeWithCachedSizes ∧
    ((msg.ByteSize.2.SerializeWithCachedSizesToArray target).length : Int)
      = (target.length : Int) + msg.ByteSize.1 := by
  refine ⟨SerializeWithCachedSizesToArray_eq _ _, SerializeWithCachedSizesToArray_eq _ _, ?_⟩
  rw [SerializeWithCachedSizesToArray_eq, List.length_append, ByteSize_eq_aux msg hsize]
  push_cast
  rfl

set_option maxRecDepth 100000 in
theorem array_serializer_agrees_witness :
    sampleBatch.ByteSize.2.SerializeWithCachedSizesToArray [0xFF, 0xFE]
      = [0xFF, 0xFE] ++ sampleBatch.ByteSize.2.SerializeWithCachedSizes ∧
    ((sampleBatch.ByteSize.2.SerializeWithCachedSizesToArray [0xFF, 0xFE]).length : Int)
      = (([0xFF, 0xFE] : List Nat).length : Int) + sampleBatch.ByteSize.1 :=
  (array_serializer_agrees sampleBatch [0xFF, 0xFE] sampleBatch_size).2

/-- C16. The scenario batch with ids `[1, -1, 1000000]`, lats `[0, -850000000]` and lons
`[0]`: `ByteSize` returns 18; the serialization is the frame of 7 bytes for the ids, the
frame of 8 bytes for the lats and the frame of 3 bytes for the lons; decoding it into a
new batch succeeds, consumes all 18 bytes and gives the three sequences back; and 18 is
less than the 24 bytes of six values at four bytes each. -/
theorem scenario_small_batch :
    sampleBatch.id_.elements = [1, -1, 1000000] ∧
    sampleBatch.lat_.elements = [0, -850000000] ∧
    sampleBatch.lon_.elements = [0] ∧
    sampleBatch._unknown_fields_ = [] ∧
    sampleBatch.ByteSize.1 = 18 ∧
    sampleBatch.ByteSize.2.SerializeWithCachedSizes
      = [0x0A, 5, 0x02, 0x01, 0x80, 0x89, 0x7A] ++ [0x12, 6, 0x00, 0xFF, 0xE1, 0xCF, 0xAA, 0x06]
        ++ [0x1A, 1, 0x00] ∧
    PackedFrame 1 WriteSInt64NoTag [1, -1, 1000000] = [0x0A, 5, 0x02, 0x01, 0x80, 0x89, 0x7A] ∧
    PackedFrame 2 WriteSInt32NoTag [0, -850000000]
      = [0x12, 6, 0x00, 0xFF, 0xE1, 0xCF, 0xAA, 0x06] ∧
    PackedFrame 3 WriteSInt32NoTag [0] = [0x1A, 1, 0x00] ∧
    sampleBatch.ByteSize.2.SerializeWithCachedSizes.length = 18 ∧
    (∃ out, (DeltaNodes.New 0 0 0).MergePartialFromCodedStream
        sampleBatch.ByteSize.2.SerializeWithCachedSizes = .ok (out, []) ∧
      out.id_.elements = [1, -1, 1000000] ∧ out.lat_.elements = [0, -850000000] ∧
      out.lon_.elements = [0] ∧ out._unknown_fields_ = []) ∧
    sampleBatch.ByteSize.1
      < 4 * ((sampleBatch.id_.elements.length : Int) + sampleBatch.lat_.elements.length
              + sampleBatch.lon_.elements.length) ∧
    4 * ((sampleBatch.id_.elements.length : Int) + sampleBatch.lat_.elements.length
          + sampleBatch.lon_.elements.length) = 24 := by
  refine ⟨rfl, rfl, rfl, rfl, by decide, by decide, by decide, by decide, by decide,
    by decide, round_trip_aux sampleBatch 0 0 0 sampleBatch_wf sampleBatch_size,
    by decide, by decide⟩

/-! ## Elements on the wire -/

/-- C15. Zig-zag varint round trip: an id element `n` (a signed 64-bit integer) and a lat
or lon element `m` (a signed 32-bit integer) are written as the varint of their zig-zag
image, `2 n` for a non-negative and `-2 n - 1` for a negative value; reading the written
bytes gives back exactly the element and leaves what follows them; and the element size
functions `SInt64Size` and `SInt32Size` return the number of bytes written. -/
theorem zigzag_varint_round_trip (n m : Int) (hn : IsInt64 n) (hm : IsInt32 m) :
    WriteSInt64NoTag n = WriteVarint64 (if 0 ≤ n then 2 * n else -2 * n - 1).toNat ∧
    (∀ rest, ReadSInt64 (WriteSInt64NoTag n ++ rest) = some (n, rest)) ∧
    SInt64Size n = ((WriteSInt64NoTag n).length : Int) ∧
    WriteSInt32NoTag m = WriteVarint32 (if 0 ≤ m then 2 * m else -2 * m - 1).toNat ∧
    (∀ rest, ReadSInt32 (WriteSInt32NoTag m ++ rest) = some (m, rest)) ∧
    SInt32Size m = ((WriteSInt32NoTag m).length : Int) := by
  refine ⟨?_, fun rest => ReadSInt64_Write n rest hn, SInt64Size_eq n, ?_,
    fun rest => ReadSInt32_Write m rest hm, SInt32Size_eq m⟩
  · unfold WriteSInt64NoTag; rw [ZigZagEncode64_eq n hn]
  · unfold WriteSInt32NoTag; rw [ZigZagEncode32_eq m hm]

theorem zigzag_varint_round_trip_witness :
    (∀ rest, ReadSInt64 (WriteSInt64NoTag (-9223372036854775808) ++ rest)
      = some (-9223372036854775808, rest)) ∧
    SInt64Size (-9223372036854775808) = ((WriteSInt64NoTag (-9223372036854775808)).length : Int) ∧
    (∀ rest, ReadSInt32 (WriteSInt32NoTag (-850000000) ++ rest) = some (-850000000, rest)) ∧
    SInt32Size (-850000000) = ((WriteSInt32NoTag (-850000000)).length : Int) :=
  have h := zigzag_varint_round_trip (-9223372036854775808) (-850000000) (by decide) (by decide)
  ⟨h.2.1, h.2.2.1, h.2.2.2.2.1, h.2.2.2.2.2⟩

/-- C20. Concatenation of encodings is merge: for batches `a` and `b` with elements in
range (and, where they have unknown fields, valid ones), decoding the serialization of
`a` followed by the serialization of `b` into a new batch succeeds, consumes the input,
and gives the ids, lats, lons (and unknown fields) of `a.MergeFrom(b)`. -/
theorem concatenation_decodes_as_merge (a b : DeltaNodes) (c1 c2 c3 : Int)
    (hwa : a.WellFormed) (hwb : b.WellFormed)
    (hsa : a.ByteSize.2.SerializeWithCachedSizes.length < 2 ^ 31)
    (hsb : b.ByteSize.2.SerializeWithCachedSizes.length < 2 ^ 31) :
    ∃ out, (DeltaNodes.New c1 c2 c3).MergePartialFromCodedStream
        (a.ByteSize.2.SerializeWithCachedSizes ++ b.ByteSize.2.SerializeWithCachedSizes)
          = .ok (out, []) ∧
      out.id_.elements = (a.MergeFrom b).id_.elements ∧
      out.lat_.elements = (a.MergeFrom b).lat_.elements ∧
      out.lon_.elements = (a.MergeFrom b).lon_.elements ∧
      out._unknown_fields_ = (a.MergeFrom b)._unknown_fields_ := by
  obtain ⟨pa1, pa2, pa3⟩ := payload_bounds a hsa
  obtain ⟨pb1, pb2, pb3⟩ := payload_bounds b hsb
  obtain ⟨a1, a2, a3, a4⟩ := BatchItems_contents a
  obtain ⟨b1, b2, b3, b4⟩ := BatchItems_contents b
  have hv : ∀ x ∈ BatchItems a ++ BatchItems b, x.Valid := by
    intro x hx
    rcases List.mem_append.mp hx with h | h
    · exact BatchItems_valid a hwa pa1 pa2 pa3 x h
    · exact BatchItems_valid b hwb pb1 pb2 pb3 x h
  obtain ⟨out, ho, o1, o2, o3, o4⟩ :=
    Decode_items_into (BatchItems a ++ BatchItems b) (DeltaNodes.New c1 c2 c3) hv
  rw [ItemsBytes_append, ← Serialize_BatchItems, ← Serialize_BatchItems] at ho
  refine ⟨out, ho, ?_, ?_, ?_, ?_⟩
  · rw [o1, ItemsIds_append, a1, b1,
      show (a.MergeFrom b).id_.elements = _ from MergeFrom_elements _ _]; rfl
  · rw [o2, ItemsLats_append, a2, b2,
      show (a.MergeFrom b).lat_.elements = _ from MergeFrom_elements _ _]; rfl
  · rw [o3, ItemsLons_append, a3, b3,
      show (a.MergeFrom b).lon_.elements = _ from MergeFrom_elements _ _]; rfl
  · rw [o4, ItemsUnknown_append, a4, b4]; rfl

theorem concatenation_decodes_as_merge_witness :
    sampleBatch.WellFormed ∧ sampleNoLat.WellFormed ∧
    sampleBatch.ByteSize.2.SerializeWithCachedSizes.length < 2 ^ 31 ∧
    sampleNoLat.ByteSize.2.SerializeWithCachedSizes.length < 2 ^ 31 ∧
    ∃ out, (DeltaNodes.New 0 0 0).MergePartialFromCodedStream
        (sampleBatch.ByteSize.2.SerializeWithCachedSizes
          ++ sampleNoLat.ByteSize.2.SerializeWithCachedSizes) = .ok (out, []) ∧
      out.id_.elements = (sampleBatch.MergeFrom sampleNoLat).id_.elements ∧
      out.lat_.elements = (sampleBatch.MergeFrom sampleNoLat).lat_.elements ∧
      out.lon_.elements = (sampleBatch.MergeFrom sampleNoLat).lon_.elements ∧
      out._unknown_fields_ = (sampleBatch.MergeFrom sampleNoLat)._unknown_fields_ :=
  ⟨sampleBatch_wf, sampleNoLat_wf, sampleBatch_size, sampleNoLat_size,
    concatenation_decodes_as_merge sampleBatch sampleNoLat 0 0 0 sampleBatch_wf sampleNoLat_wf
      sampleBatch_size sampleNoLat_size⟩

/-! ## Over-long and unterminated varints -/

theorem ReadVarintLoop_Unterminated (k : Nat) : ∀ bytes : List Nat,
    Unterminated k bytes → ReadVarintLoop k bytes = none := by
  induction k with
  | zero => intro bytes _; cases bytes <;> rfl
  | succ k ih =>
    intro bytes h
    cases bytes with
    | nil => rfl
    | cons b rest =>
      have hb : 0x80 ≤ b := by
        rcases h with h | ⟨_, h⟩
        · exact h b (List.mem_cons_self _ _)
        · exact h b (by rw [List.take_succ_cons]; exact List.mem_cons_self _ _)
      have hrest : Unterminated k rest := by
        rcases h with h | ⟨hl, h⟩
        · exact Or.inl (fun c hc => h c (List.mem_cons_of_mem _ hc))
        · refine Or.inr ⟨by simpa using hl, fun c hc => h c ?_⟩
          rw [List.take_succ_cons]; exact List.mem_cons_of_mem _ hc
      rw [ReadVarintLoop, if_neg (by omega), ih rest hrest]

theorem ReadSInt32_Unterminated (bytes : List Nat) (h : Unterminated 5 bytes) :
    ReadSInt32 bytes = none := by
  unfold ReadSInt32 ReadVarint32
  rw [ReadVarintLoop_Unterminated 5 bytes h]

theorem ReadSInt64_Unterminated (bytes : List Nat) (h : Unterminated 10 bytes) :
    ReadSInt64 bytes = none := by
  unfold ReadSInt64 ReadVarint64
  rw [ReadVarintLoop_Unterminated 10 bytes h]

theorem ReadPackedLoop_bad (read : List Nat → Option (Int × List Nat))
    (write : Int → List Nat) (hne : ∀ x, write x ≠ []) (bad : List Nat) (hbad : bad ≠ [])
    (hread : read bad = none) (s : List Int) :
    ∀ (k : Nat) (values : RepeatedField),
      (∀ x ∈ s, ∀ rest, read (write x ++ rest) = some (x, rest)) → s.length < k →
      ReadPackedLoop read k (Payload write s ++ bad) values = .fail := by
  induction s with
  | nil =>
    intro k values _ hk
    obtain ⟨k, rfl⟩ : ∃ k', k = k' + 1 := ⟨k - 1, by simp at hk; omega⟩
    obtain ⟨b, w, hw⟩ := List.exists_cons_of_ne_nil hbad
    rw [Payload_nil, List.nil_append]
    rw [hw] at hread ⊢
    rw [ReadPackedLoop, hread]
  | cons x s ih =>
    intro k values hrt hk
    obtain ⟨k, rfl⟩ : ∃ k', k = k' + 1 := ⟨k - 1, by simp at hk; omega⟩
    rw [Payload_cons, List.append_assoc]
    obtain ⟨b, w, hw⟩ := List.exists_cons_of_ne_nil (hne x)
    have h1 := hrt x (List.mem_cons_self _ _) (Payload write s ++ bad)
    rw [hw] at h1 ⊢
    rw [List.cons_append] at h1 ⊢
    rw [ReadPackedLoop, h1]
    exact ih k _ (fun y hy => hrt y (List.mem_cons_of_mem _ hy)) (by simpa using hk)

theorem ReadPackedPrimitive_bad (read : List Nat → Option (Int × List Nat))
    (write : Int → List Nat) (hne : ∀ x, write x ≠ []) (s : List Int) (bad tail : List Nat)
    (values : RepeatedField) (hbad : bad ≠ []) (hread : read bad = none)
    (hrt : ∀ x ∈ s, ∀ rest, read (write x ++ rest) = some (x, rest))
    (hlen : (Payload write s ++ bad).length < 2 ^ 32) :
    ReadPackedPrimitive read
      (WriteVarint32 (Payload write s ++ bad).length ++ (Payload write s ++ bad) ++ tail) values
      = .fail := by
  unfold ReadPackedPrimitive
  rw [List.append_assoc, ReadVarint32_Write _ _ hlen]
  simp only []
  rw [if_neg (by simp), List.take_left,
    ReadPackedLoop_bad read write hne bad hbad hread s _ values hrt]
  · rfl
  · have := Payload_length_ge write hne s
    have hb : 0 < bad.length := List.length_pos.mpr hbad
    rw [List.length_append]; omega

theorem Decode_bad_id (s : List Int) (bad tail : List Nat) (msg : DeltaNodes)
    (hs : ∀ x ∈ s, IsInt64 x) (hbad : bad ≠ []) (hu : Unterminated 10 bad)
    (hlen : (Payload WriteSInt64NoTag s ++ bad).length < 2 ^ 32) :
    Decode (0x0A :: (WriteVarint32 (Payload WriteSInt64NoTag s ++ bad).length
      ++ (Payload WriteSInt64NoTag s ++ bad) ++ tail)) msg = .fail := by
  rw [Decode_step]
  show case_id Decode 10 _ msg = _
  unfold case_id
  rw [if_pos (by decide),
    ReadPackedPrimitive_bad ReadSInt64 WriteSInt64NoTag WriteSInt64NoTag_ne_nil s bad tail _ hbad
      (ReadSInt64_Unterminated bad hu) (fun x hx rest => ReadSInt64_Write x rest (hs x hx)) hlen]
  rfl

theorem Decode_bad_lat (s : List Int) (bad tail : List Nat) (msg : DeltaNodes)
    (hs : ∀ x ∈ s, IsInt32 x) (hbad : bad ≠ []) (hu : Unterminated 5 bad)
    (hlen : (Payload WriteSInt32NoTag s ++ bad).length < 2 ^ 32) :
    Decode (0x12 :: (WriteVarint32 (Payload WriteSInt32NoTag s ++ bad).length
      ++ (Payload WriteSInt32NoTag s ++ bad) ++ tail)) msg = .fail := by
  rw [Decode_step]
  show parse_lat Decode _ msg = _
  unfold parse_lat
  rw [ReadPackedPrimitive_bad ReadSInt32 WriteSInt32NoTag WriteSInt32NoTag_ne_nil s bad tail _ hbad
      (ReadSInt32_Unterminated bad hu) (fun x hx rest => ReadSInt32_Write x rest (hs x hx)) hlen]
  rfl

theorem Decode_bad_lon (s : List Int) (bad tail : List Nat) (msg : DeltaNodes)
    (hs : ∀ x ∈ s, IsInt32 x) (hbad : bad ≠ []) (hu : Unterminated 5 bad)
    (hlen : (Payload WriteSInt32NoTag s ++ bad).length < 2 ^ 32) :
    Decode (0x1A :: (WriteVarint32 (Payload WriteSInt32NoTag s ++ bad).length
      ++ (Payload WriteSInt32NoTag s ++ bad) ++ tail)) msg = .fail := by
  rw [Decode_step]
  show parse_lon Decode _ msg = _
  unfold parse_lon
  rw [ReadPackedPrimitive_bad ReadSInt32 WriteSInt32NoTag WriteSInt32NoTag_ne_nil s bad tail _ hbad
      (ReadSInt32_Unterminated bad hu) (fun x hx rest => ReadSInt32_Write x rest (hs x hx)) hlen]
  rfl

theorem Decode_bad_legacy (bad : List Nat) (msg : DeltaNodes) :
    (Unterminated 10 bad → Decode (0x08 :: bad) msg = .fail) ∧
    (Unterminated 5 bad → Decode (0x10 :: bad) msg = .fail) ∧
    (Unterminated 5 bad → Decode (0x18 :: bad) msg = .fail) := by
  refine ⟨fun hu => ?_, fun hu => ?_, fun hu => ?_⟩
  · rw [Decode_step]
    show case_id Decode 8 bad msg = _
    unfold case_id ReadRepeatedPrimitiveNoInline
    rw [if_neg (by decide), if_pos (by decide), ReadSInt64_Unterminated bad hu]
    rfl
  · rw [Decode_step]
    show case_lat Decode 16 bad msg = _
    unfold case_lat ReadRepeatedPrimitiveNoInline
    rw [if_neg (by decide), if_pos (by decide), ReadSInt32_Unterminated bad hu]
    rfl
  · rw [Decode_step]
    show case_lon Decode 24 bad msg = _
    unfold case_lon ReadRepeatedPrimitiveNoInline
    rw [if_neg (by decide), if_pos (by decide), ReadSInt32_Unterminated bad hu]
    rfl

/-- C17. Over-long and unterminated varints are rejected. After any valid entries, take a
packed entry of ids, lats or lons whose payload holds valid elements `s` followed by
bytes `bad` that are no complete element: either the first 10 bytes (ids) or 5 bytes
(lats, lons) of `bad` all carry the continuation bit, or every byte of `bad` carries it
and the payload ends there. Decoding fails, whatever follows the entry. The same holds
for an element in the non-packed form (tag `08`, `10`, `18`) when `bad` is the rest of
the input. -/
theorem malformed_varint_rejected (items : List Item) (s : List Int) (bad tail : List Nat)
    (msg : DeltaNodes) (hitems : ∀ a ∈ items, a.Valid) (hbad : bad ≠ []) :
    ((∀ x ∈ s, IsInt64 x) → Unterminated 10 bad →
      (Payload WriteSInt64NoTag s ++ bad).length < 2 ^ 31 →
      msg.MergePartialFromCodedStream
        (ItemsBytes items ++ 0x0A :: (WriteVarint32 (Payload WriteSInt64NoTag s ++ bad).length
          ++ (Payload WriteSInt64NoTag s ++ bad) ++ tail)) = .fail) ∧
    ((∀ x ∈ s, IsInt32 x) → Unterminated 5 bad →
      (Payload WriteSInt32NoTag s ++ bad).length < 2 ^ 31 →
      msg.MergePartialFromCodedStream
        (ItemsBytes items ++ 0x12 :: (WriteVarint32 (Payload WriteSInt32NoTag s ++ bad).length
          ++ (Payload WriteSInt32NoTag s ++ bad) ++ tail)) = .fail ∧
      msg.MergePartialFromCodedStream
        (ItemsBytes items ++ 0x1A :: (WriteVarint32 (Payload WriteSInt32NoTag s ++ bad).length
          ++ (Payload WriteSInt32NoTag s ++ bad) ++ tail)) = .fail) ∧
    (Unterminated 10 bad →
      msg.MergePartialFromCodedStream (ItemsBytes items ++ 0x08 :: bad) = .fail) ∧
    (Unterminated 5 bad →
      msg.MergePartialFromCodedStream (ItemsBytes items ++ 0x10 :: bad) = .fail ∧
      msg.MergePartialFromCodedStream (ItemsBytes items ++ 0x18 :: bad) = .fail) := by
  have hd : ∀ input, msg.MergePartialFromCodedStream (ItemsBytes items ++ input)
      = Decode input (items.foldl Item.apply msg) := fun input => Decode_items items input msg hitems
  obtain ⟨l1, l2, l3⟩ := Decode_bad_legacy bad (items.foldl Item.apply msg)
  refine ⟨fun hs hu hlen => ?_, fun hs hu hlen => ⟨?_, ?_⟩, fun hu => ?_, fun hu => ⟨?_, ?_⟩⟩
  · rw [hd]; exact Decode_bad_id s bad tail _ hs hbad hu (by omega)
  · rw [hd]; exact Decode_bad_lat s bad tail _ hs hbad hu (by omega)
  · rw [hd]; exact Decode_bad_lon s bad tail _ hs hbad hu (by omega)
  · rw [hd]; exact l1 hu
  · rw [hd]; exact l2 hu
  · rw [hd]; exact l3 hu

set_option maxRecDepth 100000 in
theorem malformed_varint_rejected_witness :
    (DeltaNodes.New 0 0 0).MergePartialFromCodedStream
      (ItemsBytes [.ids [1, 2]] ++
        0x12 :: (WriteVarint32
            (Payload WriteSInt32NoTag [3] ++ [0x80, 0x80, 0x80, 0x80, 0x80, 0x01]).length
          ++ (Payload WriteSInt32NoTag [3] ++ [0x80, 0x80, 0x80, 0x80, 0x80, 0x01])
          ++ [0x1A, 1, 0]))
      = .fail ∧
    ItemsBytes [.ids [1, 2]] ++
        0x12 :: (WriteVarint32
            (Payload WriteSInt32NoTag [3] ++ [0x80, 0x80, 0x80, 0x80, 0x80, 0x01]).length
          ++ (Payload WriteSInt32NoTag [3] ++ [0x80, 0x80, 0x80, 0x80, 0x80, 0x01])
          ++ [0x1A, 1, 0])
      = [0x0A, 2, 2, 4, 0x12, 7, 6, 0x80, 0x80, 0x80, 0x80, 0x80, 0x01, 0x1A, 1, 0] :=
  ⟨((malformed_varint_rejected [.ids [1, 2]] [3] [0x80, 0x80, 0x80, 0x80, 0x80, 0x01]
      [0x1A, 1, 0] (DeltaNodes.New 0 0 0) (by decide) (by decide)).2.1
      (by decide) (by decide) (by decide)).1,
    by decide⟩

end Imposm
